import Mathlib

/-!
Two-people game (kahoot-game backend): scoring engine, game flow, session
handlers and Hub.

A shallow embedding of `internal/models/models.go`,
`internal/services/game_service.go`, `internal/websocket/client.go` and
`internal/websocket/hub.go`.

Modelling conventions.

* A Go `map[string]*T` is a list of `(key, value)` pairs with pairwise distinct
  keys; the order of the list is the order in which a `range` statement
  enumerates the map.  Distinctness of keys is the hypothesis `KeysNodup`.
  Rooms are decoded from JSON on every access, so every key owns its own
  record: values are copied, never shared.
* Go `int` is `Int`.  Scores start at 0 and grow by at most 150 per round, far
  from the ends of the 64-bit range.
* Go `float64` response times are exact rationals; `int(f)` discards the
  fractional part (truncation toward zero).
* Log output is not modelled.
-/

set_option linter.dupNamespace false

namespace Kahoot

/-! ## Data model (`models.go`) -/

/-- Player record (`models.Player`), fields used by the game logic. -/
structure Player where
  ID : String
  Name : String
  Score : Int
  IsHost : Bool
  deriving DecidableEq, Repr

/-- Room life-cycle states (`models.RoomStatus`). -/
inductive RoomStatus where
  | waiting
  | starting
  | questionDisplay
  | answering
  | showResult
  | finished
  deriving DecidableEq, Repr

/-- Two-option question (`models.Question`). -/
structure Question where
  ID : Int
  QuestionText : String
  OptionA : String
  OptionB : String
  Category : String
  deriving DecidableEq, Repr

/-- Submitted answer (`models.Answer`); `SubmittedAt` is not modelled. -/
structure Answer where
  PlayerID : String
  QuestionID : Int
  Answer : String
  IsCorrect : Bool
  ResponseTime : ℚ
  ScoreGained : Int
  WasHost : Bool
  HostAnswer : String
  deriving DecidableEq, Repr

/-- Score line of one player (`models.ScoreInfo`). -/
structure ScoreInfo where
  PlayerID : String
  PlayerName : String
  Score : Int
  Rank : Int
  ScoreGained : Int
  deriving DecidableEq, Repr

/-- Finalised round (`models.QuestionHistory`). -/
structure QuestionHistory where
  QuestionID : Int
  QuestionNum : Int
  HostPlayerID : String
  HostAnswer : String
  PlayerAnswers : List (String × Answer)
  deriving DecidableEq, Repr

/-- End-of-game statistics of one player (`models.PlayerGameStats`). -/
structure PlayerGameStats where
  PlayerID : String
  PlayerName : String
  TotalScore : Int
  Rank : Int
  TotalQuestions : Int
  AsHost : Int
  AsGuesser : Int
  CorrectGuesses : Int
  GuessAccuracy : ℚ
  deriving DecidableEq, Repr

/-- Room aggregate (`models.Room`); timestamps and `TimeLeft` are not modelled. -/
structure Room where
  ID : String
  HostID : String
  HostName : String
  Status : RoomStatus
  Players : List (String × Player)
  CurrentQuestion : Int
  TotalQuestions : Int
  QuestionTimeLimit : Int
  CurrentHost : String
  NextHostOverride : String
  Questions : List Question
  Answers : List (String × Answer)
  GameHistory : List QuestionHistory
  deriving DecidableEq, Repr

/-! ## Go maps as association lists -/

/-- Keys of a map in enumeration order. -/
def mapKeys {α : Type} (m : List (String × α)) : List String :=
  m.map Prod.fst

/-- Keys of a Go map are pairwise distinct. -/
def KeysNodup {α : Type} (m : List (String × α)) : Prop :=
  (mapKeys m).Nodup

instance {α : Type} (m : List (String × α)) : Decidable (KeysNodup m) := by
  unfold KeysNodup; infer_instance

/-- Map read `m[key]`, with the comma-ok result as an `Option`. -/
def mapGet {α : Type} : List (String × α) → String → Option α
  | [], _ => none
  | (k, v) :: rest, key => if k = key then some v else mapGet rest key

/-- Write through the pointer stored under `key`: the record under `key` is
replaced, every other entry and the enumeration order are kept. -/
def mapUpdate {α : Type} : List (String × α) → String → α → List (String × α)
  | [], _, _ => []
  | (k, w) :: rest, key, v =>
    if k = key then (k, v) :: rest else (k, w) :: mapUpdate rest key v

/-! ## Scoring (`game_service.go`, `CalculateTwoTypesScores`) -/

/-- Go conversion `int(f)` of a float to an integer: the fractional part is
discarded, so the value moves toward zero. -/
def truncToInt (q : ℚ) : Int :=
  Int.tdiv q.num q.den

/-- Speed bonus of lines 258-264:
`timeBonus := int((float64(room.QuestionTimeLimit) - answer.ResponseTime) * 1.5)`,
then raised to 0 and capped at 50. -/
def timeBonus (questionTimeLimit : Int) (responseTime : ℚ) : Int :=
  let timeBonus := truncToInt (((questionTimeLimit : ℚ) - responseTime) * 1.5)
  let timeBonus := if timeBonus < 0 then 0 else timeBonus
  if timeBonus > 50 then 50 else timeBonus

/-- Lines 222-229: the host's recorded option, the empty string when the
answers map has no entry under the current host. -/
def findHostAnswer (currentHost : String) : List (String × Answer) → String
  | [] => ""
  | (playerID, answer) :: rest =>
    if playerID = currentHost then answer.Answer else findHostAnswer currentHost rest

/-- Lines 239-274: the points of one player in this round. -/
def scoreGainedOf (currentHost : String) (questionTimeLimit : Int) (hostAnswer : String)
    (playerID : String) (entry : Option Answer) : Int :=
  match entry with
  | some answer =>
    if playerID = currentHost then 50
    else if answer.Answer = hostAnswer then
      100 + timeBonus questionTimeLimit answer.ResponseTime
    else 0
  | none => 0

/-- Lines 288-294: back-fill of the answer record of `playerID`. -/
def backfill (currentHost hostAnswer playerID : String) (scoreGained : Int)
    (answer : Answer) : Answer :=
  let answer := { answer with ScoreGained := scoreGained }
  if playerID ≠ currentHost then
    { answer with IsCorrect := decide (answer.Answer = hostAnswer) }
  else answer

/-- State of the loop over the players: the player records written so far, the
answers map, and the score lines appended so far. -/
structure ScoreLoop where
  players : List (String × Player)
  answers : List (String × Answer)
  scores : List ScoreInfo
  deriving DecidableEq, Repr

/-- Lines 237-295: one iteration per enumerated player. -/
def scoreLoop (currentHost : String) (questionTimeLimit : Int) (hostAnswer : String) :
    List (String × Player) → List (String × Answer) → ScoreLoop
  | [], answers => { players := [], answers := answers, scores := [] }
  | (playerID, player) :: rest, answers =>
    let entry := mapGet answers playerID
    let scoreGained := scoreGainedOf currentHost questionTimeLimit hostAnswer playerID entry
    let player := { player with Score := player.Score + scoreGained }
    let info : ScoreInfo :=
      { PlayerID := playerID, PlayerName := player.Name, Score := player.Score,
        Rank := 0, ScoreGained := scoreGained }
    let answers :=
      match entry with
      | some answer =>
        mapUpdate answers playerID (backfill currentHost hostAnswer playerID scoreGained answer)
      | none => answers
    let st := scoreLoop currentHost questionTimeLimit hostAnswer rest answers
    { players := (playerID, player) :: st.players, answers := st.answers,
      scores := info :: st.scores }

/-! ### The hand-written exchange loop (lines 302-309 and 428-435) -/

/-- Body of the inner loop: `if s[j].key > s[i].key { s[i], s[j] = s[j], s[i] }`. -/
def exchangeStep {α : Type} (key : α → Int) (s : List α) (i j : Nat) : List α :=
  match s[i]?, s[j]? with
  | some a, some b => if key b > key a then (s.set i b).set j a else s
  | _, _ => s

/-- Inner loop `for j := ...; j < len(s); j++`, at most `fuel` iterations. -/
def innerLoop {α : Type} (key : α → Int) (i : Nat) : Nat → Nat → List α → List α
  | 0, _, s => s
  | fuel + 1, j, s =>
    if j < s.length then innerLoop key i fuel (j + 1) (exchangeStep key s i j) else s

/-- Outer loop `for i := ...; i < len(s); i++`, at most `fuel` iterations; the
inner loop starts at `j = i + 1`. -/
def outerLoop {α : Type} (key : α → Int) : Nat → Nat → List α → List α
  | 0, _, s => s
  | fuel + 1, i, s =>
    if i < s.length then outerLoop key fuel (i + 1) (innerLoop key i s.length (i + 1) s)
    else s

/-- The two nested loops from `i = 0`.  Both loops count upward to `len(s)`,
which the exchanges do not change, so `len(s)` iterations always suffice. -/
def exchangeSort {α : Type} (key : α → Int) (s : List α) : List α :=
  outerLoop key s.length 0 s

/-- Lines 312-314: `scores[i].Rank = i + 1`. -/
def setRanks (scores : List ScoreInfo) : List ScoreInfo :=
  scores.mapIdx fun i score => { score with Rank := (i : Int) + 1 }

/-- Outcome of `CalculateTwoTypesScores`: the room with the updated player
records, the answers map with the back-filled records, and the returned list. -/
structure ScoreResult where
  room : Room
  answers : List (String × Answer)
  scores : List ScoreInfo
  deriving DecidableEq, Repr

/-- `GameService.CalculateTwoTypesScores(room, answers)`. -/
def CalculateTwoTypesScores (room : Room) (answers : List (String × Answer)) : ScoreResult :=
  let hostAnswer := findHostAnswer room.CurrentHost answers
  let st := scoreLoop room.CurrentHost room.QuestionTimeLimit hostAnswer room.Players answers
  { room := { room with Players := st.players },
    answers := st.answers,
    scores := setRanks (exchangeSort (fun score => score.Score) st.scores) }

/-- Points of `playerID` in this round, computed from the answers map as it is
passed to `CalculateTwoTypesScores`. -/
def roundPoints (room : Room) (answers : List (String × Answer)) (playerID : String) : Int :=
  scoreGainedOf room.CurrentHost room.QuestionTimeLimit
    (findHostAnswer room.CurrentHost answers) playerID (mapGet answers playerID)

/-! ## End-of-game statistics (`calculatePlayerGameStats`) -/

/-- Lines 370-381: one zeroed statistics record per player.  The keys of
`room.Players` are distinct, so every assignment `statsMap[playerID] = ...`
creates a new entry.  The list order of the result stands for the order in
which the final `range statsMap` enumerates it; the two loops before it only
write through keys, so their own enumeration order has no effect. -/
def initStats (room : Room) : List (String × PlayerGameStats) :=
  room.Players.map fun e =>
    (e.1,
      { PlayerID := e.1, PlayerName := e.2.Name, TotalScore := e.2.Score, Rank := 0,
        TotalQuestions := room.TotalQuestions, AsHost := 0, AsGuesser := 0,
        CorrectGuesses := 0, GuessAccuracy := 0 })

/-- Lines 390-403: the counters of one record after one more answer. -/
def countAnswer (stats : PlayerGameStats) (answer : Answer) : PlayerGameStats :=
  if answer.WasHost then { stats with AsHost := stats.AsHost + 1 }
  else
    let stats := { stats with AsGuesser := stats.AsGuesser + 1 }
    if answer.IsCorrect then { stats with CorrectGuesses := stats.CorrectGuesses + 1 }
    else stats

/-- Lines 388-405: one answer of a history entry; players that are no longer in
the room are skipped. -/
def tallyAnswer (statsMap : List (String × PlayerGameStats)) (entry : String × Answer) :
    List (String × PlayerGameStats) :=
  match mapGet statsMap entry.1 with
  | some stats => mapUpdate statsMap entry.1 (countAnswer stats entry.2)
  | none => statsMap

/-- Lines 384-406: all answers of all history entries. -/
def tallyHistory (statsMap : List (String × PlayerGameStats)) (history : List QuestionHistory) :
    List (String × PlayerGameStats) :=
  history.foldl (fun m entry => entry.PlayerAnswers.foldl tallyAnswer m) statsMap

/-- Lines 412-416: the guess accuracy in percent, 0 for a player who never guessed. -/
def withAccuracy (stats : PlayerGameStats) : PlayerGameStats :=
  if stats.AsGuesser > 0 then
    { stats with
      GuessAccuracy := (stats.CorrectGuesses : ℚ) / (stats.AsGuesser : ℚ) * 100 }
  else { stats with GuessAccuracy := 0 }

/-- Lines 438-440: `result[i].Rank = i + 1`. -/
def setStatsRanks (result : List PlayerGameStats) : List PlayerGameStats :=
  result.mapIdx fun i stats => { stats with Rank := (i : Int) + 1 }

/-- `GameService.calculatePlayerGameStats(room)`. -/
def calculatePlayerGameStats (room : Room) : List PlayerGameStats :=
  let statsMap := tallyHistory (initStats room) room.GameHistory
  let result := statsMap.map fun e => withAccuracy e.2
  setStatsRanks (exchangeSort (fun stats => stats.TotalScore) result)

/-- One run of the inner loop seen on the slot `p = s[i]` and the slots after it. -/
def pivotPass {α : Type} (key : α → Int) : α → List α → α × List α
  | p, [] => (p, [])
  | p, y :: ys =>
    if key y > key p then ((pivotPass key y ys).1, p :: (pivotPass key y ys).2)
    else ((pivotPass key p ys).1, y :: (pivotPass key p ys).2)

/-- While the loop runs, every record of the answers map is either the one
passed in or its back-filled version. -/
def Threaded (h : String) (T : Int) (ha : String) (answers0 answers : List (String × Answer)) :
    Prop :=
  ∀ k, mapGet answers k = mapGet answers0 k ∨
    ∃ a, mapGet answers0 k = some a ∧
      mapGet answers k
        = some (backfill h ha k (scoreGainedOf h T ha k (mapGet answers0 k)) a)

/-- The write of one iteration, as a function of the answers map. -/
def stepAnswers (h : String) (T : Int) (ha : String) (answers : List (String × Answer))
    (playerID : String) : List (String × Answer) :=
  match mapGet answers playerID with
  | some answer =>
    mapUpdate answers playerID
      (backfill h ha playerID (scoreGainedOf h T ha playerID (mapGet answers playerID)) answer)
  | none => answers

/-- Score line of one player before the list is ordered and ranked. -/
def scoreLine (room : Room) (answers : List (String × Answer)) (e : String × Player) : ScoreInfo :=
  { PlayerID := e.1, PlayerName := e.2.Name,
    Score := e.2.Score + roundPoints room answers e.1,
    Rank := 0,
    ScoreGained := roundPoints room answers e.1 }

/-- Reading of the spec: round to the nearest integer, then clamp to `[0, 50]`. -/
def specSpeedBonus (timeLimit : Int) (responseTime : ℚ) : Int :=
  max 0 (min 50 (round (((timeLimit : ℚ) - responseTime) * 1.5)))

/-- Score line with the rank field cleared. -/
def unranked (info : ScoreInfo) : ScoreInfo :=
  { info with Rank := 0 }

/-- The round credits `points` to the player `playerID`: the player is in the
room, the cumulative score of the player grows by `points`, and the returned
list has a line for the player and reports `points` as gained on it. -/
def Gains (room : Room) (answers : List (String × Answer)) (playerID : String)
    (points : Int) : Prop :=
  (∃ player, mapGet room.Players playerID = some player ∧
    (mapGet (CalculateTwoTypesScores room answers).room.Players playerID).map (fun p => p.Score)
      = some (player.Score + points)) ∧
  (∃ info ∈ (CalculateTwoTypesScores room answers).scores, info.PlayerID = playerID) ∧
  ∀ info ∈ (CalculateTwoTypesScores room answers).scores,
    info.PlayerID = playerID → info.ScoreGained = points

/-! ## Example data -/

/-- Example player with the given id and cumulative score. -/
def mkPlayer (id : String) (score : Int) : Player :=
  { ID := id, Name := id, Score := score, IsHost := false }

/-- Example answer record as `SubmitTwoTypesAnswer` builds it. -/
def mkAnswer (id option : String) (responseTime : ℚ) (wasHost : Bool) : Answer :=
  { PlayerID := id, QuestionID := 1, Answer := option, IsCorrect := wasHost,
    ResponseTime := responseTime, ScoreGained := 0, WasHost := wasHost,
    HostAnswer := (if wasHost then option else "") }

/-- Example room in the first round of a two-question game. -/
def mkRoom (players : List (String × Player)) (host : String) (timeLimit : Int) : Room :=
  { ID := "ROOM01", HostID := host, HostName := host, Status := RoomStatus.questionDisplay,
    Players := players, CurrentQuestion := 1, TotalQuestions := 2,
    QuestionTimeLimit := timeLimit, CurrentHost := host, NextHostOverride := "",
    Questions := [], Answers := [], GameHistory := [] }

/-- Room with a 20 second limit, host `p1` and guesser `p2`. -/
def roomLimit20 : Room :=
  mkRoom [("p1", mkPlayer "p1" 0), ("p2", mkPlayer "p2" 0)] "p1" 20

/-- Both players chose option A; the guesser answered after 3 seconds. -/
def answersLimit20 : List (String × Answer) :=
  [("p1", mkAnswer "p1" "A" 1 true), ("p2", mkAnswer "p2" "A" 3 false)]

/-- The end-to-end scenario of the spec: players A and B with score 0, a 30
second limit, host A. -/
def scenarioRoom : Room :=
  mkRoom [("A", mkPlayer "A" 0), ("B", mkPlayer "B" 0)] "A" 30

/-- Host A answered "A"; B answered "A" after 5 seconds. -/
def scenarioAnswers : List (String × Answer) :=
  [("B", mkAnswer "B" "A" 5 false), ("A", mkAnswer "A" "A" 2 true)]

/-- Cumulative score of a player of the room, if the player is in the room. -/
def scoreOf (room : Room) (playerID : String) : Option Int :=
  (mapGet room.Players playerID).map fun player => player.Score

/-- Part of a statistics entry that the tally never touches. -/
def statsCore (e : String × PlayerGameStats) : String × String × Int :=
  (e.1, e.2.PlayerID, e.2.TotalScore)

/-- The statistics list before it is ordered and ranked. -/
def statsLines (room : Room) : List PlayerGameStats :=
  (tallyHistory (initStats room) room.GameHistory).map fun e => withAccuracy e.2

/-- The claim "tied players keep the order of enumeration": whenever `p` is
enumerated before `q` and both end with the same cumulative score, the line of
`p` comes before the line of `q` in the returned list. -/
def TiesKeepEnumerationOrder (room : Room) (answers : List (String × Answer)) : Prop :=
  ∀ p q : String × Player,
    List.Sublist [p, q] (CalculateTwoTypesScores room answers).room.Players →
    p.2.Score = q.2.Score →
    List.Sublist [p.1, q.1]
      ((CalculateTwoTypesScores room answers).scores.map fun s => s.PlayerID)

/-- Three players enumerated as `a, b, c` with cumulative scores 1, 1, 2. -/
def tieRoom : Room :=
  mkRoom [("a", mkPlayer "a" 1), ("b", mkPlayer "b" 1), ("c", mkPlayer "c" 2)] "a" 30

/-- Two tied players enumerated as `a, b`. -/
def tiePair : Room :=
  mkRoom [("a", mkPlayer "a" 0), ("b", mkPlayer "b" 0)] "a" 30

/-- Two tied players enumerated as `b, a`: the room `tiePair` with the player
mapping enumerated in the other order. -/
def tiePairSwapped : Room :=
  { tiePair with Players := [("b", mkPlayer "b" 0), ("a", mkPlayer "a" 0)] }

/-- Room of the scenario with an answer of host A whose `IsCorrect` flag is
not set on entry. -/
def unflaggedHostAnswers : List (String × Answer) :=
  [("A", mkAnswer "A" "A" 2 false), ("B", mkAnswer "B" "A" 5 false)]

/-! ## Room methods (`models.go`) and game flow (`game_service.go`) -/

/-- Map write `m[key] = v`: the record under an existing key is replaced, a
new key is added (its place in later enumerations is not fixed by Go; the
model puts it last). -/
def mapInsert {α : Type} : List (String × α) → String → α → List (String × α)
  | [], key, v => [(key, v)]
  | (k, w) :: rest, key, v =>
    if k = key then (k, v) :: rest else (k, w) :: mapInsert rest key v

/-- Map removal `delete(m, key)`. -/
def mapErase {α : Type} (m : List (String × α)) (key : String) : List (String × α) :=
  m.filter fun e => e.1 ≠ key

/-- `Room.GetPlayerCount()`. -/
def Room.GetPlayerCount (r : Room) : Nat :=
  r.Players.length

/-- `Room.AddPlayer(player)`: `r.Players[player.ID] = player`. -/
def Room.AddPlayer (r : Room) (player : Player) : Room :=
  { r with Players := mapInsert r.Players player.ID player }

/-- `Room.RemovePlayer(playerID)`: `delete(r.Players, playerID)`. -/
def Room.RemovePlayer (r : Room) (playerID : String) : Room :=
  { r with Players := mapErase r.Players playerID }

/-- `Room.GetPlayer(playerID)`, with the comma-ok result as an `Option`. -/
def Room.GetPlayer (r : Room) (playerID : String) : Option Player :=
  mapGet r.Players playerID

/-- `Room.GetPlayerList()`: the player records in the order in which the
`range` over `r.Players` enumerates them. -/
def Room.GetPlayerList (r : Room) : List Player :=
  r.Players.map Prod.snd

/-- Errors returned by the game service (the Go code builds them with
`fmt.Errorf`; one constructor per message). -/
inductive GameError where
  | insufficientPlayers
  | noQuestions
  | invalidOption
  | unknownPlayer
  deriving DecidableEq, Repr

/-- Slice read `players[i].ID`.  Every index the code computes is taken modulo
the length of a non-empty slice, so the default is never used. -/
def playerIDAt (players : List Player) (i : Nat) : String :=
  match players[i]? with
  | some player => player.ID
  | none => ""

/-- Lines 170-175: the loop `for i, player := range players` from index `i`
on, over the players not yet visited; `none` when the loop ends without a
`return`. -/
def scanForHost (players : List Player) (currentHost : String) :
    Nat → List Player → Option String
  | _, [] => none
  | i, player :: rest =>
    if player.ID = currentHost then some (playerIDAt players ((i + 1) % players.length))
    else scanForHost players currentHost (i + 1) rest

/-- `GameService.selectNextHost(room, currentHost)`.  `draw` is the state of
the random source: `rand.Intn(n)` returns `draw % n`, so every value in
`[0, n)` can come out. -/
def selectNextHost (room : Room) (currentHost : String) (draw : Nat) : String :=
  let players := room.GetPlayerList
  if players.length = 0 then ""
  else if currentHost = "" then playerIDAt players (draw % players.length)
  else
    match scanForHost players currentHost 0 players with
    | some next => next
    | none => playerIDAt players (draw % players.length)

/-- Lines 145-147: `player.Score = 0` on one entry of the player mapping. -/
def resetScore (e : String × Player) : String × Player :=
  (e.1, { e.2 with Score := 0 })

/-- Outcome of `StartTwoTypesGame`: the returned error (`none` for `nil`) and
the room as the call leaves it. -/
structure StartResult where
  err : Option GameError
  room : Room
  deriving DecidableEq, Repr

/-- `GameService.StartTwoTypesGame(room)`.  `GetRandomQuestions` is the
question bank of the `services` package, which is not part of the sources: it
is a parameter. -/
def StartTwoTypesGame (GetRandomQuestions : Int → List Question) (draw : Nat) (room : Room) :
    StartResult :=
  if room.Players.length < 2 then { err := some GameError.insufficientPlayers, room := room }
  else
    let room := { room with Questions := GetRandomQuestions room.TotalQuestions }
    if room.Questions.length = 0 then { err := some GameError.noQuestions, room := room }
    else
      let room := { room with CurrentQuestion := 1, Answers := [] }
      let room := { room with Players := room.Players.map resetScore }
      let room := { room with CurrentHost := selectNextHost room "" draw }
      let room := { room with Status := RoomStatus.questionDisplay }
      { err := none, room := room }

/-- Result of `SubmitTwoTypesAnswer`: a run-time panic of the slice read
`room.Questions[room.CurrentQuestion-1]`, a returned error, or the answer. -/
inductive SubmitResult where
  | panicIndexOutOfRange
  | error (e : GameError)
  | ok (answer : Answer)
  deriving DecidableEq, Repr

/-- Slice read `questions[index]` with a Go `int` index: `none` stands for the
index-out-of-range panic. -/
def questionAt (questions : List Question) (index : Int) : Option Question :=
  if index < 0 then none else questions[index.toNat]?

/-- `GameService.SubmitTwoTypesAnswer(room, playerID, answer, timeUsed)`,
together with the room as the call leaves it. -/
def SubmitTwoTypesAnswer (room : Room) (playerID answer : String) (timeUsed : ℚ) :
    SubmitResult × Room :=
  match questionAt room.Questions (room.CurrentQuestion - 1) with
  | none => (SubmitResult.panicIndexOutOfRange, room)
  | some currentQuestion =>
    if answer ≠ "A" ∧ answer ≠ "B" then (SubmitResult.error GameError.invalidOption, room)
    else
      match room.GetPlayer playerID with
      | none => (SubmitResult.error GameError.unknownPlayer, room)
      | some _ =>
        let answerRecord : Answer :=
          { PlayerID := playerID, QuestionID := currentQuestion.ID, Answer := answer,
            IsCorrect := false, ResponseTime := timeUsed, ScoreGained := 0,
            WasHost := decide (playerID = room.CurrentHost), HostAnswer := "" }
        let answerRecord :=
          if playerID = room.CurrentHost then
            { answerRecord with HostAnswer := answer, IsCorrect := true }
          else answerRecord
        (SubmitResult.ok answerRecord, room)

/-- `GameService.NextTwoTypesQuestion(room)`. -/
def NextTwoTypesQuestion (draw : Nat) (room : Room) : Room :=
  let room := { room with CurrentHost := selectNextHost room room.CurrentHost draw }
  let room := { room with CurrentQuestion := room.CurrentQuestion + 1 }
  if room.CurrentQuestion > room.TotalQuestions then
    { room with Status := RoomStatus.finished }
  else { room with Status := RoomStatus.questionDisplay }

/-- Every player record carries its own key as `ID` (`AddPlayer` stores a
player under `player.ID`). -/
def IdsAreKeys (room : Room) : Prop :=
  ∀ e ∈ room.Players, e.2.ID = e.1

instance (room : Room) : Decidable (IdsAreKeys room) := by
  unfold IdsAreKeys; infer_instance

/-- The current host is empty or a key of the player mapping. -/
def HostValid (room : Room) : Prop :=
  room.CurrentHost = "" ∨ room.CurrentHost ∈ mapKeys room.Players

/-- Three players enumerated as `P1, P2, P3`. -/
def threeRoom : Room :=
  mkRoom [("P1", mkPlayer "P1" 0), ("P2", mkPlayer "P2" 0), ("P3", mkPlayer "P3" 0)] "P2" 30

/-- Example question bank: `count` copies of one question (none for a
non-positive count). -/
def sampleBank (count : Int) : List Question :=
  List.replicate count.toNat
    { ID := 1, QuestionText := "Tea or coffee?", OptionA := "Tea", OptionB := "Coffee",
      Category := "taste" }

/-- Room `threeRoom` with two questions loaded. -/
def threeRoomPlaying : Room :=
  { threeRoom with Questions := sampleBank 2 }

/-! ## Room store and session handlers (`websocket/client.go`)

The handlers run one after the other: the delayed continuations (`go func` with
`time.Sleep`) are run right after the code that schedules them, with nothing in
between.  Timers are not modelled. -/

/-- Modelled from the spec: `RoomService` (`GetRoom`, `UpdateRoom`) is not part
of the sources.  Spec section 6: the Room Store is a key-value store addressed
by room code, `Get(roomCode) -> Room | NotFound` and `Put(room)`. -/
abbrev Store := List (String × Room)

/-- Modelled from the spec: `Get(roomCode) -> Room | NotFound`. -/
def GetRoom (store : Store) (roomID : String) : Option Room :=
  mapGet store roomID

/-- Modelled from the spec: `Put(room)`, under the room's own code. -/
def UpdateRoom (store : Store) (room : Room) : Store :=
  mapInsert store room.ID room

/-- Outbound messages, with the payload fields the properties speak about. -/
inductive Msg where
  | connected
  | questionTimeout
  | questionInvalid (reason : String)
  | questionSkipped (reason : String)
  | scoresUpdate (scores : List ScoreInfo) (currentQuestion : Int) (hostAnswer : String)
  | newQuestion (currentQuestion : Int) (hostPlayer : String)
  | gameFinished (finalStats : List PlayerGameStats)
  | playerLeft (playerId : String) (totalPlayers : Nat) (currentHost : String)
      (hostChanged resetAnswers : Bool)
  | allPlayersLeft
  | gameStarted (firstHost : String) (totalQuestions : Int)
  deriving DecidableEq, Repr

/-- What a handler has done so far: the store, the messages handed to
`Hub.BroadcastToRoom` in order, and whether a run-time panic stopped it. -/
structure Effects where
  store : Store
  outbox : List Msg
  panicked : Bool
  deriving DecidableEq, Repr

/-- `GameService.GetFinalRanking(room)`: apart from logging, the statistics. -/
def GetFinalRanking (room : Room) : List PlayerGameStats :=
  calculatePlayerGameStats room

/-- `Client.getHostAnswer(room)`. -/
def getHostAnswer (room : Room) : String :=
  findHostAnswer room.CurrentHost room.Answers

/-- `Client.sendNextQuestion()`. -/
def sendNextQuestion (roomID : String) (fx : Effects) : Effects :=
  match GetRoom fx.store roomID with
  | none => fx
  | some room =>
    if room.CurrentQuestion > room.Questions.length then fx
    else if room.CurrentQuestion < 1 ∨ room.CurrentQuestion > room.Questions.length then fx
    else
      match questionAt room.Questions (room.CurrentQuestion - 1) with
      | none => { fx with panicked := true }
      | some _ =>
        { fx with outbox := fx.outbox ++ [Msg.newQuestion room.CurrentQuestion room.CurrentHost] }

/-- `Client.handleNextQuestion()` of a session bound to `roomID`. -/
def handleNextQuestion (draw : Nat) (roomID : String) (fx : Effects) : Effects :=
  match GetRoom fx.store roomID with
  | none => fx
  | some room =>
    let room := NextTwoTypesQuestion draw room
    let fx := { fx with store := UpdateRoom fx.store room }
    if room.Status = RoomStatus.finished then
      { fx with outbox := fx.outbox ++ [Msg.gameFinished (GetFinalRanking room)] }
    else if room.CurrentQuestion ≤ room.Questions.length then sendNextQuestion roomID fx
    else
      let room := { room with Status := RoomStatus.finished }
      let fx := { fx with store := UpdateRoom fx.store room }
      { fx with outbox := fx.outbox ++ [Msg.gameFinished (GetFinalRanking room)] }

/-- `Client.recordQuestionHistory(room)` on the handler's copy of the room;
`none` stands for the index-out-of-range panic of
`room.Questions[room.CurrentQuestion-1]`. -/
def recordQuestionHistory (room : Room) : Option Room :=
  if room.Answers.length = 0 then some room
  else
    let hostAnswer := findHostAnswer room.CurrentHost room.Answers
    match questionAt room.Questions (room.CurrentQuestion - 1) with
    | none => none
    | some question =>
      let history : QuestionHistory :=
        { QuestionID := question.ID, QuestionNum := room.CurrentQuestion,
          HostPlayerID := room.CurrentHost, HostAnswer := hostAnswer,
          PlayerAnswers := room.Answers.map fun (e : String × Answer) =>
            (e.1, { e.2 with HostAnswer := hostAnswer }) }
      some { room with GameHistory := room.GameHistory ++ [history] }

/-- `Client.calculateAndShowResults(room)` of a session bound to `roomID`,
followed by its continuation after 5 seconds. -/
def calculateAndShowResults (draw : Nat) (roomID : String) (room : Room) (fx : Effects) :
    Effects :=
  let result := CalculateTwoTypesScores room room.Answers
  let room := { result.room with Answers := result.answers }
  let fx := { fx with store := UpdateRoom fx.store room }
  let fx :=
    { fx with
      outbox := fx.outbox ++
        [Msg.scoresUpdate result.scores room.CurrentQuestion (getHostAnswer room)] }
  match recordQuestionHistory room with
  | none => { fx with panicked := true }
  | some _ =>
    match GetRoom fx.store roomID with
    | none => fx
    | some currentRoom =>
      let currentRoom := { currentRoom with Answers := [] }
      let fx := { fx with store := UpdateRoom fx.store currentRoom }
      handleNextQuestion draw roomID fx

/-- The three ways a round can end on timeout. -/
inductive TimeoutOutcome where
  | scored
  | voided
  | skipped
  deriving DecidableEq, Repr

/-- Result of `handleQuestionTimeout`: the branch taken (`none` when the room
could not be fetched) and the effects, continuation included. -/
structure TimeoutResult where
  outcome : Option TimeoutOutcome
  fx : Effects
  deriving DecidableEq, Repr

/-- `Client.handleQuestionTimeout()` of a session bound to `roomID`. -/
def handleQuestionTimeout (draw : Nat) (roomID : String) (store : Store) : TimeoutResult :=
  match GetRoom store roomID with
  | none => { outcome := none, fx := { store := store, outbox := [], panicked := false } }
  | some room =>
    let fx : Effects := { store := store, outbox := [Msg.questionTimeout], panicked := false }
    let answeredPlayers := room.Answers.length
    let hostAnswered := (mapGet room.Answers room.CurrentHost).isSome
    if answeredPlayers > 0 ∧ hostAnswered = true then
      { outcome := some TimeoutOutcome.scored,
        fx := calculateAndShowResults draw roomID room fx }
    else if answeredPlayers > 0 ∧ ¬ hostAnswered = true then
      let fx := { fx with outbox := fx.outbox ++ [Msg.questionInvalid "host_no_answer"] }
      let room := { room with Answers := [] }
      let fx := { fx with store := UpdateRoom fx.store room }
      { outcome := some TimeoutOutcome.voided, fx := handleNextQuestion draw roomID fx }
    else
      let fx := { fx with outbox := fx.outbox ++ [Msg.questionSkipped "no_answers"] }
      { outcome := some TimeoutOutcome.skipped, fx := handleNextQuestion draw roomID fx }

/-- The scenario room of the spec with one question loaded, stored under its
code, with the answer of guesser B only. -/
def timeoutStore : Store :=
  [("ROOM01",
    { scenarioRoom with
      Questions := sampleBank 2,
      Answers := [("B", mkAnswer "B" "A" 5 false)] })]

/-! ## Hub (`websocket/hub.go`)

Sessions are `*Client` pointers: the model names them by their address (a
natural number) and keeps the objects in a heap.  A Go run-time panic (send on
a closed channel, close of a closed channel) is recorded in `fault`; nothing
runs after it. -/

/-- Capacity of the outbound queue: `send: make(chan []byte, 256)`. -/
def sendCapacity : Nat := 256

/-- Session (`Client`): the fields the Hub reads, the content of the buffered
channel `send`, and whether the channel has been closed. -/
structure Client where
  ID : String
  PlayerName : String
  RoomID : String
  IsHost : Bool
  send : List Msg
  closed : Bool
  deriving DecidableEq, Repr

/-- Run-time panics of channel operations. -/
inductive Fault where
  | sendOnClosedChannel
  | closeOfClosedChannel
  deriving DecidableEq, Repr

/-- Hub state: the session objects by address, the key set of `h.clients`, the
table `h.rooms` (room code to member set, in enumeration order), the Room Store
behind `roomService`, the sessions for which a delayed `handleNextQuestion` has
been scheduled, and the panic, if one happened. -/
structure Hub where
  heap : List (Nat × Client)
  clients : List Nat
  rooms : List (String × List Nat)
  store : Store
  pending : List Nat
  fault : Option Fault
  deriving DecidableEq, Repr

/-- Dereference of a session pointer. -/
def heapGet : List (Nat × Client) → Nat → Option Client
  | [], _ => none
  | (a, c) :: rest, addr => if a = addr then some c else heapGet rest addr

/-- Write through a session pointer. -/
def heapSet : List (Nat × Client) → Nat → Client → List (Nat × Client)
  | [], _, _ => []
  | (a, c) :: rest, addr, v =>
    if a = addr then (a, v) :: rest else (a, c) :: heapSet rest addr v

/-- Outcome of the non-blocking send `select { case c.send <- m: default: }`. -/
inductive SendResult where
  | sent (c : Client)
  | full
  | panic
  deriving DecidableEq, Repr

/-- Non-blocking send on the session's channel: a closed channel panics, a
channel with room takes the message, a full channel takes the `default` case. -/
def Client.offer (c : Client) (m : Msg) : SendResult :=
  if c.closed then SendResult.panic
  else if c.send.length < sendCapacity then SendResult.sent { c with send := c.send ++ [m] }
  else SendResult.full

/-- Lines 217-222: one iteration of `broadcastToRoomExclude`; a full queue is
only logged. -/
def sendOrLog (h : Hub) (addr : Nat) (m : Msg) : Hub :=
  if h.fault.isSome then h
  else
    match heapGet h.heap addr with
    | none => h
    | some c =>
      match c.offer m with
      | SendResult.sent c => { h with heap := heapSet h.heap addr c }
      | SendResult.full => h
      | SendResult.panic => { h with fault := some Fault.sendOnClosedChannel }

/-- `Hub.broadcastToRoomExclude(roomID, message, excludeClient)`. -/
def broadcastToRoomExclude (h : Hub) (roomID : String) (m : Msg) (excludeClient : Option Nat) :
    Hub :=
  match mapGet h.rooms roomID with
  | none => h
  | some roomClients =>
    roomClients.foldl
      (fun h addr => if some addr = excludeClient then h else sendOrLog h addr m) h

/-- `Hub.removeClientFromRoom(client, roomID)`. -/
def removeClientFromRoom (h : Hub) (client : Nat) (roomID : String) : Hub :=
  match mapGet h.rooms roomID with
  | none => h
  | some roomClients =>
    let roomClients := roomClients.filter fun addr => addr ≠ client
    if roomClients.length = 0 then { h with rooms := mapErase h.rooms roomID }
    else { h with rooms := mapUpdate h.rooms roomID roomClients }

/-- `close(client.send)`: closing a closed channel panics. -/
def closeSend (h : Hub) (client : Nat) : Hub :=
  match heapGet h.heap client with
  | none => h
  | some c =>
    if c.closed then { h with fault := some Fault.closeOfClosedChannel }
    else { h with heap := heapSet h.heap client { c with closed := true } }

/-- Modelled from the spec: `RoomService.RemovePlayer(roomID, playerID)` is not
part of the sources.  Spec section 4.2, player departure: "removes the player
from the room", and the room stays in the store when no players remain ("the
room is left without a host pending cleanup/expiry by the external store").
`none` stands for the returned error, when the store has no such room. -/
def RemovePlayer (store : Store) (roomID playerID : String) : Option Store :=
  match GetRoom store roomID with
  | none => none
  | some room => some (UpdateRoom store (room.RemovePlayer playerID))

/-- Modelled from the spec: the exported `GameService.SelectNextHost` that
`hub.go` calls is not part of the sources.  Spec section 4.2: `SelectNextHost`
"is the single host-rotation rule used both for normal round advancement and
for departure-triggered reassignment", so it is `selectNextHost`. -/
def SelectNextHost (room : Room) (currentHost : String) (draw : Nat) : String :=
  selectNextHost room currentHost draw

/-- Lines 302-309: a new host when the current one is missing; the flag is the
new value of `hostChanged`. -/
def replaceMissingHost (draw : Nat) (clientID : String) (room : Room) : Room × Bool :=
  let currentHostMissing := room.CurrentHost = "" ∨ mapGet room.Players room.CurrentHost = none
  if currentHostMissing then
    let newHost := SelectNextHost room clientID draw
    if newHost ≠ "" then
      ({ room with CurrentHost := newHost, NextHostOverride := newHost }, true)
    else (room, false)
  else (room, false)

/-- Lines 311-320: a new override when the pending one names the leaver. -/
def replaceOverride (draw : Nat) (clientID : String) (state : Room × Bool) : Room × Bool :=
  if state.1.NextHostOverride = clientID then
    let newOverride := SelectNextHost state.1 clientID draw
    if newOverride ≠ "" then
      ({ state.1 with NextHostOverride := newOverride, CurrentHost := newOverride }, true)
    else ({ state.1 with NextHostOverride := "" }, state.2)
  else state

/-- What lines 289-340 of `handlePlayerLeaveInternal` decide: the room handed
to `UpdateRoom` and the local flags. -/
structure LeaveUpdate where
  room : Room
  remainingPlayers : Nat
  hostChanged : Bool
  resetAnswers : Bool
  shouldSkipCurrentQuestion : Bool
  nextClient : Option Nat
  deriving DecidableEq, Repr

/-- Lines 289-340 of `handlePlayerLeaveInternal`, on the room fetched after
the player was removed; `client` is the address of the leaving session and
`roomClients` the enumeration of `h.rooms[client.RoomID]`. -/
def playerLeaveUpdate (draw1 draw2 : Nat) (clientID : String) (client : Nat)
    (roomClients : List Nat) (room : Room) : LeaveUpdate :=
  let room := { room with Answers := mapErase room.Answers clientID }
  let remainingPlayers := room.GetPlayerCount
  if remainingPlayers > 0 then
    let state := replaceOverride draw2 clientID (replaceMissingHost draw1 clientID room)
    if state.2 = true then
      let room := if state.1.Answers.length > 0 then { state.1 with Answers := [] } else state.1
      if room.Status = RoomStatus.questionDisplay then
        { room := room, remainingPlayers := remainingPlayers, hostChanged := true,
          resetAnswers := true, shouldSkipCurrentQuestion := true,
          nextClient := roomClients.find? fun c => decide (c ≠ client) }
      else
        { room := room, remainingPlayers := remainingPlayers, hostChanged := true,
          resetAnswers := true, shouldSkipCurrentQuestion := false, nextClient := none }
    else
      { room := state.1, remainingPlayers := remainingPlayers, hostChanged := false,
        resetAnswers := false, shouldSkipCurrentQuestion := false, nextClient := none }
  else
    { room := { room with NextHostOverride := "" }, remainingPlayers := remainingPlayers,
      hostChanged := false, resetAnswers := false, shouldSkipCurrentQuestion := false,
      nextClient := none }

/-- `Hub.handlePlayerLeaveInternal(client)`.  The delayed `handleNextQuestion`
of lines 370-373 is recorded in `pending`. -/
def handlePlayerLeaveInternal (draw1 draw2 : Nat) (h : Hub) (client : Nat) : Hub :=
  match heapGet h.heap client with
  | none => h
  | some c =>
    if c.RoomID = "" ∨ c.PlayerName = "" then h
    else
      let roomClients := (mapGet h.rooms c.RoomID).getD []
      match RemovePlayer h.store c.RoomID c.ID with
      | none => h
      | some store =>
        let h := { h with store := store }
        match GetRoom h.store c.RoomID with
        | none =>
          let h := broadcastToRoomExclude h c.RoomID (Msg.playerLeft c.ID 0 "" false true)
            (some client)
          if roomClients.length > 0 then
            broadcastToRoomExclude h c.RoomID Msg.allPlayersLeft none
          else h
        | some room =>
          let u := playerLeaveUpdate draw1 draw2 c.ID client roomClients room
          let h := { h with store := UpdateRoom h.store u.room }
          let h := broadcastToRoomExclude h c.RoomID
            (Msg.playerLeft c.ID u.remainingPlayers u.room.CurrentHost u.hostChanged
              u.resetAnswers) (some client)
          match u.nextClient with
          | some nextClient =>
            if u.shouldSkipCurrentQuestion = true then
              let h := broadcastToRoomExclude h c.RoomID (Msg.questionInvalid "host_left") none
              if h.fault.isSome then h else { h with pending := h.pending ++ [nextClient] }
            else h
          | none => h

/-- `Hub.unregisterClient(client)`. -/
def unregisterClient (draw1 draw2 : Nat) (h : Hub) (client : Nat) : Hub :=
  if client ∈ h.clients then
    let roomID := match heapGet h.heap client with
      | some c => c.RoomID
      | none => ""
    let h := if roomID ≠ "" then handlePlayerLeaveInternal draw1 draw2 h client else h
    if h.fault.isSome then h
    else
      let h := if roomID ≠ "" then removeClientFromRoom h client roomID else h
      let h := { h with clients := h.clients.filter fun addr => addr ≠ client }
      closeSend h client
  else h

/-- Example session of a player. -/
def mkClient (id roomID : String) : Client :=
  { ID := id, PlayerName := id, RoomID := roomID, IsHost := false, send := [], closed := false }

/-- Room of three players `P1, P2, P3` in `question_display` with host `P2` and
an answer of `P3`. -/
def leaveRoom : Room :=
  { threeRoomPlaying with Answers := [("P3", mkAnswer "P3" "A" 4 false)] }

/-- Hub with the three sessions of `leaveRoom`, all bound to the room. -/
def leaveHub : Hub :=
  { heap := [(1, mkClient "P1" "ROOM01"), (2, mkClient "P2" "ROOM01"),
      (3, mkClient "P3" "ROOM01")],
    clients := [1, 2, 3],
    rooms := [("ROOM01", [1, 2, 3])],
    store := [("ROOM01", leaveRoom)],
    pending := [],
    fault := none }

/-- Room with the single player `P1`, who is the current host. -/
def lastPlayerRoom : Room :=
  mkRoom [("P1", mkPlayer "P1" 50)] "P1" 30

/-- Hub with the single session of `lastPlayerRoom`. -/
def lastPlayerHub : Hub :=
  { heap := [(1, mkClient "P1" "ROOM01")],
    clients := [1],
    rooms := [("ROOM01", [1])],
    store := [("ROOM01", lastPlayerRoom)],
    pending := [],
    fault := none }

/-! ## Rounds without joins or departures -/

/-- The hosts of consecutive rounds in a room whose players do not change: the
host of the first round is `host`, and each later one is what `selectNextHost`
returns for the host before it (`NextTwoTypesQuestion`, line 328); one random
draw per round. -/
def hostSequence (room : Room) : String → List Nat → List String
  | _, [] => []
  | host, draw :: draws => host :: hostSequence room (selectNextHost room host draw) draws

/-- The host after one application of `selectNextHost` per draw. -/
def hostAfter (room : Room) (host : String) (draws : List Nat) : String :=
  draws.foldl (fun host draw => selectNextHost room host draw) host

/-- One call of `NextTwoTypesQuestion` per draw, in order. -/
def playRounds (draws : List Nat) (room : Room) : Room :=
  draws.foldl (fun room draw => NextTwoTypesQuestion draw room) room

/-- Question bank that holds a single question: it returns fewer questions
than asked for when `count > 1`. -/
def smallBank (count : Int) : List Question :=
  (sampleBank count).take 1

/-- Room `threeRoom` set up for three questions. -/
def threeQuestionRoom : Room :=
  { threeRoom with TotalQuestions := 3 }

/-- Store holding `threeQuestionRoom` started on the bank of one question. -/
def shortBankStore : Store :=
  [("ROOM01", (StartTwoTypesGame smallBank 0 threeQuestionRoom).room)]

/-! ## Statistics as the claims word them -/

/-- Whether a history entry contains an answer by player `p` that passes
`test`. -/
def answeredWith (test : Answer → Bool) (p : String) (entry : QuestionHistory) : Bool :=
  match mapGet entry.PlayerAnswers p with
  | some answer => test answer
  | none => false

/-- Number of history entries containing an answer by player `p` that passes
`test`. -/
def countRounds (history : List QuestionHistory) (p : String) (test : Answer → Bool) : Int :=
  ((history.filter (answeredWith test p)).length : Int)

/-- The counters of player `p` after one more history entry (lines 388-405 seen
from one key of `statsMap`). -/
def countEntry (p : String) (stats : PlayerGameStats) (entry : QuestionHistory) :
    PlayerGameStats :=
  match mapGet entry.PlayerAnswers p with
  | some answer => countAnswer stats answer
  | none => stats

/-- Fields of a statistics record other than `Rank`. -/
def statsFields (stats : PlayerGameStats) : String × Int × Int × Int × Int × ℚ :=
  (stats.PlayerID, stats.TotalScore, stats.AsHost, stats.AsGuesser, stats.CorrectGuesses,
    stats.GuessAccuracy)

/-- History of two rounds of players `A` and `B`: `A` hosts the first, `B`
the second; `B` guesses right in the first round, `A` wrong in the second. -/
def twoRoundHistory : List QuestionHistory :=
  [{ QuestionID := 1, QuestionNum := 1, HostPlayerID := "A", HostAnswer := "A",
     PlayerAnswers :=
       [("A", mkAnswer "A" "A" 2 true),
        ("B", { mkAnswer "B" "A" 5 false with IsCorrect := true })] },
   { QuestionID := 2, QuestionNum := 2, HostPlayerID := "B", HostAnswer := "B",
     PlayerAnswers :=
       [("A", mkAnswer "A" "A" 3 false), ("B", mkAnswer "B" "B" 1 true)] }]

/-- The scenario room at the end of the two rounds of `twoRoundHistory`. -/
def twoRoundRoom : Room :=
  { scenarioRoom with
    Players := [("A", mkPlayer "A" 50), ("B", mkPlayer "B" 187)],
    GameHistory := twoRoundHistory }

/-! ## Hub: registration, room binding and broadcasts (`websocket/hub.go`) -/

/-- `Hub.registerClient(client)`: the session joins the global set and the
welcome message is sent with a blocking send.  A send on a full queue waits for
the session's writer, which is not modelled: the queue then stays as it is. -/
def registerClient (h : Hub) (client : Nat) : Hub :=
  if h.fault.isSome then h
  else
    let h := { h with clients := if client ∈ h.clients then h.clients else h.clients ++ [client] }
    match heapGet h.heap client with
    | none => h
    | some c =>
      match c.offer Msg.connected with
      | SendResult.sent c => { h with heap := heapSet h.heap client c }
      | SendResult.full => h
      | SendResult.panic => { h with fault := some Fault.sendOnClosedChannel }

/-- `Hub.AddClientToRoom(client, roomID)`: the member set of `roomID` is
created when missing, the session is put into it, and `client.RoomID` is
overwritten.  No other member set is touched. -/
def AddClientToRoom (h : Hub) (client : Nat) (roomID : String) : Hub :=
  if h.fault.isSome then h
  else
    let roomClients := (mapGet h.rooms roomID).getD []
    let roomClients := if client ∈ roomClients then roomClients else roomClients ++ [client]
    let h := { h with rooms := mapInsert h.rooms roomID roomClients }
    match heapGet h.heap client with
    | none => h
    | some c => { h with heap := heapSet h.heap client { c with RoomID := roomID } }

/-- Lines 197-203: one iteration of `broadcastToRoom`; on a full queue the
session is deleted from the member set of `roomID` and its channel is closed. -/
def sendOrDropFromRoom (roomID : String) (m : Msg) (h : Hub) (addr : Nat) : Hub :=
  if h.fault.isSome then h
  else
    match heapGet h.heap addr with
    | none => h
    | some c =>
      match c.offer m with
      | SendResult.sent c => { h with heap := heapSet h.heap addr c }
      | SendResult.full =>
        let roomClients := ((mapGet h.rooms roomID).getD []).filter fun a => a ≠ addr
        closeSend { h with rooms := mapUpdate h.rooms roomID roomClients } addr
      | SendResult.panic => { h with fault := some Fault.sendOnClosedChannel }

/-- `Hub.broadcastToRoom(roomID, message)`. -/
def broadcastToRoom (h : Hub) (roomID : String) (m : Msg) : Hub :=
  match mapGet h.rooms roomID with
  | none => h
  | some roomClients => roomClients.foldl (sendOrDropFromRoom roomID m) h

/-- Lines 174-179: one iteration of `broadcastToAll`; on a full queue the
session is deleted from the global set and its channel is closed. -/
def sendOrDropFromAll (m : Msg) (h : Hub) (addr : Nat) : Hub :=
  if h.fault.isSome then h
  else
    match heapGet h.heap addr with
    | none => h
    | some c =>
      match c.offer m with
      | SendResult.sent c => { h with heap := heapSet h.heap addr c }
      | SendResult.full =>
        closeSend { h with clients := h.clients.filter fun a => a ≠ addr } addr
      | SendResult.panic => { h with fault := some Fault.sendOnClosedChannel }

/-- `Hub.broadcastToAll(message)`. -/
def broadcastToAll (h : Hub) (m : Msg) : Hub :=
  h.clients.foldl (sendOrDropFromAll m) h

/-- The member sets that contain a session. -/
def roomsOf (h : Hub) (client : Nat) : List String :=
  (h.rooms.filter fun e => decide (client ∈ e.2)).map Prod.fst

/-- Hub with one connected session that has not joined a room. -/
def lobbyHub : Hub :=
  { heap := [(1, mkClient "P1" "")],
    clients := [],
    rooms := [],
    store := [],
    pending := [],
    fault := none }

/-- Hub of `leaveHub` in which the consumer of session 1 is stalled: its queue
holds 256 messages. -/
def fullQueueHub : Hub :=
  { leaveHub with
    heap := [(1, { mkClient "P1" "ROOM01" with send := List.replicate 256 Msg.connected }),
      (2, mkClient "P2" "ROOM01"), (3, mkClient "P3" "ROOM01")] }

/-! ## Session handlers: start of a game and answer submission (`websocket/client.go`)

Replies sent to the calling session alone (`sendError`, the `ANSWER_SUBMITTED`
confirmation) are not modelled. -/

/-- `Client.sendFirstQuestion()` of a session bound to `roomID`.
`GetRandomQuestions` is the question bank, a parameter. -/
def sendFirstQuestion (GetRandomQuestions : Int → List Question) (roomID : String)
    (fx : Effects) : Effects :=
  match GetRoom fx.store roomID with
  | none => fx
  | some room =>
    let loaded : Option (Room × Effects) :=
      if room.Questions.length = 0 then
        let room := { room with Questions := GetRandomQuestions room.TotalQuestions }
        if room.Questions.length = 0 then none
        else some (room, { fx with store := UpdateRoom fx.store room })
      else some (room, fx)
    match loaded with
    | none => fx
    | some (room, fx) =>
      match questionAt room.Questions (room.CurrentQuestion - 1) with
      | none => { fx with panicked := true }
      | some _ =>
        { fx with outbox := fx.outbox ++ [Msg.newQuestion room.CurrentQuestion room.CurrentHost] }

/-- Lines 382-399 of `handleStartGame`: a finished room is reset (status,
question index, answers, scores) and written back before the game starts. -/
def resetFinishedRoom (room : Room) (fx : Effects) : Room × Effects :=
  if room.Status = RoomStatus.finished then
    let room :=
      { room with
        Status := RoomStatus.waiting, CurrentQuestion := 0, Answers := [],
        Players := room.Players.map resetScore }
    (room, { fx with store := UpdateRoom fx.store room })
  else (room, fx)

/-- `Client.handleStartGame(data)` of a session bound to `roomID`; `isHost` is
the session's `IsHost` flag. -/
def handleStartGame (GetRandomQuestions : Int → List Question) (draw : Nat) (isHost : Bool)
    (roomID : String) (fx : Effects) : Effects :=
  if isHost = false then fx
  else
    match GetRoom fx.store roomID with
    | none => fx
    | some room =>
      if room.GetPlayerCount < 2 then fx
      else
        let reset := resetFinishedRoom room fx
        let result := StartTwoTypesGame GetRandomQuestions draw reset.1
        match result.err with
        | some _ => reset.2
        | none =>
          let fx := { reset.2 with store := UpdateRoom reset.2.store result.room }
          let fx :=
            { fx with
              outbox := fx.outbox ++
                [Msg.gameStarted result.room.CurrentHost result.room.TotalQuestions] }
          sendFirstQuestion GetRandomQuestions roomID fx

/-- `Client.checkAllPlayersAnswered(room)`. -/
def checkAllPlayersAnswered (room : Room) : Bool :=
  decide (room.Answers.length ≥ room.GetPlayerCount)

/-- `Client.handleSubmitAnswer(data)` of the session `clientID` bound to
`roomID`, with the decoded fields `answer` and `timeUsed`. -/
def handleSubmitAnswer (draw : Nat) (roomID clientID answer : String) (timeUsed : ℚ)
    (fx : Effects) : Effects :=
  match GetRoom fx.store roomID with
  | none => fx
  | some room =>
    if room.Status ≠ RoomStatus.questionDisplay then fx
    else
      match SubmitTwoTypesAnswer room clientID answer timeUsed with
      | (SubmitResult.panicIndexOutOfRange, _) => { fx with panicked := true }
      | (SubmitResult.error _, _) => fx
      | (SubmitResult.ok answerRecord, room) =>
        let room := { room with Answers := mapInsert room.Answers clientID answerRecord }
        let fx := { fx with store := UpdateRoom fx.store room }
        if checkAllPlayersAnswered room = true then calculateAndShowResults draw roomID room fx
        else fx

/-- The scenario room of the spec in its only round (`TotalQuestions = 1`),
stored under its code, with the answer of guesser B recorded. -/
def lastRoundStore : Store :=
  [("ROOM01",
    { scenarioRoom with
      TotalQuestions := 1,
      Questions := sampleBank 1,
      Answers := [("B", mkAnswer "B" "A" 5 false)] })]

/-- Room of four players `P1, P2, P3, P4` showing question 1 of 2 with host
`P1`. -/
def fourRoom : Room :=
  { mkRoom [("P1", mkPlayer "P1" 0), ("P2", mkPlayer "P2" 0), ("P3", mkPlayer "P3" 0),
      ("P4", mkPlayer "P4" 0)] "P1" 30 with
    Questions := sampleBank 2 }

/-- Hub with the four sessions of `fourRoom`, all bound to the room. -/
def fourHub : Hub :=
  { heap := [(1, mkClient "P1" "ROOM01"), (2, mkClient "P2" "ROOM01"),
      (3, mkClient "P3" "ROOM01"), (4, mkClient "P4" "ROOM01")],
    clients := [1, 2, 3, 4],
    rooms := [("ROOM01", [1, 2, 3, 4])],
    store := [("ROOM01", fourRoom)],
    pending := [],
    fault := none }

/-- The Hub `fourHub` after host `P1` has left (the new host and override is
`P2`), the delayed `handleNextQuestion` has run (the host rotates to `P3`, the
override stays `P2`) and `P4` has answered question 2. -/
def staleOverrideHub : Hub :=
  let h := unregisterClient 0 0 fourHub 1
  let fx := handleNextQuestion 0 "ROOM01" { store := h.store, outbox := [], panicked := false }
  let fx := handleSubmitAnswer 0 "ROOM01" "P4" "A" 3 fx
  { h with store := fx.store }

/-- The room of `lastRoundStore` once host A has answered too. -/
def lastRoundAnswered : Room :=
  { scenarioRoom with
    TotalQuestions := 1,
    Questions := sampleBank 1,
    Answers := [("B", mkAnswer "B" "A" 5 false), ("A", mkAnswer "A" "A" 2 true)] }

/-- The records of the `finalStats` payloads of the `GAME_FINISHED` messages of
an outbox, without the ranks. -/
def finalStatsOf (outbox : List Msg) : List (String × Int × Int × Int × Int × ℚ) :=
  outbox.foldr
    (fun m rest =>
      match m with
      | Msg.gameFinished finalStats => finalStats.map statsFields ++ rest
      | _ => rest) []

/-! ## Reachable room states

The handlers run one after the other on the Room Store; a state is reachable
when handlers lead to it from a store whose rooms have no pending answers. -/

/-- Every key of the answers map is a key of the player mapping; as in any Go
map, the keys of each of the two maps are pairwise distinct. -/
def AnswersWithinPlayers (room : Room) : Prop :=
  KeysNodup room.Players ∧ KeysNodup room.Answers ∧
    ∀ k ∈ mapKeys room.Answers, k ∈ mapKeys room.Players

/-- Every room of the store is stored under its own code and satisfies
`AnswersWithinPlayers`. -/
def StoreWellFormed (store : Store) : Prop :=
  ∀ roomID room, GetRoom store roomID = some room →
    room.ID = roomID ∧ AnswersWithinPlayers room

/-- Store states reachable through the handlers: start of a game, answer
submission (with the scoring it triggers), question timeout (scoring, voiding
or skipping), scoring of a stored room, next question, and player departure.
The initial stores hold rooms without pending answers, each under its own
code. -/
inductive Reachable : Store → Prop where
  | init (store : Store)
      (h : ∀ e ∈ store, e.2.ID = e.1 ∧ KeysNodup e.2.Players ∧ e.2.Answers = []) :
      Reachable store
  | startGame (gq : Int → List Question) (draw : Nat) (isHost : Bool) (roomID : String)
      (fx : Effects) (h : Reachable fx.store) :
      Reachable (handleStartGame gq draw isHost roomID fx).store
  | submitAnswer (draw : Nat) (roomID clientID answer : String) (timeUsed : ℚ) (fx : Effects)
      (h : Reachable fx.store) :
      Reachable (handleSubmitAnswer draw roomID clientID answer timeUsed fx).store
  | timeout (draw : Nat) (roomID : String) (store : Store) (h : Reachable store) :
      Reachable (handleQuestionTimeout draw roomID store).fx.store
  | scoring (draw : Nat) (roomID : String) (room : Room) (fx : Effects)
      (h : Reachable fx.store) (hroom : GetRoom fx.store roomID = some room) :
      Reachable (calculateAndShowResults draw roomID room fx).store
  | nextQuestion (draw : Nat) (roomID : String) (fx : Effects) (h : Reachable fx.store) :
      Reachable (handleNextQuestion draw roomID fx).store
  | leave (draw1 draw2 : Nat) (hub : Hub) (client : Nat) (h : Reachable hub.store) :
      Reachable (handlePlayerLeaveInternal draw1 draw2 hub client).store

/-- Store holding `fourRoom` under its code. -/
def fourStore : Store :=
  [("ROOM01", fourRoom)]

/-! ## Stores reached from a given store -/

/-- Every room of the store is stored under its own code and has no history
entry. -/
def HistoryFree (store : Store) : Prop :=
  ∀ roomID room, GetRoom store roomID = some room → room.ID = roomID ∧ room.GameHistory = []

/-- Store states that the handlers reach from the store `start`: start of a
game, answer submission (with the scoring it triggers), question timeout,
scoring of a stored room, next question, and player departure. -/
inductive ReachableFrom (start : Store) : Store → Prop where
  | refl : ReachableFrom start start
  | startGame (gq : Int → List Question) (draw : Nat) (isHost : Bool) (roomID : String)
      (fx : Effects) (h : ReachableFrom start fx.store) :
      ReachableFrom start (handleStartGame gq draw isHost roomID fx).store
  | submitAnswer (draw : Nat) (roomID clientID answer : String) (timeUsed : ℚ) (fx : Effects)
      (h : ReachableFrom start fx.store) :
      ReachableFrom start (handleSubmitAnswer draw roomID clientID answer timeUsed fx).store
  | timeout (draw : Nat) (roomID : String) (store : Store) (h : ReachableFrom start store) :
      ReachableFrom start (handleQuestionTimeout draw roomID store).fx.store
  | scoring (draw : Nat) (roomID : String) (room : Room) (fx : Effects)
      (h : ReachableFrom start fx.store) (hroom : GetRoom fx.store roomID = some room) :
      ReachableFrom start (calculateAndShowResults draw roomID room fx).store
  | nextQuestion (draw : Nat) (roomID : String) (fx : Effects)
      (h : ReachableFrom start fx.store) :
      ReachableFrom start (handleNextQuestion draw roomID fx).store
  | leave (draw1 draw2 : Nat) (hub : Hub) (client : Nat) (h : ReachableFrom start hub.store) :
      ReachableFrom start (handlePlayerLeaveInternal draw1 draw2 hub client).store

/-- The store `lastRoundStore` after host A has answered: the round is scored
and the game of one question is finished. -/
def finishedGameStore : Store :=
  (handleSubmitAnswer 0 "ROOM01" "A" "A" 2
    { store := lastRoundStore, outbox := [], panicked := false }).store

/-! ## Theorems -/

theorem getElem?_at_length {α : Type} (l : List α) (a : α) (r : List α) :
    (l ++ a :: r)[l.length]? = some a := by
  induction l with
  | nil => simp
  | cons x xs ih =>
    simp only [List.cons_append, List.length_cons, List.getElem?_cons_succ]
    exact ih

theorem set_at_length {α : Type} (l : List α) (a b : α) (r : List α) :
    (l ++ a :: r).set l.length b = l ++ b :: r := by
  induction l with
  | nil => simp
  | cons x xs ih =>
    simp only [List.cons_append, List.length_cons, List.set_cons_succ]
    rw [ih]

theorem exchangeStep_at {α : Type} (key : α → Int) (pre done rest : List α) (p y : α) :
    exchangeStep key (pre ++ p :: (done ++ y :: rest)) pre.length (pre.length + 1 + done.length)
      = if key y > key p then pre ++ y :: (done ++ p :: rest)
        else pre ++ p :: (done ++ y :: rest) := by
  have hlen : pre.length + 1 + done.length = (pre ++ p :: done).length := by
    simp; omega
  have hlen2 : pre.length + 1 + done.length = (pre ++ y :: done).length := by
    simp; omega
  have hi : (pre ++ p :: (done ++ y :: rest))[pre.length]? = some p :=
    getElem?_at_length pre p _
  have hj : (pre ++ p :: (done ++ y :: rest))[pre.length + 1 + done.length]? = some y := by
    have h := getElem?_at_length (pre ++ p :: done) y rest
    rw [hlen]
    simpa using h
  unfold exchangeStep
  rw [hi, hj]
  simp only
  split
  · rw [set_at_length, hlen2]
    simp
  · rfl

theorem innerLoop_pivotPass {α : Type} (key : α → Int) (rest : List α) :
    ∀ (pre done : List α) (p : α) (fuel : Nat), rest.length ≤ fuel →
      innerLoop key pre.length fuel (pre.length + 1 + done.length) (pre ++ p :: (done ++ rest))
        = pre ++ (pivotPass key p rest).1 :: (done ++ (pivotPass key p rest).2) := by
  induction rest with
  | nil =>
    intro pre done p fuel _
    cases fuel with
    | zero => simp [innerLoop, pivotPass]
    | succ n =>
      have : ¬ (pre.length + 1 + done.length < (pre ++ p :: (done ++ [])).length) := by
        simp; omega
      simp only [innerLoop, this, if_false, pivotPass]
  | cons y ys ih =>
    intro pre done p fuel hfuel
    cases fuel with
    | zero => simp at hfuel
    | succ n =>
      have hlt : pre.length + 1 + done.length < (pre ++ p :: (done ++ y :: ys)).length := by
        simp; omega
      have hn : ys.length ≤ n := by simpa using hfuel
      simp only [innerLoop, hlt, if_true, exchangeStep_at]
      by_cases hk : key y > key p
      · have h := ih pre (done ++ [p]) y n hn
        simp only [List.length_append, List.length_singleton, List.append_assoc,
          List.singleton_append] at h
        simp only [hk, if_true, pivotPass]
        rw [← h]
        congr 1
      · have h := ih pre (done ++ [y]) p n hn
        simp only [List.length_append, List.length_singleton, List.append_assoc,
          List.singleton_append] at h
        simp only [hk, if_false, pivotPass]
        rw [← h]
        congr 1

theorem pivotPass_length {α : Type} (key : α → Int) (l : List α) :
    ∀ p : α, (pivotPass key p l).2.length = l.length := by
  induction l with
  | nil => intro p; rfl
  | cons y ys ih =>
    intro p
    by_cases hk : key y > key p <;> simp [pivotPass, hk, ih]

theorem pivotPass_perm {α : Type} (key : α → Int) (l : List α) :
    ∀ p : α, ((pivotPass key p l).1 :: (pivotPass key p l).2).Perm (p :: l) := by
  induction l with
  | nil => intro p; exact List.Perm.refl _
  | cons y ys ih =>
    intro p
    by_cases hk : key y > key p
    · simp only [pivotPass, hk, if_true]
      exact (List.Perm.swap _ _ _).trans ((ih y).cons p)
    · simp only [pivotPass, hk, if_false]
      exact ((List.Perm.swap _ _ _).trans ((ih p).cons y)).trans (List.Perm.swap _ _ _)

theorem pivotPass_ge {α : Type} (key : α → Int) (l : List α) :
    ∀ p : α, key p ≤ key (pivotPass key p l).1 ∧
      ∀ x ∈ (pivotPass key p l).2, key x ≤ key (pivotPass key p l).1 := by
  induction l with
  | nil => intro p; simp [pivotPass]
  | cons y ys ih =>
    intro p
    by_cases hk : key y > key p
    · simp only [pivotPass, hk, if_true, List.mem_cons]
      have h := ih y
      refine ⟨by omega, ?_⟩
      rintro x (rfl | hx)
      · omega
      · exact h.2 x hx
    · simp only [pivotPass, hk, if_false, List.mem_cons]
      have h := ih p
      refine ⟨h.1, ?_⟩
      rintro x (rfl | hx)
      · omega
      · exact h.2 x hx

theorem pivotPass_of_ge {α : Type} (key : α → Int) (l : List α) :
    ∀ p : α, (∀ x ∈ l, key x ≤ key p) → pivotPass key p l = (p, l) := by
  induction l with
  | nil => intro p _; rfl
  | cons y ys ih =>
    intro p h
    have hy : ¬ key y > key p := by
      have := h y (List.mem_cons_self _ _); omega
    have hrest := ih p (fun x hx => h x (List.mem_cons_of_mem _ hx))
    simp [pivotPass, hy, hrest]

/-- Specification of the outer loop on the not yet processed part `s`. -/
theorem outerLoop_spec {α : Type} (key : α → Int) :
    ∀ (fuel : Nat) (s pre : List α), s.length ≤ fuel →
      ∃ t : List α, outerLoop key fuel pre.length (pre ++ s) = pre ++ t ∧ t.Perm s ∧
        t.Pairwise (fun a b => key b ≤ key a) := by
  intro fuel
  induction fuel with
  | zero =>
    intro s pre h
    have : s = [] := List.eq_nil_of_length_eq_zero (by omega)
    subst this
    exact ⟨[], by simp [outerLoop], List.Perm.refl _, List.Pairwise.nil⟩
  | succ n ih =>
    intro s pre h
    cases s with
    | nil => exact ⟨[], by simp [outerLoop], List.Perm.refl _, List.Pairwise.nil⟩
    | cons x xs =>
      have hlt : pre.length < (pre ++ x :: xs).length := by simp
      have hin := innerLoop_pivotPass key xs pre [] x (pre ++ x :: xs).length (by simp; omega)
      simp only [List.length_nil, Nat.add_zero, List.nil_append] at hin
      obtain ⟨t, ht, hperm, hsorted⟩ := ih (pivotPass key x xs).2 (pre ++ [(pivotPass key x xs).1])
        (by rw [pivotPass_length]; simpa using h)
      refine ⟨(pivotPass key x xs).1 :: t, ?_, ?_, ?_⟩
      · simp only [outerLoop, hlt, if_true, hin]
        simpa using ht
      · exact (hperm.cons _).trans (pivotPass_perm key xs x)
      · refine List.Pairwise.cons ?_ hsorted
        intro a ha
        exact (pivotPass_ge key xs x).2 a (hperm.subset ha)

theorem exchangeSort_perm {α : Type} (key : α → Int) (s : List α) :
    (exchangeSort key s).Perm s := by
  obtain ⟨t, ht, hperm, _⟩ := outerLoop_spec key s.length s [] (Nat.le_refl _)
  simp only [List.length_nil, List.nil_append] at ht
  rw [exchangeSort, ht]; exact hperm

theorem exchangeSort_sorted {α : Type} (key : α → Int) (s : List α) :
    (exchangeSort key s).Pairwise (fun a b => key b ≤ key a) := by
  obtain ⟨t, ht, _, hsorted⟩ := outerLoop_spec key s.length s [] (Nat.le_refl _)
  simp only [List.length_nil, List.nil_append] at ht
  rw [exchangeSort, ht]; exact hsorted

/-- A list that is already in non-increasing order is returned as it is. -/
theorem outerLoop_of_sorted {α : Type} (key : α → Int) :
    ∀ (fuel : Nat) (s pre : List α), s.Pairwise (fun a b => key b ≤ key a) →
      outerLoop key fuel pre.length (pre ++ s) = pre ++ s := by
  intro fuel
  induction fuel with
  | zero => intro s pre _; rfl
  | succ n ih =>
    intro s pre hs
    cases s with
    | nil => simp [outerLoop]
    | cons x xs =>
      have hlt : pre.length < (pre ++ x :: xs).length := by simp
      have hin := innerLoop_pivotPass key xs pre [] x (pre ++ x :: xs).length (by simp; omega)
      simp only [List.length_nil, Nat.add_zero, List.nil_append] at hin
      rw [List.pairwise_cons] at hs
      rw [pivotPass_of_ge key xs x hs.1] at hin
      have h := ih xs (pre ++ [x]) hs.2
      simp only [outerLoop, hlt, if_true, hin]
      simpa using h

theorem exchangeSort_of_sorted {α : Type} (key : α → Int) (s : List α)
    (hs : s.Pairwise (fun a b => key b ≤ key a)) : exchangeSort key s = s := by
  have h := outerLoop_of_sorted key s.length s [] hs
  simpa [exchangeSort] using h

theorem mapGet_mapUpdate {α : Type} (m : List (String × α)) (key : String) (v : α) (k : String) :
    mapGet (mapUpdate m key v) k
      = if k = key then (mapGet m key).map (fun _ => v) else mapGet m k := by
  induction m with
  | nil => simp [mapUpdate, mapGet]
  | cons e rest ih =>
    obtain ⟨k0, w⟩ := e
    by_cases h0 : k0 = key
    · subst h0
      by_cases hk : k = k0
      · subst hk; simp [mapUpdate, mapGet]
      · have hk' : ¬ k0 = k := fun h => hk h.symm
        simp [mapUpdate, mapGet, hk, hk']
    · by_cases hk : k = key
      · subst hk
        simp [mapUpdate, mapGet, h0] at ih ⊢
        exact ih
      · by_cases hk0 : k0 = k
        · simp [mapUpdate, mapGet, h0, hk, hk0]
        · simp [mapUpdate, mapGet, h0, hk, hk0] at ih ⊢
          exact ih

theorem mapKeys_mapUpdate {α : Type} (m : List (String × α)) (key : String) (v : α) :
    mapKeys (mapUpdate m key v) = mapKeys m := by
  induction m with
  | nil => rfl
  | cons e rest ih =>
    obtain ⟨k0, w⟩ := e
    by_cases h0 : k0 = key
    · simp [mapUpdate, mapKeys, h0]
    · simp only [mapKeys] at ih
      simp [mapUpdate, mapKeys, h0, ih]

theorem mapGet_isSome_iff {α : Type} (m : List (String × α)) (k : String) :
    (∃ v, mapGet m k = some v) ↔ k ∈ mapKeys m := by
  induction m with
  | nil => simp [mapGet, mapKeys]
  | cons e rest ih =>
    obtain ⟨k0, w⟩ := e
    by_cases h0 : k0 = k
    · simp [mapGet, mapKeys, h0]
    · have h0' : ¬ k = k0 := fun h => h0 h.symm
      simp only [mapKeys] at ih
      simp [mapGet, mapKeys, h0, h0', ih]

theorem mapGet_mem {α : Type} (m : List (String × α)) (k : String) (v : α)
    (h : mapGet m k = some v) : (k, v) ∈ m := by
  induction m with
  | nil => simp [mapGet] at h
  | cons e rest ih =>
    obtain ⟨k0, w⟩ := e
    by_cases h0 : k0 = k
    · simp [mapGet, h0] at h
      simp [h0, h]
    · simp [mapGet, h0] at h
      exact List.mem_cons_of_mem _ (ih h)

theorem findHostAnswer_eq (currentHost : String) (answers : List (String × Answer)) :
    findHostAnswer currentHost answers
      = match mapGet answers currentHost with
        | some answer => answer.Answer
        | none => "" := by
  induction answers with
  | nil => rfl
  | cons e rest ih =>
    obtain ⟨k0, w⟩ := e
    by_cases h0 : k0 = currentHost
    · simp [findHostAnswer, mapGet, h0]
    · simp [findHostAnswer, mapGet, h0, ih]

theorem backfill_Answer (h ha pid : String) (g : Int) (a : Answer) :
    (backfill h ha pid g a).Answer = a.Answer := by
  unfold backfill; split <;> rfl

theorem backfill_ResponseTime (h ha pid : String) (g : Int) (a : Answer) :
    (backfill h ha pid g a).ResponseTime = a.ResponseTime := by
  unfold backfill; split <;> rfl

theorem backfill_ScoreGained (h ha pid : String) (g : Int) (a : Answer) :
    (backfill h ha pid g a).ScoreGained = g := by
  unfold backfill; split <;> rfl

theorem backfill_idem (h ha pid : String) (g : Int) (a : Answer) :
    backfill h ha pid g (backfill h ha pid g a) = backfill h ha pid g a := by
  unfold backfill; split <;> rfl

/-- The points of a player depend on the entry only through the chosen option
and the response time. -/
theorem scoreGainedOf_backfill (h : String) (T : Int) (ha pid : String) (g : Int) (a : Answer) :
    scoreGainedOf h T ha pid (some (backfill h ha pid g a)) = scoreGainedOf h T ha pid (some a) := by
  simp [scoreGainedOf, backfill_Answer, backfill_ResponseTime]

theorem Threaded.refl (h : String) (T : Int) (ha : String) (answers0 : List (String × Answer)) :
    Threaded h T ha answers0 answers0 :=
  fun _ => Or.inl rfl

theorem Threaded.points {h : String} {T : Int} {ha : String}
    {answers0 answers : List (String × Answer)} (inv : Threaded h T ha answers0 answers)
    (k : String) :
    scoreGainedOf h T ha k (mapGet answers k) = scoreGainedOf h T ha k (mapGet answers0 k) := by
  rcases inv k with h1 | ⟨a, h0, h1⟩
  · rw [h1]
  · rw [h1, h0, scoreGainedOf_backfill]

theorem scoreLoop_cons (h : String) (T : Int) (ha : String) (playerID : String) (player : Player)
    (rest : List (String × Player)) (answers : List (String × Answer)) :
    scoreLoop h T ha ((playerID, player) :: rest) answers
      = { players :=
            (playerID,
              { player with
                Score := player.Score + scoreGainedOf h T ha playerID (mapGet answers playerID) })
              :: (scoreLoop h T ha rest (stepAnswers h T ha answers playerID)).players,
          answers := (scoreLoop h T ha rest (stepAnswers h T ha answers playerID)).answers,
          scores :=
            { PlayerID := playerID, PlayerName := player.Name,
              Score := player.Score + scoreGainedOf h T ha playerID (mapGet answers playerID),
              Rank := 0,
              ScoreGained := scoreGainedOf h T ha playerID (mapGet answers playerID) }
              :: (scoreLoop h T ha rest (stepAnswers h T ha answers playerID)).scores } := by
  simp only [scoreLoop, stepAnswers]

theorem stepAnswers_get {h : String} {T : Int} {ha : String}
    {answers0 answers : List (String × Answer)} (inv : Threaded h T ha answers0 answers)
    (playerID k : String) :
    mapGet (stepAnswers h T ha answers playerID) k
      = if k = playerID then
          (mapGet answers0 k).map
            (backfill h ha k (scoreGainedOf h T ha k (mapGet answers0 k)))
        else mapGet answers k := by
  unfold stepAnswers
  by_cases hk : k = playerID
  · subst hk
    simp only [if_true]
    rcases inv k with h1 | ⟨a, h0, h1⟩
    · cases h0 : mapGet answers0 k with
      | none => rw [h0] at h1; simp [h1]
      | some a =>
        rw [h0] at h1
        simp [h1, mapGet_mapUpdate]
    · simp [h1, h0, mapGet_mapUpdate, scoreGainedOf_backfill, backfill_idem]
  · simp only [hk, if_false]
    cases hcur : mapGet answers playerID with
    | none => rfl
    | some a => simp [mapGet_mapUpdate, hk]

theorem stepAnswers_threaded {h : String} {T : Int} {ha : String}
    {answers0 answers : List (String × Answer)} (inv : Threaded h T ha answers0 answers)
    (playerID : String) :
    Threaded h T ha answers0 (stepAnswers h T ha answers playerID) := by
  intro k
  rw [stepAnswers_get inv]
  by_cases hk : k = playerID
  · simp only [hk, if_true]
    cases h0 : mapGet answers0 playerID with
    | none => left; rfl
    | some a => right; exact ⟨a, rfl, rfl⟩
  · simp only [hk, if_false]
    exact inv k

theorem scoreLoop_players (h : String) (T : Int) (ha : String)
    (answers0 : List (String × Answer)) (players : List (String × Player)) :
    ∀ answers, Threaded h T ha answers0 answers →
      (scoreLoop h T ha players answers).players
        = players.map fun e =>
            (e.1, { e.2 with Score := e.2.Score + scoreGainedOf h T ha e.1 (mapGet answers0 e.1) })
      := by
  induction players with
  | nil => intro answers _; rfl
  | cons e rest ih =>
    intro answers inv
    obtain ⟨playerID, player⟩ := e
    rw [scoreLoop_cons]
    simp only [List.map_cons, ih _ (stepAnswers_threaded inv playerID), inv.points]

theorem scoreLoop_scores (h : String) (T : Int) (ha : String)
    (answers0 : List (String × Answer)) (players : List (String × Player)) :
    ∀ answers, Threaded h T ha answers0 answers →
      (scoreLoop h T ha players answers).scores
        = players.map fun e =>
            { PlayerID := e.1, PlayerName := e.2.Name,
              Score := e.2.Score + scoreGainedOf h T ha e.1 (mapGet answers0 e.1),
              Rank := 0,
              ScoreGained := scoreGainedOf h T ha e.1 (mapGet answers0 e.1) } := by
  induction players with
  | nil => intro answers _; rfl
  | cons e rest ih =>
    intro answers inv
    obtain ⟨playerID, player⟩ := e
    rw [scoreLoop_cons]
    simp only [List.map_cons, ih _ (stepAnswers_threaded inv playerID), inv.points]

theorem scoreLoop_answers (h : String) (T : Int) (ha : String)
    (answers0 : List (String × Answer)) (players : List (String × Player)) :
    ∀ answers, Threaded h T ha answers0 answers →
      ∀ k, mapGet (scoreLoop h T ha players answers).answers k
        = if k ∈ mapKeys players then
            (mapGet answers0 k).map
              (backfill h ha k (scoreGainedOf h T ha k (mapGet answers0 k)))
          else mapGet answers k := by
  induction players with
  | nil => intro answers _ k; simp [scoreLoop, mapKeys]
  | cons e rest ih =>
    intro answers inv k
    obtain ⟨playerID, player⟩ := e
    rw [scoreLoop_cons]
    simp only
    rw [ih _ (stepAnswers_threaded inv playerID) k, stepAnswers_get inv]
    simp only [mapKeys, List.map_cons, List.mem_cons]
    by_cases hrest : k ∈ List.map Prod.fst rest
    · simp [hrest]
    · by_cases hk : k = playerID
      · simp [hk]
      · simp [hrest, hk]

theorem scoreLoop_answers_keys (h : String) (T : Int) (ha : String)
    (players : List (String × Player)) :
    ∀ answers, mapKeys (scoreLoop h T ha players answers).answers = mapKeys answers := by
  induction players with
  | nil => intro answers; rfl
  | cons e rest ih =>
    intro answers
    obtain ⟨playerID, player⟩ := e
    rw [scoreLoop_cons]
    simp only
    rw [ih]
    unfold stepAnswers
    cases mapGet answers playerID with
    | none => rfl
    | some a => simp [mapKeys_mapUpdate]

theorem mapGet_map_values {α β : Type} (f : String → α → β) (m : List (String × α)) (k : String) :
    mapGet (m.map fun e => (e.1, f e.1 e.2)) k = (mapGet m k).map (f k) := by
  induction m with
  | nil => rfl
  | cons e rest ih =>
    obtain ⟨k0, w⟩ := e
    by_cases h0 : k0 = k
    · subst h0; simp [mapGet]
    · simp [mapGet, h0, ih]

theorem calc_players (room : Room) (answers : List (String × Answer)) :
    (CalculateTwoTypesScores room answers).room.Players
      = room.Players.map fun e =>
          (e.1, { e.2 with Score := e.2.Score + roundPoints room answers e.1 }) := by
  simp only [CalculateTwoTypesScores, roundPoints]
  exact scoreLoop_players _ _ _ answers room.Players answers (Threaded.refl _ _ _ _)

theorem calc_scores (room : Room) (answers : List (String × Answer)) :
    (CalculateTwoTypesScores room answers).scores
      = setRanks (exchangeSort (fun score => score.Score)
          (room.Players.map (scoreLine room answers))) := by
  simp only [CalculateTwoTypesScores]
  rw [scoreLoop_scores _ _ _ answers room.Players answers (Threaded.refl _ _ _ _)]
  rfl

theorem calc_answers (room : Room) (answers : List (String × Answer)) (k : String) :
    mapGet (CalculateTwoTypesScores room answers).answers k
      = if k ∈ mapKeys room.Players then
          (mapGet answers k).map
            (backfill room.CurrentHost (findHostAnswer room.CurrentHost answers) k
              (roundPoints room answers k))
        else mapGet answers k := by
  simp only [CalculateTwoTypesScores, roundPoints]
  exact scoreLoop_answers _ _ _ answers room.Players answers (Threaded.refl _ _ _ _) k

theorem setRanks_length (l : List ScoreInfo) : (setRanks l).length = l.length := by
  simp [setRanks]

/-- Ranking changes no field other than `Rank`. -/
theorem setRanks_map {β : Type} (f : ScoreInfo → β)
    (hf : ∀ (s : ScoreInfo) (r : Int), f { s with Rank := r } = f s) (l : List ScoreInfo) :
    (setRanks l).map f = l.map f := by
  apply List.ext_getElem?
  intro n
  simp only [setRanks, List.getElem?_map, List.getElem?_mapIdx]
  cases l[n]? with
  | none => rfl
  | some s => simp [hf]

theorem setStatsRanks_map {β : Type} (f : PlayerGameStats → β)
    (hf : ∀ (s : PlayerGameStats) (r : Int), f { s with Rank := r } = f s)
    (l : List PlayerGameStats) :
    (setStatsRanks l).map f = l.map f := by
  apply List.ext_getElem?
  intro n
  simp only [setStatsRanks, List.getElem?_map, List.getElem?_mapIdx]
  cases l[n]? with
  | none => rfl
  | some s => simp [hf]

theorem truncToInt_of_nonneg (q : ℚ) (h : 0 ≤ q) : truncToInt q = ⌊q⌋ := by
  unfold truncToInt
  rw [Rat.floor_def, Int.tdiv_eq_ediv (Rat.num_nonneg.mpr h) (Int.ofNat_nonneg _)]

theorem truncToInt_neg (q : ℚ) : truncToInt (-q) = - truncToInt q := by
  unfold truncToInt
  simp

theorem truncToInt_of_nonpos (q : ℚ) (h : q ≤ 0) : truncToInt q = ⌈q⌉ := by
  have h1 := truncToInt_of_nonneg (-q) (by linarith)
  rw [truncToInt_neg, Int.floor_neg] at h1
  omega

theorem truncToInt_mono {q1 q2 : ℚ} (h : q1 ≤ q2) : truncToInt q1 ≤ truncToInt q2 := by
  rcases le_total 0 q1 with h1 | h1
  · rw [truncToInt_of_nonneg q1 h1, truncToInt_of_nonneg q2 (le_trans h1 h)]
    exact Int.floor_le_floor h
  · rcases le_total 0 q2 with h2 | h2
    · rw [truncToInt_of_nonpos q1 h1, truncToInt_of_nonneg q2 h2]
      have a : ⌈q1⌉ ≤ 0 := Int.ceil_le.mpr (by simpa using h1)
      have b : 0 ≤ ⌊q2⌋ := Int.floor_nonneg.mpr h2
      omega
    · rw [truncToInt_of_nonpos q1 h1, truncToInt_of_nonpos q2 h2]
      exact Int.ceil_le_ceil h

theorem timeBonus_eq (T : Int) (r : ℚ) :
    timeBonus T r = min 50 (max 0 (truncToInt (((T : ℚ) - r) * 1.5))) := by
  unfold timeBonus
  simp only
  split_ifs <;> omega

theorem timeBonus_bounds (T : Int) (r : ℚ) : 0 ≤ timeBonus T r ∧ timeBonus T r ≤ 50 := by
  rw [timeBonus_eq]; omega

theorem timeBonus_antitone (T : Int) {r1 r2 : ℚ} (h : r1 ≤ r2) :
    timeBonus T r2 ≤ timeBonus T r1 := by
  rw [timeBonus_eq, timeBonus_eq]
  have : truncToInt (((T : ℚ) - r2) * 1.5) ≤ truncToInt (((T : ℚ) - r1) * 1.5) := by
    apply truncToInt_mono
    have : (0 : ℚ) ≤ 1.5 := by norm_num
    nlinarith
  omega

theorem timeBonus_late (T : Int) (r : ℚ) (h : (T : ℚ) ≤ r) : timeBonus T r = 0 := by
  rw [timeBonus_eq]
  have hq : ((T : ℚ) - r) * 1.5 ≤ 0 := by
    have : (0 : ℚ) ≤ 1.5 := by norm_num
    nlinarith
  have h0 : truncToInt (((T : ℚ) - r) * 1.5) ≤ 0 := by
    rw [truncToInt_of_nonpos _ hq]
    exact Int.ceil_le.mpr (by simpa using hq)
  omega

theorem calc_scores_perm (room : Room) (answers : List (String × Answer)) :
    ((CalculateTwoTypesScores room answers).scores.map unranked).Perm
      (room.Players.map (scoreLine room answers)) := by
  rw [calc_scores, setRanks_map unranked (fun _ _ => rfl)]
  have h := (exchangeSort_perm (fun score : ScoreInfo => score.Score)
    (room.Players.map (scoreLine room answers))).map unranked
  have hid : (room.Players.map (scoreLine room answers)).map unranked
      = room.Players.map (scoreLine room answers) := by
    rw [List.map_map]
    rfl
  rw [hid] at h
  exact h

theorem calc_scores_mem (room : Room) (answers : List (String × Answer)) (info : ScoreInfo)
    (h : info ∈ (CalculateTwoTypesScores room answers).scores) :
    ∃ e ∈ room.Players, info.PlayerID = e.1 ∧ info.PlayerName = e.2.Name ∧
      info.Score = e.2.Score + roundPoints room answers e.1 ∧
      info.ScoreGained = roundPoints room answers e.1 := by
  have h1 : unranked info ∈ (CalculateTwoTypesScores room answers).scores.map unranked :=
    List.mem_map_of_mem _ h
  have h2 := (calc_scores_perm room answers).subset h1
  obtain ⟨e, he, heq⟩ := List.mem_map.mp h2
  refine ⟨e, he, ?_, ?_, ?_, ?_⟩
  · exact (congrArg ScoreInfo.PlayerID heq).symm
  · exact (congrArg ScoreInfo.PlayerName heq).symm
  · exact (congrArg ScoreInfo.Score heq).symm
  · exact (congrArg ScoreInfo.ScoreGained heq).symm

theorem calc_scores_exists (room : Room) (answers : List (String × Answer))
    (e : String × Player) (he : e ∈ room.Players) :
    ∃ info ∈ (CalculateTwoTypesScores room answers).scores, info.PlayerID = e.1 ∧
      info.Score = e.2.Score + roundPoints room answers e.1 ∧
      info.ScoreGained = roundPoints room answers e.1 := by
  have h1 : scoreLine room answers e ∈ room.Players.map (scoreLine room answers) :=
    List.mem_map_of_mem _ he
  have h2 := (calc_scores_perm room answers).symm.subset h1
  obtain ⟨info, hinfo, heq⟩ := List.mem_map.mp h2
  refine ⟨info, hinfo, ?_, ?_, ?_⟩
  · exact congrArg ScoreInfo.PlayerID heq
  · exact congrArg ScoreInfo.Score heq
  · exact congrArg ScoreInfo.ScoreGained heq

theorem calc_player_after (room : Room) (answers : List (String × Answer)) (playerID : String) :
    mapGet (CalculateTwoTypesScores room answers).room.Players playerID
      = (mapGet room.Players playerID).map fun player =>
          { player with Score := player.Score + roundPoints room answers playerID } := by
  rw [calc_players]
  exact mapGet_map_values
    (fun k (p : Player) => { p with Score := p.Score + roundPoints room answers k })
    room.Players playerID

theorem gains_roundPoints (room : Room) (answers : List (String × Answer)) (playerID : String)
    (player : Player) (hp : mapGet room.Players playerID = some player) :
    Gains room answers playerID (roundPoints room answers playerID) := by
  refine ⟨⟨player, hp, ?_⟩, ?_, ?_⟩
  · rw [calc_player_after, hp]; rfl
  · obtain ⟨info, hinfo, hid, _⟩ :=
      calc_scores_exists room answers (playerID, player) (mapGet_mem _ _ _ hp)
    exact ⟨info, hinfo, hid⟩
  · intro info hinfo hid
    obtain ⟨e, _, h1, _, _, h4⟩ := calc_scores_mem room answers info hinfo
    rw [h4, ← h1, hid]

theorem roundPoints_nonneg (room : Room) (answers : List (String × Answer)) (playerID : String) :
    0 ≤ roundPoints room answers playerID := by
  unfold roundPoints scoreGainedOf
  have hb := fun r => (timeBonus_bounds room.QuestionTimeLimit r).1
  split
  · split_ifs
    · omega
    · have := hb ‹Answer›.ResponseTime
      omega
    · omega
  · omega

theorem roundPoints_host (room : Room) (answers : List (String × Answer)) (answer : Answer)
    (ha : mapGet answers room.CurrentHost = some answer) :
    roundPoints room answers room.CurrentHost = 50 := by
  simp [roundPoints, scoreGainedOf, ha]

theorem roundPoints_unanswered (room : Room) (answers : List (String × Answer))
    (playerID : String) (ha : mapGet answers playerID = none) :
    roundPoints room answers playerID = 0 := by
  simp [roundPoints, scoreGainedOf, ha]

theorem roundPoints_match (room : Room) (answers : List (String × Answer))
    (playerID : String) (answer : Answer) (hne : playerID ≠ room.CurrentHost)
    (ha : mapGet answers playerID = some answer)
    (hmatch : answer.Answer = findHostAnswer room.CurrentHost answers) :
    roundPoints room answers playerID
      = 100 + timeBonus room.QuestionTimeLimit answer.ResponseTime := by
  simp [roundPoints, scoreGainedOf, ha, hne, hmatch]

theorem roundPoints_mismatch (room : Room) (answers : List (String × Answer))
    (playerID : String) (answer : Answer) (hne : playerID ≠ room.CurrentHost)
    (ha : mapGet answers playerID = some answer)
    (hdiff : answer.Answer ≠ findHostAnswer room.CurrentHost answers) :
    roundPoints room answers playerID = 0 := by
  simp [roundPoints, scoreGainedOf, ha, hne, hdiff]

/-- C1 (as stated, refuted): with a 20 second limit and a matching answer after
3 seconds the code credits 125 points, not `100 + round(25.5) = 126`. -/
theorem speed_bonus_rounding_counterexample :
    mapGet roomLimit20.Players "p2" = some (mkPlayer "p2" 0) ∧
    "p2" ≠ roomLimit20.CurrentHost ∧
    mapGet answersLimit20 "p2" = some (mkAnswer "p2" "A" 3 false) ∧
    (mkAnswer "p2" "A" 3 false).Answer = findHostAnswer roomLimit20.CurrentHost answersLimit20 ∧
    specSpeedBonus roomLimit20.QuestionTimeLimit (mkAnswer "p2" "A" 3 false).ResponseTime = 26 ∧
    ¬ Gains roomLimit20 answersLimit20 "p2"
        (100 + specSpeedBonus roomLimit20.QuestionTimeLimit
          (mkAnswer "p2" "A" 3 false).ResponseTime) := by
  refine ⟨by decide!, by decide, by decide!, by decide, by decide!, ?_⟩
  intro h
  have hg := gains_roundPoints roomLimit20 answersLimit20 "p2" (mkPlayer "p2" 0) (by decide!)
  obtain ⟨info, hinfo, hid⟩ := hg.2.1
  have h1 := h.2.2 info hinfo hid
  have h2 := hg.2.2 info hinfo hid
  rw [h1] at h2
  revert h2
  decide!

/-- C1 (amended): a non-host player whose recorded option equals the host's
recorded option gains exactly `100 + timeBonus`, where `timeBonus` is
`(QuestionTimeLimit - ResponseTime) * 1.5` with its fractional part discarded
(floor when non-negative, ceiling when negative), clamped to `[0, 50]`. -/
theorem guesser_match_points (room : Room) (answers : List (String × Answer))
    (playerID : String) (player : Player) (answer : Answer)
    (hp : mapGet room.Players playerID = some player)
    (hne : playerID ≠ room.CurrentHost)
    (ha : mapGet answers playerID = some answer)
    (hmatch : answer.Answer = findHostAnswer room.CurrentHost answers) :
    Gains room answers playerID (100 + timeBonus room.QuestionTimeLimit answer.ResponseTime) ∧
    timeBonus room.QuestionTimeLimit answer.ResponseTime
      = max 0 (min 50
          (truncToInt (((room.QuestionTimeLimit : ℚ) - answer.ResponseTime) * 1.5))) ∧
    (0 ≤ ((room.QuestionTimeLimit : ℚ) - answer.ResponseTime) * 1.5 →
      truncToInt (((room.QuestionTimeLimit : ℚ) - answer.ResponseTime) * 1.5)
        = ⌊((room.QuestionTimeLimit : ℚ) - answer.ResponseTime) * 1.5⌋) ∧
    (((room.QuestionTimeLimit : ℚ) - answer.ResponseTime) * 1.5 ≤ 0 →
      truncToInt (((room.QuestionTimeLimit : ℚ) - answer.ResponseTime) * 1.5)
        = ⌈((room.QuestionTimeLimit : ℚ) - answer.ResponseTime) * 1.5⌉) := by
  refine ⟨?_, ?_, truncToInt_of_nonneg _, truncToInt_of_nonpos _⟩
  · rw [← roundPoints_match room answers playerID answer hne ha hmatch]
    exact gains_roundPoints room answers playerID player hp
  · rw [timeBonus_eq]; omega

/-- Witness of `guesser_match_points`: the guesser of `roomLimit20` gains 125. -/
theorem guesser_match_points_witness :
    Gains roomLimit20 answersLimit20 "p2" (100 + timeBonus 20 3) ∧ timeBonus 20 3 = 25 :=
  ⟨(guesser_match_points roomLimit20 answersLimit20 "p2" (mkPlayer "p2" 0)
      (mkAnswer "p2" "A" 3 false) (by decide!) (by decide) (by decide!) (by decide)).1,
    by decide!⟩

theorem scoreOf_after (room : Room) (answers : List (String × Answer)) (playerID : String)
    (player : Player) (hp : mapGet room.Players playerID = some player) :
    scoreOf (CalculateTwoTypesScores room answers).room playerID
      = some (player.Score + roundPoints room answers playerID) := by
  unfold scoreOf
  rw [calc_player_after, hp]
  rfl

theorem timeBonus_30_5 : timeBonus 30 5 = 37 := by decide!

/-- C2 (as stated, refuted): in the scenario of the spec B does not end with
138 points. -/
theorem scenario_counterexample :
    ¬ (scoreOf (CalculateTwoTypesScores scenarioRoom scenarioAnswers).room "B" = some 138 ∧
       scoreOf (CalculateTwoTypesScores scenarioRoom scenarioAnswers).room "A" = some 50) := by
  decide!

/-- C2 (amended): with two players `a` (the host) and `b`, both with score 0,
`QuestionTimeLimit = 30`, both having answered "A" and `b` after 5 seconds,
`CalculateTwoTypesScores` leaves `b` with cumulative score 137 and `a` with
cumulative score 50, in either enumeration order of the two players. -/
theorem scenario_scores (room : Room) (answers : List (String × Answer)) (a b : String)
    (pa pb : Player) (ansA ansB : Answer)
    (hplayers : room.Players = [(a, pa), (b, pb)] ∨ room.Players = [(b, pb), (a, pa)])
    (hab : a ≠ b) (hsa : pa.Score = 0) (hsb : pb.Score = 0)
    (hlimit : room.QuestionTimeLimit = 30) (hhost : room.CurrentHost = a)
    (hA : mapGet answers a = some ansA) (hoptA : ansA.Answer = "A")
    (hB : mapGet answers b = some ansB) (hoptB : ansB.Answer = "A")
    (htime : ansB.ResponseTime = 5) :
    scoreOf (CalculateTwoTypesScores room answers).room b = some 137 ∧
    scoreOf (CalculateTwoTypesScores room answers).room a = some 50 := by
  have hba : b ≠ a := fun h => hab h.symm
  have hpa : mapGet room.Players a = some pa := by
    rcases hplayers with h | h <;> rw [h] <;> simp [mapGet, hba]
  have hpb : mapGet room.Players b = some pb := by
    rcases hplayers with h | h <;> rw [h] <;> simp [mapGet, hab]
  have hhostAns : findHostAnswer room.CurrentHost answers = "A" := by
    rw [findHostAnswer_eq, hhost, hA]; exact hoptA
  have hgb : roundPoints room answers b = 137 := by
    rw [roundPoints_match room answers b ansB (by rw [hhost]; exact hba) hB
      (by rw [hhostAns]; exact hoptB), hlimit, htime, timeBonus_30_5]
    rfl
  have hga : roundPoints room answers a = 50 := by
    have h := roundPoints_host room answers ansA (by rw [hhost]; exact hA)
    rw [hhost] at h
    exact h
  constructor
  · rw [scoreOf_after room answers b pb hpb, hgb, hsb]; rfl
  · rw [scoreOf_after room answers a pa hpa, hga, hsa]; rfl

/-- Witness of `scenario_scores` on the scenario of the spec. -/
theorem scenario_scores_witness :
    scoreOf (CalculateTwoTypesScores scenarioRoom scenarioAnswers).room "B" = some 137 ∧
    scoreOf (CalculateTwoTypesScores scenarioRoom scenarioAnswers).room "A" = some 50 :=
  scenario_scores scenarioRoom scenarioAnswers "A" "B" (mkPlayer "A" 0) (mkPlayer "B" 0)
    (mkAnswer "A" "A" 2 true) (mkAnswer "B" "A" 5 false) (Or.inl rfl) (by decide) rfl rfl rfl rfl
    (by decide!) rfl (by decide!) rfl rfl

/-- C3 (as stated, refuted): at `r = 0` with `T = 30` the bonus is 45, not 50. -/
theorem speed_bonus_at_zero_counterexample : timeBonus 30 0 ≠ 50 := by decide!

/-- C3 (amended): the speed bonus always lies in `[0, 50]`, is monotonically
non-increasing in the response time for a fixed time limit, equals 45 at
`r = 0` with `T = 30`, equals 0 at `r = T`, and equals 0 for every `r > T`. -/
theorem speed_bonus_properties :
    (∀ (T : Int) (r : ℚ), 0 ≤ timeBonus T r ∧ timeBonus T r ≤ 50) ∧
    (∀ (T : Int) (r1 r2 : ℚ), r1 ≤ r2 → timeBonus T r2 ≤ timeBonus T r1) ∧
    timeBonus 30 0 = 45 ∧
    (∀ T : Int, timeBonus T (T : ℚ) = 0) ∧
    (∀ (T : Int) (r : ℚ), (T : ℚ) < r → timeBonus T r = 0) :=
  ⟨timeBonus_bounds, fun T _ _ h => timeBonus_antitone T h, by decide!,
    fun T => timeBonus_late T _ (le_refl _), fun T r h => timeBonus_late T r (le_of_lt h)⟩

/-- Witness of `speed_bonus_properties`: a later answer earns no more, and an
answer after the limit earns no bonus. -/
theorem speed_bonus_properties_witness :
    timeBonus 30 10 ≤ timeBonus 30 5 ∧ timeBonus 30 31 = 0 :=
  ⟨speed_bonus_properties.2.1 30 5 10 (by norm_num),
    speed_bonus_properties.2.2.2.2 30 31 (by norm_num)⟩

/-- C4: when the current host is a player of the room, the host gains exactly
50 points if the answers map has an entry for the host, whatever that entry
holds, and 0 points if it has none. -/
theorem host_points (room : Room) (answers : List (String × Answer)) (player : Player)
    (hp : mapGet room.Players room.CurrentHost = some player) :
    (∀ answer : Answer, mapGet answers room.CurrentHost = some answer →
      Gains room answers room.CurrentHost 50) ∧
    (mapGet answers room.CurrentHost = none → Gains room answers room.CurrentHost 0) := by
  constructor
  · intro answer ha
    rw [← roundPoints_host room answers answer ha]
    exact gains_roundPoints room answers _ player hp
  · intro ha
    rw [← roundPoints_unanswered room answers _ ha]
    exact gains_roundPoints room answers _ player hp

/-- Witness of `host_points`: the host of the scenario gains 50. -/
theorem host_points_witness : Gains scenarioRoom scenarioAnswers "A" 50 :=
  (host_points scenarioRoom scenarioAnswers (mkPlayer "A" 0) (by decide!)).1
    (mkAnswer "A" "A" 2 true) (by decide!)

/-- C5: a non-host player gains 0 points when the answers map has no entry for
the player, and when the recorded option differs from the host's recorded
option. -/
theorem guesser_zero_points (room : Room) (answers : List (String × Answer))
    (playerID : String) (player : Player)
    (hp : mapGet room.Players playerID = some player)
    (hne : playerID ≠ room.CurrentHost)
    (h : mapGet answers playerID = none ∨
      ∃ answer, mapGet answers playerID = some answer ∧
        answer.Answer ≠ findHostAnswer room.CurrentHost answers) :
    Gains room answers playerID 0 := by
  have h0 : roundPoints room answers playerID = 0 := by
    rcases h with h | ⟨answer, ha, hdiff⟩
    · exact roundPoints_unanswered room answers playerID h
    · exact roundPoints_mismatch room answers playerID answer hne ha hdiff
  rw [← h0]
  exact gains_roundPoints room answers playerID player hp

/-- Witness of `guesser_zero_points`: B chose "B" while host A chose "A". -/
theorem guesser_zero_points_witness :
    Gains scenarioRoom [("A", mkAnswer "A" "A" 2 true), ("B", mkAnswer "B" "B" 5 false)] "B" 0 :=
  guesser_zero_points scenarioRoom _ "B" (mkPlayer "B" 0) (by decide!) (by decide)
    (Or.inr ⟨mkAnswer "B" "B" 5 false, by decide!, by decide⟩)

/-- C6: after `CalculateTwoTypesScores` the cumulative score of every player
equals the score before the call plus the `ScoreGained` reported on the
player's line of the returned list, `ScoreGained` is never negative, and the
cumulative score does not decrease. -/
theorem score_accumulates (room : Room) (answers : List (String × Answer))
    (playerID : String) (player : Player)
    (hp : mapGet room.Players playerID = some player) :
    ∃ after : Player,
      mapGet (CalculateTwoTypesScores room answers).room.Players playerID = some after ∧
      (∃ info ∈ (CalculateTwoTypesScores room answers).scores, info.PlayerID = playerID) ∧
      (∀ info ∈ (CalculateTwoTypesScores room answers).scores, info.PlayerID = playerID →
        after.Score = player.Score + info.ScoreGained ∧ 0 ≤ info.ScoreGained) ∧
      player.Score ≤ after.Score ∧
      ∀ info ∈ (CalculateTwoTypesScores room answers).scores, 0 ≤ info.ScoreGained := by
  have hg := gains_roundPoints room answers playerID player hp
  have hnn := roundPoints_nonneg room answers playerID
  refine ⟨{ player with Score := player.Score + roundPoints room answers playerID },
    ?_, hg.2.1, ?_, ?_, ?_⟩
  · rw [calc_player_after, hp]; rfl
  · intro info hinfo hid
    rw [hg.2.2 info hinfo hid]
    exact ⟨rfl, hnn⟩
  · show player.Score ≤ player.Score + roundPoints room answers playerID
    omega
  · intro info hinfo
    obtain ⟨e, _, _, _, _, h4⟩ := calc_scores_mem room answers info hinfo
    rw [h4]
    exact roundPoints_nonneg room answers e.1

/-- Witness of `score_accumulates` on the scenario of the spec. -/
theorem score_accumulates_witness :
    ∃ after : Player,
      mapGet (CalculateTwoTypesScores scenarioRoom scenarioAnswers).room.Players "B"
        = some after ∧
      (∃ info ∈ (CalculateTwoTypesScores scenarioRoom scenarioAnswers).scores,
        info.PlayerID = "B") ∧
      (∀ info ∈ (CalculateTwoTypesScores scenarioRoom scenarioAnswers).scores,
        info.PlayerID = "B" →
          after.Score = (mkPlayer "B" 0).Score + info.ScoreGained ∧ 0 ≤ info.ScoreGained) ∧
      (mkPlayer "B" 0).Score ≤ after.Score ∧
      ∀ info ∈ (CalculateTwoTypesScores scenarioRoom scenarioAnswers).scores,
        0 ≤ info.ScoreGained :=
  score_accumulates scenarioRoom scenarioAnswers "B" (mkPlayer "B" 0) (by decide!)

theorem setRanks_rank (l : List ScoreInfo) (i : Nat) (info : ScoreInfo)
    (h : (setRanks l)[i]? = some info) : info.Rank = (i : Int) + 1 := by
  simp only [setRanks, List.getElem?_mapIdx] at h
  cases hl : l[i]? with
  | none => rw [hl] at h; simp at h
  | some s =>
    rw [hl] at h
    simp only [Option.map_some', Option.some.injEq] at h
    rw [← h]

theorem setStatsRanks_rank (l : List PlayerGameStats) (i : Nat) (stats : PlayerGameStats)
    (h : (setStatsRanks l)[i]? = some stats) : stats.Rank = (i : Int) + 1 := by
  simp only [setStatsRanks, List.getElem?_mapIdx] at h
  cases hl : l[i]? with
  | none => rw [hl] at h; simp at h
  | some s =>
    rw [hl] at h
    simp only [Option.map_some', Option.some.injEq] at h
    rw [← h]

theorem setRanks_sorted (l : List ScoreInfo)
    (h : l.Pairwise (fun a b => b.Score ≤ a.Score)) :
    (setRanks l).Pairwise (fun a b => b.Score ≤ a.Score) := by
  have h1 : (l.map fun s => s.Score).Pairwise (fun x y => y ≤ x) := List.pairwise_map.mpr h
  rw [← setRanks_map (fun s => s.Score) (fun _ _ => rfl) l] at h1
  exact List.pairwise_map.mp h1

theorem setStatsRanks_sorted (l : List PlayerGameStats)
    (h : l.Pairwise (fun a b => b.TotalScore ≤ a.TotalScore)) :
    (setStatsRanks l).Pairwise (fun a b => b.TotalScore ≤ a.TotalScore) := by
  have h1 : (l.map fun s => s.TotalScore).Pairwise (fun x y => y ≤ x) :=
    List.pairwise_map.mpr h
  rw [← setStatsRanks_map (fun s => s.TotalScore) (fun _ _ => rfl) l] at h1
  exact List.pairwise_map.mp h1

theorem mapUpdate_map_same {α β : Type} (f : String × α → β) (m : List (String × α))
    (key : String) (v w : α) (hget : mapGet m key = some w) (hf : f (key, v) = f (key, w)) :
    (mapUpdate m key v).map f = m.map f := by
  induction m with
  | nil => rfl
  | cons e rest ih =>
    obtain ⟨k0, w0⟩ := e
    by_cases h0 : k0 = key
    · subst h0
      simp only [mapGet, if_true, Option.some.injEq] at hget
      subst hget
      simp [mapUpdate, hf]
    · simp only [mapGet, h0, if_false] at hget
      simp [mapUpdate, h0, ih hget]

theorem countAnswer_core (stats : PlayerGameStats) (answer : Answer) :
    (countAnswer stats answer).PlayerID = stats.PlayerID ∧
      (countAnswer stats answer).TotalScore = stats.TotalScore := by
  unfold countAnswer
  split_ifs <;> exact ⟨rfl, rfl⟩

theorem tallyAnswer_core (m : List (String × PlayerGameStats)) (entry : String × Answer) :
    (tallyAnswer m entry).map statsCore = m.map statsCore := by
  unfold tallyAnswer
  cases hget : mapGet m entry.1 with
  | none => rfl
  | some stats =>
    apply mapUpdate_map_same statsCore m entry.1 _ stats hget
    simp [statsCore, countAnswer_core]

theorem tallyAnswers_core (answers : List (String × Answer)) :
    ∀ m : List (String × PlayerGameStats),
      (answers.foldl tallyAnswer m).map statsCore = m.map statsCore := by
  induction answers with
  | nil => intro m; rfl
  | cons a rest ih =>
    intro m
    rw [List.foldl_cons, ih, tallyAnswer_core]

theorem tallyHistory_core (history : List QuestionHistory) :
    ∀ m : List (String × PlayerGameStats),
      (tallyHistory m history).map statsCore = m.map statsCore := by
  induction history with
  | nil => intro m; rfl
  | cons hst rest ih =>
    intro m
    unfold tallyHistory at ih ⊢
    rw [List.foldl_cons, ih, tallyAnswers_core]

theorem withAccuracy_core (stats : PlayerGameStats) :
    (withAccuracy stats).PlayerID = stats.PlayerID ∧
      (withAccuracy stats).TotalScore = stats.TotalScore := by
  unfold withAccuracy
  split_ifs <;> exact ⟨rfl, rfl⟩

theorem statsLines_core (room : Room) :
    (statsLines room).map (fun s => (s.PlayerID, s.TotalScore))
      = room.Players.map fun e => (e.1, e.2.Score) := by
  have h := congrArg (List.map fun c : String × String × Int => c.2)
    (tallyHistory_core room.GameHistory (initStats room))
  simp only [List.map_map] at h
  unfold statsLines
  rw [List.map_map]
  have hl : ((fun s : PlayerGameStats => (s.PlayerID, s.TotalScore)) ∘
        fun e : String × PlayerGameStats => withAccuracy e.2)
      = ((fun c : String × String × Int => c.2) ∘ statsCore) := by
    funext e
    simp [statsCore, withAccuracy_core]
  rw [hl, h]
  simp [initStats, statsCore, Function.comp_def]

theorem calculatePlayerGameStats_eq (room : Room) :
    calculatePlayerGameStats room
      = setStatsRanks (exchangeSort (fun stats => stats.TotalScore) (statsLines room)) := rfl

/-- C7: the lists returned by `CalculateTwoTypesScores` and by
`calculatePlayerGameStats` hold exactly one entry per current player (the
entries' ids with their cumulative scores are a rearrangement of the player
mapping), are ordered by non-increasing cumulative score, and the entry at
0-based position `i` has `Rank = i + 1`. -/
theorem ranking_lists_sorted (room : Room) (answers : List (String × Answer)) :
    (((CalculateTwoTypesScores room answers).scores.map fun s => (s.PlayerID, s.Score)).Perm
        ((CalculateTwoTypesScores room answers).room.Players.map fun e => (e.1, e.2.Score)) ∧
      (CalculateTwoTypesScores room answers).scores.Pairwise (fun a b => b.Score ≤ a.Score) ∧
      ∀ (i : Nat) (info : ScoreInfo),
        (CalculateTwoTypesScores room answers).scores[i]? = some info →
          info.Rank = (i : Int) + 1) ∧
    (((calculatePlayerGameStats room).map fun s => (s.PlayerID, s.TotalScore)).Perm
        (room.Players.map fun e => (e.1, e.2.Score)) ∧
      (calculatePlayerGameStats room).Pairwise (fun a b => b.TotalScore ≤ a.TotalScore) ∧
      ∀ (i : Nat) (stats : PlayerGameStats),
        (calculatePlayerGameStats room)[i]? = some stats → stats.Rank = (i : Int) + 1) := by
  refine ⟨⟨?_, ?_, ?_⟩, ⟨?_, ?_, ?_⟩⟩
  · have h := (calc_scores_perm room answers).map fun s : ScoreInfo => (s.PlayerID, s.Score)
    rw [List.map_map, List.map_map, calc_players, List.map_map] at *
    exact h
  · rw [calc_scores]
    exact setRanks_sorted _ (exchangeSort_sorted _ _)
  · intro i info h
    rw [calc_scores] at h
    exact setRanks_rank _ i info h
  · rw [calculatePlayerGameStats_eq,
      setStatsRanks_map (fun s => (s.PlayerID, s.TotalScore)) (fun _ _ => rfl),
      ← statsLines_core room]
    exact (exchangeSort_perm _ _).map _
  · rw [calculatePlayerGameStats_eq]
    exact setStatsRanks_sorted _ (exchangeSort_sorted _ _)
  · intro i stats h
    rw [calculatePlayerGameStats_eq] at h
    exact setStatsRanks_rank _ i stats h

/-- C8 (as stated, refuted): `a` and `b` are tied and enumerated in this order,
the returned list is `c, b, a`. -/
theorem tie_order_counterexample :
    ((CalculateTwoTypesScores tieRoom []).scores.map fun s => s.PlayerID) = ["c", "b", "a"] ∧
    ¬ TiesKeepEnumerationOrder tieRoom [] := by
  refine ⟨by decide!, ?_⟩
  intro h
  have h1 := h ("a", mkPlayer "a" 1) ("b", mkPlayer "b" 1) (by decide!) rfl
  revert h1
  decide!

theorem scoreLine_sorted (room : Room) (answers : List (String × Answer))
    (h : (CalculateTwoTypesScores room answers).room.Players.Pairwise
      (fun p q => q.2.Score ≤ p.2.Score)) :
    (room.Players.map (scoreLine room answers)).Pairwise (fun a b => b.Score ≤ a.Score) := by
  rw [calc_players, List.pairwise_map] at h
  rw [List.pairwise_map]
  exact h

/-- C8 (amended): when the enumeration of the player mapping already lists the
cumulative scores in non-increasing order, the returned list keeps the order of
enumeration, so tied players keep their relative order. -/
theorem ties_keep_order_of_sorted (room : Room) (answers : List (String × Answer))
    (h : (CalculateTwoTypesScores room answers).room.Players.Pairwise
      (fun p q => q.2.Score ≤ p.2.Score)) :
    ((CalculateTwoTypesScores room answers).scores.map fun s => s.PlayerID)
        = mapKeys room.Players ∧
      TiesKeepEnumerationOrder room answers := by
  have hkeys : ((CalculateTwoTypesScores room answers).scores.map fun s => s.PlayerID)
      = mapKeys room.Players := by
    rw [calc_scores, setRanks_map (fun s => s.PlayerID) (fun _ _ => rfl),
      exchangeSort_of_sorted _ _ (scoreLine_sorted room answers h), List.map_map]
    rfl
  refine ⟨hkeys, ?_⟩
  intro p q hsub _
  rw [hkeys]
  have h2 := hsub.map Prod.fst
  rw [calc_players, List.map_map] at h2
  exact h2

/-- Witness of `ties_keep_order_of_sorted` on two tied players. -/
theorem ties_keep_order_of_sorted_witness :
    ((CalculateTwoTypesScores tiePair []).scores.map fun s => s.PlayerID)
        = mapKeys tiePair.Players ∧
      TiesKeepEnumerationOrder tiePair [] :=
  ties_keep_order_of_sorted tiePair [] (by decide!)

theorem mapGet_perm {α : Type} {m1 m2 : List (String × α)} (hperm : m1.Perm m2) :
    KeysNodup m1 → ∀ k, mapGet m1 k = mapGet m2 k := by
  induction hperm with
  | nil => intro _ _; rfl
  | cons x _ ih =>
    intro hnd k
    obtain ⟨k0, v⟩ := x
    have hnd' := (List.nodup_cons.mp hnd).2
    simp only [mapGet, ih hnd' k]
  | swap x y l =>
    intro hnd k
    obtain ⟨kx, vx⟩ := x
    obtain ⟨ky, vy⟩ := y
    have hne : ky ≠ kx := by
      have h := (List.nodup_cons.mp hnd).1
      simp only [mapKeys, List.map_cons, List.mem_cons, not_or] at h
      exact h.1
    simp only [mapGet]
    by_cases h1 : ky = k
    · have h2 : ¬ kx = k := fun h => hne (h1.trans h.symm)
      simp [h1, h2]
    · simp [h1]
  | trans h12 _ ih1 ih2 =>
    intro hnd k
    have hnd2 : KeysNodup _ := (h12.map Prod.fst).nodup_iff.mp hnd
    rw [ih1 hnd k, ih2 hnd2 k]

theorem roundPoints_perm (room : Room) (players2 : List (String × Player))
    (answers answers2 : List (String × Answer)) (ha : answers.Perm answers2)
    (hka : KeysNodup answers) (playerID : String) :
    roundPoints { room with Players := players2 } answers2 playerID
      = roundPoints room answers playerID := by
  simp only [roundPoints, findHostAnswer_eq, mapGet_perm ha hka]

theorem scoreLine_perm (room : Room) (players2 : List (String × Player))
    (answers answers2 : List (String × Answer)) (ha : answers.Perm answers2)
    (hka : KeysNodup answers) :
    scoreLine { room with Players := players2 } answers2 = scoreLine room answers := by
  funext e
  simp only [scoreLine, roundPoints_perm room players2 answers answers2 ha hka]

/-- Two lists in non-increasing order of the key that are rearrangements of
each other list the same keys. -/
theorem sorted_keys_unique {α : Type} (key : α → Int) {l1 l2 : List α} (hperm : l1.Perm l2)
    (h1 : l1.Pairwise (fun a b => key b ≤ key a)) (h2 : l2.Pairwise (fun a b => key b ≤ key a)) :
    l1.map key = l2.map key := by
  haveI : IsAntisymm Int (fun x y => y ≤ x) := ⟨fun _ _ hab hba => le_antisymm hba hab⟩
  have s1 : (l1.map key).Sorted (fun x y => y ≤ x) := List.pairwise_map.mpr h1
  have s2 : (l2.map key).Sorted (fun x y => y ≤ x) := List.pairwise_map.mpr h2
  exact List.eq_of_perm_of_sorted (hperm.map key) s1 s2

/-- With pairwise distinct keys the ordered rearrangement itself is unique. -/
theorem sorted_unique {α : Type} (key : α → Int) {l1 l2 : List α} (hperm : l1.Perm l2)
    (h1 : l1.Pairwise (fun a b => key b ≤ key a)) (h2 : l2.Pairwise (fun a b => key b ≤ key a))
    (hnd : (l1.map key).Nodup) : l1 = l2 := by
  have hnd2 : (l2.map key).Nodup := (hperm.map key).nodup_iff.mp hnd
  have strict : ∀ l : List α, l.Pairwise (fun a b => key b ≤ key a) → (l.map key).Nodup →
      l.Pairwise (fun a b => key b < key a) := by
    intro l hs hn
    have hn' : l.Pairwise (fun a b => key a ≠ key b) := List.pairwise_map.mp hn
    exact (List.pairwise_and_iff.mpr ⟨hs, hn'⟩).imp
      (fun h => lt_of_le_of_ne h.1 (fun e => h.2 e.symm))
  haveI : IsAntisymm α (fun a b => key b < key a) :=
    ⟨fun _ _ hab hba => absurd hab (not_lt.mpr (le_of_lt hba))⟩
  have s1 : l1.Sorted (fun a b => key b < key a) := strict l1 h1 hnd
  have s2 : l2.Sorted (fun a b => key b < key a) := strict l2 h2 hnd2
  exact List.eq_of_perm_of_sorted hperm s1 s2

/-- C9 (as stated, refuted): the same snapshot enumerated in two orders gives
two different rank orders. -/
theorem rank_order_counterexample :
    tiePair.Players.Perm tiePairSwapped.Players ∧
    tiePairSwapped = { tiePair with Players := tiePairSwapped.Players } ∧
    ((CalculateTwoTypesScores tiePair []).scores.map fun s => s.PlayerID) = ["a", "b"] ∧
    ((CalculateTwoTypesScores tiePairSwapped []).scores.map fun s => s.PlayerID) = ["b", "a"] ∧
    (CalculateTwoTypesScores tiePair []).scores
      ≠ (CalculateTwoTypesScores tiePairSwapped []).scores := by
  refine ⟨List.Perm.swap _ _ _, rfl, by decide!, by decide!, by decide!⟩

/-- C9 (amended): for two enumerations of the same player mapping and of the
same answers map (keys distinct), every player is credited the same points and
ends with the same cumulative total, the returned lists hold the same lines up
to order and rank, list the same cumulative scores rank by rank, and are equal
whenever the cumulative scores are pairwise distinct. -/
theorem scores_enumeration_independent (room : Room) (players2 : List (String × Player))
    (answers answers2 : List (String × Answer))
    (hp : room.Players.Perm players2) (ha : answers.Perm answers2)
    (hkp : KeysNodup room.Players) (hka : KeysNodup answers) :
    (∀ playerID, roundPoints { room with Players := players2 } answers2 playerID
        = roundPoints room answers playerID) ∧
    (∀ playerID,
      mapGet (CalculateTwoTypesScores { room with Players := players2 } answers2).room.Players
          playerID
        = mapGet (CalculateTwoTypesScores room answers).room.Players playerID) ∧
    ((CalculateTwoTypesScores { room with Players := players2 } answers2).scores.map
        unranked).Perm
      ((CalculateTwoTypesScores room answers).scores.map unranked) ∧
    ((CalculateTwoTypesScores { room with Players := players2 } answers2).scores.map
        fun s => s.Score)
      = ((CalculateTwoTypesScores room answers).scores.map fun s => s.Score) ∧
    ((((CalculateTwoTypesScores room answers).scores.map fun s => s.Score).Nodup) →
      (CalculateTwoTypesScores { room with Players := players2 } answers2).scores
        = (CalculateTwoTypesScores room answers).scores) := by
  have hpts := roundPoints_perm room players2 answers answers2 ha hka
  have hline := scoreLine_perm room players2 answers answers2 ha hka
  have hlines : (players2.map (scoreLine room answers)).Perm
      (room.Players.map (scoreLine room answers)) := (hp.map _).symm
  have hsorted : ((exchangeSort (fun s : ScoreInfo => s.Score)
        (players2.map (scoreLine room answers)))).Perm
      (exchangeSort (fun s : ScoreInfo => s.Score) (room.Players.map (scoreLine room answers))) :=
    ((exchangeSort_perm _ _).trans hlines).trans (exchangeSort_perm _ _).symm
  refine ⟨hpts, ?_, ?_, ?_, ?_⟩
  · intro playerID
    rw [calc_player_after, calc_player_after, hpts]
    show Option.map _ (mapGet players2 playerID) = _
    rw [← mapGet_perm hp hkp]
  · have h1 := calc_scores_perm { room with Players := players2 } answers2
    rw [hline] at h1
    exact (h1.trans hlines).trans (calc_scores_perm room answers).symm
  · rw [calc_scores, calc_scores, hline,
      setRanks_map (fun s => s.Score) (fun _ _ => rfl),
      setRanks_map (fun s => s.Score) (fun _ _ => rfl)]
    exact sorted_keys_unique _ hsorted (exchangeSort_sorted _ _) (exchangeSort_sorted _ _)
  · intro hnd
    rw [calc_scores, setRanks_map (fun s => s.Score) (fun _ _ => rfl)] at hnd
    rw [calc_scores, calc_scores, hline]
    have heq := sorted_unique _ hsorted.symm (exchangeSort_sorted _ _) (exchangeSort_sorted _ _) hnd
    show setRanks (exchangeSort _ (players2.map (scoreLine room answers))) = _
    rw [← heq]

/-- Witness of `scores_enumeration_independent`: the scenario of the spec with
both mappings enumerated in the other order. -/
theorem scores_enumeration_independent_witness :
    (CalculateTwoTypesScores
        { scenarioRoom with Players := [("B", mkPlayer "B" 0), ("A", mkPlayer "A" 0)] }
        [("A", mkAnswer "A" "A" 2 true), ("B", mkAnswer "B" "A" 5 false)]).scores
      = (CalculateTwoTypesScores scenarioRoom scenarioAnswers).scores :=
  (scores_enumeration_independent scenarioRoom [("B", mkPlayer "B" 0), ("A", mkPlayer "A" 0)]
    scenarioAnswers [("A", mkAnswer "A" "A" 2 true), ("B", mkAnswer "B" "A" 5 false)]
    (List.Perm.swap _ _ _) (List.Perm.swap _ _ _) (by decide) (by decide)).2.2.2.2 (by decide!)

/-- C10 (as stated, refuted): the answer of the host keeps a false `IsCorrect`
flag through `CalculateTwoTypesScores`. -/
theorem host_flag_counterexample :
    mapGet scenarioRoom.Players "A" = some (mkPlayer "A" 0) ∧
    scenarioRoom.CurrentHost = "A" ∧
    mapGet unflaggedHostAnswers "A" = some (mkAnswer "A" "A" 2 false) ∧
    (mapGet (CalculateTwoTypesScores scenarioRoom unflaggedHostAnswers).answers "A").map
        (fun a => a.IsCorrect) = some false := by
  refine ⟨by decide!, rfl, by decide!, by decide!⟩

/-- C10 (amended): after `CalculateTwoTypesScores`, the answer of every current
player carries in `ScoreGained` the points credited to that player this round;
the `IsCorrect` flag of the host's answer is left as it was on entry; the
`IsCorrect` flag of a non-host answer is true exactly when its option equals
the host's recorded option; no other field changes. -/
theorem answers_backfilled (room : Room) (answers : List (String × Answer))
    (playerID : String) (player : Player) (answer : Answer)
    (hp : mapGet room.Players playerID = some player)
    (ha : mapGet answers playerID = some answer) :
    ∃ after : Answer,
      mapGet (CalculateTwoTypesScores room answers).answers playerID = some after ∧
      Gains room answers playerID after.ScoreGained ∧
      (playerID = room.CurrentHost → after.IsCorrect = answer.IsCorrect) ∧
      (playerID ≠ room.CurrentHost →
        (after.IsCorrect = true ↔ answer.Answer = findHostAnswer room.CurrentHost answers)) ∧
      after = { answer with ScoreGained := after.ScoreGained, IsCorrect := after.IsCorrect } := by
  have hmem : playerID ∈ mapKeys room.Players :=
    (mapGet_isSome_iff room.Players playerID).mp ⟨player, hp⟩
  refine ⟨backfill room.CurrentHost (findHostAnswer room.CurrentHost answers) playerID
    (roundPoints room answers playerID) answer, ?_, ?_, ?_, ?_, ?_⟩
  · rw [calc_answers, if_pos hmem, ha]; rfl
  · rw [backfill_ScoreGained]
    exact gains_roundPoints room answers playerID player hp
  · intro hhost
    simp [backfill, hhost]
  · intro hne
    simp [backfill, hne]
  · unfold backfill
    split <;> rfl

/-- Witness of `answers_backfilled`: the answer of guesser B in the scenario. -/
theorem answers_backfilled_witness :
    ∃ after : Answer,
      mapGet (CalculateTwoTypesScores scenarioRoom scenarioAnswers).answers "B" = some after ∧
      Gains scenarioRoom scenarioAnswers "B" after.ScoreGained ∧
      ("B" = scenarioRoom.CurrentHost → after.IsCorrect = (mkAnswer "B" "A" 5 false).IsCorrect) ∧
      ("B" ≠ scenarioRoom.CurrentHost →
        (after.IsCorrect = true ↔
          (mkAnswer "B" "A" 5 false).Answer
            = findHostAnswer scenarioRoom.CurrentHost scenarioAnswers)) ∧
      after = { mkAnswer "B" "A" 5 false with
        ScoreGained := after.ScoreGained, IsCorrect := after.IsCorrect } :=
  answers_backfilled scenarioRoom scenarioAnswers "B" (mkPlayer "B" 0)
    (mkAnswer "B" "A" 5 false) (by decide!) (by decide!)

theorem playerIDAt_getElem? (players : List Player) (m : Nat) (h : m < players.length) :
    (players.map fun p => p.ID)[m]? = some (playerIDAt players m) := by
  unfold playerIDAt
  rw [List.getElem?_map]
  cases hp : players[m]? with
  | none =>
    have := List.getElem?_eq_none_iff.mp hp
    omega
  | some p => rfl

theorem playerIDAt_mem (players : List Player) (m : Nat) (h : m < players.length) :
    ∃ p ∈ players, playerIDAt players m = p.ID := by
  unfold playerIDAt
  cases hp : players[m]? with
  | none =>
    have := List.getElem?_eq_none_iff.mp hp
    omega
  | some p => exact ⟨p, List.getElem?_mem hp, rfl⟩

theorem scanForHost_found (players : List Player) (currentHost : String) (rest : List Player) :
    ∀ (k j : Nat), (rest.map fun p => p.ID).Nodup →
      (rest.map fun p => p.ID)[j]? = some currentHost →
      scanForHost players currentHost k rest
        = some (playerIDAt players ((k + j + 1) % players.length)) := by
  induction rest with
  | nil => intro k j _ hj; simp at hj
  | cons p rest ih =>
    intro k j hnd hj
    rw [List.map_cons, List.nodup_cons] at hnd
    cases j with
    | zero =>
      simp only [List.map_cons, List.getElem?_cons_zero, Option.some.injEq] at hj
      simp [scanForHost, hj]
    | succ j =>
      simp only [List.map_cons, List.getElem?_cons_succ] at hj
      have hne : p.ID ≠ currentHost := by
        intro heq
        apply hnd.1
        rw [heq]
        exact List.getElem?_mem hj
      have h := ih (k + 1) j hnd.2 hj
      simp only [scanForHost, hne, if_false, h]
      have e : k + 1 + j + 1 = k + (j + 1) + 1 := by omega
      rw [e]

theorem scanForHost_mem (players : List Player) (currentHost : String) (hne : players ≠ [])
    (rest : List Player) :
    ∀ (k : Nat) (next : String), scanForHost players currentHost k rest = some next →
      ∃ p ∈ players, next = p.ID := by
  have hpos : 0 < players.length := List.length_pos.mpr hne
  induction rest with
  | nil => intro k next h; simp [scanForHost] at h
  | cons p rest ih =>
    intro k next h
    by_cases hp : p.ID = currentHost
    · simp only [scanForHost, hp, if_true, Option.some.injEq] at h
      obtain ⟨q, hq, hid⟩ := playerIDAt_mem players ((k + 1) % players.length)
        (Nat.mod_lt _ hpos)
      exact ⟨q, hq, by rw [← h, hid]⟩
    · simp only [scanForHost, hp, if_false] at h
      exact ih (k + 1) next h

theorem selectNextHost_of_no_players (room : Room) (currentHost : String) (draw : Nat)
    (h : room.Players = []) : selectNextHost room currentHost draw = "" := by
  simp [selectNextHost, Room.GetPlayerList, h]

theorem selectNextHost_mem (room : Room) (currentHost : String) (draw : Nat)
    (h : room.Players ≠ []) :
    ∃ e ∈ room.Players, selectNextHost room currentHost draw = e.2.ID := by
  have hne : room.GetPlayerList ≠ [] := by
    simpa [Room.GetPlayerList] using h
  have hpos : 0 < room.GetPlayerList.length := List.length_pos.mpr hne
  have hlen : ¬ room.GetPlayerList.length = 0 := by omega
  have lift : ∀ x : String, (∃ p ∈ room.GetPlayerList, x = p.ID) →
      ∃ e ∈ room.Players, x = e.2.ID := by
    rintro x ⟨p, hp, hx⟩
    obtain ⟨e, he, hep⟩ := List.mem_map.mp hp
    exact ⟨e, he, by rw [hx, ← hep]⟩
  have hdraw := playerIDAt_mem room.GetPlayerList (draw % room.GetPlayerList.length)
    (Nat.mod_lt _ hpos)
  apply lift
  simp only [selectNextHost, hlen, if_false]
  by_cases hc : currentHost = ""
  · simp only [hc, if_true]
    exact hdraw
  · simp only [hc, if_false]
    cases hs : scanForHost room.GetPlayerList currentHost 0 room.GetPlayerList with
    | none => exact hdraw
    | some next => exact scanForHost_mem _ _ hne _ 0 next hs

/-- C11: when the previous host (a non-empty id) stands at position `i` of the
enumeration of the players and the ids are distinct, `selectNextHost` returns
the id at position `(i + 1) mod n`. -/
theorem selectNextHost_rotates (room : Room) (previousHost : String) (draw i : Nat)
    (hnodup : (room.GetPlayerList.map fun p => p.ID).Nodup)
    (hprev : previousHost ≠ "")
    (hi : (room.GetPlayerList.map fun p => p.ID)[i]? = some previousHost) :
    (room.GetPlayerList.map fun p => p.ID)[(i + 1) % room.GetPlayerList.length]?
      = some (selectNextHost room previousHost draw) := by
  have hilt : i < room.GetPlayerList.length := by
    have := (List.getElem?_eq_some_iff.mp hi).1
    simpa using this
  have hlen : ¬ room.GetPlayerList.length = 0 := by omega
  have hscan := scanForHost_found room.GetPlayerList previousHost room.GetPlayerList 0 i
    hnodup hi
  rw [Nat.zero_add] at hscan
  simp only [selectNextHost, hlen, if_false, hprev, hscan]
  exact playerIDAt_getElem? _ _ (Nat.mod_lt _ (by omega))

/-- Witness of `selectNextHost_rotates`: in the enumeration `P1, P2, P3` the
host after `P2` is `P3` and the host after `P3` is `P1`. -/
theorem selectNextHost_rotates_witness :
    selectNextHost threeRoom "P2" 7 = "P3" ∧ selectNextHost threeRoom "P3" 7 = "P1" := by
  have h2 := selectNextHost_rotates threeRoom "P2" 7 1 (by decide) (by decide) (by decide)
  have h3 := selectNextHost_rotates threeRoom "P3" 7 2 (by decide) (by decide) (by decide)
  constructor
  · have e : (threeRoom.GetPlayerList.map fun p => p.ID)[(1 + 1) % threeRoom.GetPlayerList.length]?
        = some "P3" := by decide
    rw [e] at h2
    exact (Option.some.inj h2).symm
  · have e : (threeRoom.GetPlayerList.map fun p => p.ID)[(2 + 1) % threeRoom.GetPlayerList.length]?
        = some "P1" := by decide
    rw [e] at h3
    exact (Option.some.inj h3).symm

theorem mem_mapInsert {α : Type} (m : List (String × α)) (key : String) (v : α)
    (e : String × α) (h : e ∈ mapInsert m key v) : e = (key, v) ∨ e ∈ m := by
  induction m with
  | nil => simp [mapInsert] at h; exact Or.inl h
  | cons x rest ih =>
    obtain ⟨k, w⟩ := x
    by_cases hk : k = key
    · simp only [mapInsert, hk, if_true, List.mem_cons] at h
      rcases h with h | h
      · exact Or.inl h
      · exact Or.inr (List.mem_cons_of_mem _ h)
    · simp only [mapInsert, hk, if_false, List.mem_cons] at h
      rcases h with h | h
      · exact Or.inr (by rw [h]; exact List.mem_cons_self _ _)
      · rcases ih h with h' | h'
        · exact Or.inl h'
        · exact Or.inr (List.mem_cons_of_mem _ h')

theorem mapKeys_mapInsert {α : Type} (m : List (String × α)) (key : String) (v : α)
    (k : String) (h : k ∈ mapKeys m) : k ∈ mapKeys (mapInsert m key v) := by
  induction m with
  | nil => simp [mapKeys] at h
  | cons x rest ih =>
    obtain ⟨k0, w⟩ := x
    simp only [mapKeys, List.map_cons, List.mem_cons] at h
    by_cases hk : k0 = key
    · simp only [mapInsert, hk, if_true, mapKeys, List.map_cons, List.mem_cons]
      rcases h with h | h
      · exact Or.inl (h.trans hk)
      · exact Or.inr h
    · simp only [mapInsert, hk, if_false, mapKeys, List.map_cons, List.mem_cons]
      rcases h with h | h
      · exact Or.inl h
      · exact Or.inr (ih h)

theorem hostValid_of_mem (room : Room) (e : String × Player) (he : e ∈ room.Players)
    (hid : e.2.ID = e.1) (hhost : room.CurrentHost = e.2.ID) : HostValid room := by
  right
  rw [hhost, hid]
  exact List.mem_map_of_mem Prod.fst he

theorem StartTwoTypesGame_success (gq : Int → List Question) (draw : Nat) (room : Room)
    (hplayers : 2 ≤ room.Players.length) (hq : gq room.TotalQuestions ≠ []) :
    StartTwoTypesGame gq draw room
      = { err := none,
          room :=
            { room with
              Questions := gq room.TotalQuestions,
              CurrentQuestion := 1,
              Answers := [],
              Players := room.Players.map resetScore,
              CurrentHost :=
                selectNextHost
                  { room with
                    Questions := gq room.TotalQuestions,
                    CurrentQuestion := 1,
                    Answers := [],
                    Players := room.Players.map resetScore } "" draw,
              Status := RoomStatus.questionDisplay } } := by
  have h1 : ¬ room.Players.length < 2 := by omega
  have h2 : ¬ (gq room.TotalQuestions).length = 0 := by
    intro h; exact hq (List.eq_nil_of_length_eq_zero h)
  simp only [StartTwoTypesGame, h1, if_false, h2]

theorem StartTwoTypesGame_err_none (gq : Int → List Question) (draw : Nat) (room : Room)
    (h : (StartTwoTypesGame gq draw room).err = none) :
    2 ≤ room.Players.length ∧ gq room.TotalQuestions ≠ [] := by
  by_cases h1 : room.Players.length < 2
  · simp [StartTwoTypesGame, h1] at h
  · by_cases h2 : (gq room.TotalQuestions).length = 0
    · simp [StartTwoTypesGame, h1, h2] at h
    · exact ⟨by omega, fun e => h2 (by rw [e]; rfl)⟩

/-- C12: in a room whose player records carry their keys as ids, the current
host is empty or a key of the player mapping after a successful
`StartTwoTypesGame`, after `NextTwoTypesQuestion`, and after `AddPlayer` on a
room that already had the property; `selectNextHost` returns the empty string
for a room without players and otherwise the id of a current player, whatever
the previous-host argument is (so, ids being non-empty, it returns the empty
string only for a room without players). -/
theorem host_is_empty_or_player :
    (∀ (gq : Int → List Question) (draw : Nat) (room : Room), IdsAreKeys room →
      (StartTwoTypesGame gq draw room).err = none →
        HostValid (StartTwoTypesGame gq draw room).room) ∧
    (∀ (draw : Nat) (room : Room), IdsAreKeys room → HostValid (NextTwoTypesQuestion draw room)) ∧
    (∀ (room : Room) (player : Player), IdsAreKeys room → HostValid room →
      IdsAreKeys (room.AddPlayer player) ∧ HostValid (room.AddPlayer player)) ∧
    (∀ (room : Room) (previousHost : String) (draw : Nat),
      (room.Players = [] → selectNextHost room previousHost draw = "") ∧
      (room.Players ≠ [] → ∃ e ∈ room.Players, selectNextHost room previousHost draw = e.2.ID) ∧
      ((∀ e ∈ room.Players, e.2.ID ≠ "") →
        (selectNextHost room previousHost draw = "" ↔ room.Players = []))) := by
  refine ⟨?_, ?_, ?_, ?_⟩
  · intro gq draw room hids herr
    obtain ⟨hp, hq⟩ := StartTwoTypesGame_err_none gq draw room herr
    rw [StartTwoTypesGame_success gq draw room hp hq]
    have hne : room.Players ≠ [] := by
      intro e
      rw [e] at hp
      simp at hp
    obtain ⟨e, he, hsel⟩ := selectNextHost_mem
      { room with
        Questions := gq room.TotalQuestions,
        CurrentQuestion := 1,
        Answers := [],
        Players := room.Players.map resetScore } "" draw (by simpa using hne)
    refine hostValid_of_mem _ e he ?_ hsel
    obtain ⟨e0, he0, rfl⟩ := List.mem_map.mp he
    exact hids e0 he0
  · intro draw room hids
    have key : HostValid { room with CurrentHost := selectNextHost room room.CurrentHost draw } := by
      by_cases hne : room.Players = []
      · left
        exact selectNextHost_of_no_players room _ draw hne
      · obtain ⟨e, he, hsel⟩ := selectNextHost_mem room room.CurrentHost draw hne
        exact hostValid_of_mem _ e he (hids e he) hsel
    unfold NextTwoTypesQuestion
    simp only
    split
    · exact key
    · exact key
  · intro room player hids hvalid
    constructor
    · intro e he
      rcases mem_mapInsert room.Players player.ID player e he with h | h
      · rw [h]
      · exact hids e h
    · rcases hvalid with h | h
      · exact Or.inl h
      · exact Or.inr (mapKeys_mapInsert room.Players player.ID player _ h)
  · intro room previousHost draw
    refine ⟨selectNextHost_of_no_players room previousHost draw,
      selectNextHost_mem room previousHost draw, ?_⟩
    intro hids
    constructor
    · intro hempty
      by_contra hne
      obtain ⟨e, he, hsel⟩ := selectNextHost_mem room previousHost draw hne
      exact hids e he (by rw [← hsel, hempty])
    · exact selectNextHost_of_no_players room previousHost draw

/-- Witness of `host_is_empty_or_player`: after starting a game in `threeRoom`
the host is a key of the player mapping. -/
theorem host_is_empty_or_player_witness :
    HostValid (StartTwoTypesGame sampleBank 4 threeRoom).room :=
  host_is_empty_or_player.1 sampleBank 4 threeRoom (by decide) (by decide)

/-- C13: with fewer than 2 players `StartTwoTypesGame` returns the
insufficient-players error and leaves the room as it was. -/
theorem start_requires_two_players (gq : Int → List Question) (draw : Nat) (room : Room)
    (h : room.Players.length < 2) :
    (StartTwoTypesGame gq draw room).err = some GameError.insufficientPlayers ∧
      (StartTwoTypesGame gq draw room).room = room := by
  simp [StartTwoTypesGame, h]

/-- Witness of `start_requires_two_players`: a room with a single player. -/
theorem start_requires_two_players_witness :
    (StartTwoTypesGame sampleBank 0 (mkRoom [("P1", mkPlayer "P1" 7)] "P1" 30)).err
        = some GameError.insufficientPlayers ∧
      (StartTwoTypesGame sampleBank 0 (mkRoom [("P1", mkPlayer "P1" 7)] "P1" 30)).room
        = mkRoom [("P1", mkPlayer "P1" 7)] "P1" 30 :=
  start_requires_two_players sampleBank 0 (mkRoom [("P1", mkPlayer "P1" 7)] "P1" 30)
    (by decide)

/-- C14: with at least 2 players and a non-empty question sequence loaded,
`StartTwoTypesGame` succeeds, and the resulting room has the same players, each
with score 0, an empty answers map, `CurrentQuestion = 1`, status
`question_display`, the loaded questions, and a `CurrentHost` that is the id of
one of the current players. -/
theorem start_success_state (gq : Int → List Question) (draw : Nat) (room : Room)
    (hplayers : 2 ≤ room.Players.length) (hq : gq room.TotalQuestions ≠ []) :
    (StartTwoTypesGame gq draw room).err = none ∧
    mapKeys (StartTwoTypesGame gq draw room).room.Players = mapKeys room.Players ∧
    (∀ e ∈ (StartTwoTypesGame gq draw room).room.Players, e.2.Score = 0) ∧
    (StartTwoTypesGame gq draw room).room.Answers = [] ∧
    (StartTwoTypesGame gq draw room).room.CurrentQuestion = 1 ∧
    (StartTwoTypesGame gq draw room).room.Status = RoomStatus.questionDisplay ∧
    (StartTwoTypesGame gq draw room).room.Questions = gq room.TotalQuestions ∧
    (∃ e ∈ (StartTwoTypesGame gq draw room).room.Players,
      (StartTwoTypesGame gq draw room).room.CurrentHost = e.2.ID) ∧
    (IdsAreKeys room →
      (StartTwoTypesGame gq draw room).room.CurrentHost
        ∈ mapKeys (StartTwoTypesGame gq draw room).room.Players) := by
  have hne : room.Players ≠ [] := by
    intro e
    rw [e] at hplayers
    simp at hplayers
  have hsel := selectNextHost_mem
    { room with
      Questions := gq room.TotalQuestions,
      CurrentQuestion := 1,
      Answers := [],
      Players := room.Players.map resetScore } "" draw (by simpa using hne)
  rw [StartTwoTypesGame_success gq draw room hplayers hq]
  refine ⟨rfl, ?_, ?_, rfl, rfl, rfl, rfl, hsel, ?_⟩
  · simp [mapKeys, List.map_map, Function.comp_def, resetScore]
  · intro e he
    obtain ⟨e0, _, rfl⟩ := List.mem_map.mp he
    rfl
  · intro hids
    obtain ⟨e, he, hhost⟩ := hsel
    show selectNextHost _ "" draw ∈ _
    rw [hhost]
    obtain ⟨e0, he0, rfl⟩ := List.mem_map.mp he
    show e0.2.ID ∈ _
    rw [hids e0 he0]
    show e0.1 ∈ List.map Prod.fst (room.Players.map resetScore)
    exact List.mem_map.mpr ⟨_, List.mem_map_of_mem _ he0, rfl⟩

/-- Witness of `start_success_state` on `threeRoom` with the example bank. -/
theorem start_success_state_witness :
    (StartTwoTypesGame sampleBank 4 threeRoom).err = none ∧
    (StartTwoTypesGame sampleBank 4 threeRoom).room.CurrentHost = "P2" :=
  ⟨(start_success_state sampleBank 4 threeRoom (by decide) (by decide)).1, by decide⟩

theorem questionAt_in_range (questions : List Question) (n : Int) (h1 : 1 ≤ n)
    (h2 : n ≤ questions.length) : ∃ q, questionAt questions (n - 1) = some q := by
  have hlt : (n - 1).toNat < questions.length := by omega
  have hneg : ¬ n - 1 < 0 := by omega
  refine ⟨questions[(n - 1).toNat], ?_⟩
  simp only [questionAt, hneg, if_false]
  exact List.getElem?_eq_getElem hlt

/-- C15: when the current question index refers to an existing question,
`SubmitTwoTypesAnswer` returns the invalid-option error exactly for an option
that is neither "A" nor "B", the unknown-player error exactly for a valid
option and a player id that is not a key of the player mapping, and otherwise
an answer with the given player id, option and response time, with `WasHost`
true exactly for the current host and, for the host, `HostAnswer` equal to the
option and `IsCorrect` true; the room is left as it was. -/
theorem submit_answer_contract (room : Room) (playerID option : String) (timeUsed : ℚ)
    (h1 : 1 ≤ room.CurrentQuestion) (h2 : room.CurrentQuestion ≤ room.Questions.length) :
    ((SubmitTwoTypesAnswer room playerID option timeUsed).1
        = SubmitResult.error GameError.invalidOption ↔ (option ≠ "A" ∧ option ≠ "B")) ∧
    ((SubmitTwoTypesAnswer room playerID option timeUsed).1
        = SubmitResult.error GameError.unknownPlayer ↔
      ((option = "A" ∨ option = "B") ∧ mapGet room.Players playerID = none)) ∧
    ((option = "A" ∨ option = "B") → (∃ player, mapGet room.Players playerID = some player) →
      ∃ answer question,
        (SubmitTwoTypesAnswer room playerID option timeUsed).1 = SubmitResult.ok answer ∧
        questionAt room.Questions (room.CurrentQuestion - 1) = some question ∧
        answer.PlayerID = playerID ∧ answer.QuestionID = question.ID ∧
        answer.Answer = option ∧ answer.ResponseTime = timeUsed ∧
        (answer.WasHost = true ↔ playerID = room.CurrentHost) ∧
        (playerID = room.CurrentHost → answer.HostAnswer = option ∧ answer.IsCorrect = true)) ∧
    (SubmitTwoTypesAnswer room playerID option timeUsed).2 = room := by
  obtain ⟨q, hq⟩ := questionAt_in_range room.Questions room.CurrentQuestion h1 h2
  by_cases hopt : option ≠ "A" ∧ option ≠ "B"
  · have hres : SubmitTwoTypesAnswer room playerID option timeUsed
        = (SubmitResult.error GameError.invalidOption, room) := by
      simp only [SubmitTwoTypesAnswer, hq]
      rw [if_pos hopt]
    rw [hres]
    refine ⟨by simp [hopt], ?_, ?_, rfl⟩
    · constructor
      · intro h; simp at h
      · rintro ⟨hv, _⟩
        rcases hv with hv | hv
        · exact absurd hv hopt.1
        · exact absurd hv hopt.2
    · intro hv
      rcases hv with hv | hv
      · exact absurd hv hopt.1
      · exact absurd hv hopt.2
  · have hvalid : option = "A" ∨ option = "B" := by
      by_contra hn
      exact hopt ⟨fun h => hn (Or.inl h), fun h => hn (Or.inr h)⟩
    cases hp : mapGet room.Players playerID with
    | none =>
      have hres : SubmitTwoTypesAnswer room playerID option timeUsed
          = (SubmitResult.error GameError.unknownPlayer, room) := by
        simp only [SubmitTwoTypesAnswer, hq, Room.GetPlayer, hp]
        rw [if_neg hopt]
      rw [hres]
      refine ⟨?_, ?_, ?_, rfl⟩
      · constructor
        · intro h; simp at h
        · intro h; exact absurd h hopt
      · simp [hvalid]
      · rintro _ ⟨player, hplayer⟩
        simp at hplayer
    | some player =>
      by_cases hhost : playerID = room.CurrentHost
      · have hres : SubmitTwoTypesAnswer room playerID option timeUsed
            = (SubmitResult.ok
                { PlayerID := playerID, QuestionID := q.ID, Answer := option,
                  IsCorrect := true, ResponseTime := timeUsed, ScoreGained := 0,
                  WasHost := true, HostAnswer := option }, room) := by
          simp only [SubmitTwoTypesAnswer, hq, Room.GetPlayer, hp]
          rw [if_neg hopt]
          simp [hhost]
        rw [hres]
        refine ⟨?_, ?_, ?_, rfl⟩
        · constructor
          · intro h; simp at h
          · intro h; exact absurd h hopt
        · simp
        · intro _ _
          exact ⟨_, q, rfl, hq, rfl, rfl, rfl, rfl, by simp [hhost], fun _ => ⟨rfl, rfl⟩⟩
      · have hres : SubmitTwoTypesAnswer room playerID option timeUsed
            = (SubmitResult.ok
                { PlayerID := playerID, QuestionID := q.ID, Answer := option,
                  IsCorrect := false, ResponseTime := timeUsed, ScoreGained := 0,
                  WasHost := false, HostAnswer := "" }, room) := by
          simp only [SubmitTwoTypesAnswer, hq, Room.GetPlayer, hp]
          rw [if_neg hopt]
          simp [hhost]
        rw [hres]
        refine ⟨?_, ?_, ?_, rfl⟩
        · constructor
          · intro h; simp at h
          · intro h; exact absurd h hopt
        · simp
        · intro _ _
          exact ⟨_, q, rfl, hq, rfl, rfl, rfl, rfl, by simp [hhost],
            fun h => absurd h hhost⟩

/-- Witness of `submit_answer_contract`: host `P2` answers "A" in a room with
two questions. -/
theorem submit_answer_contract_witness :
    (SubmitTwoTypesAnswer threeRoomPlaying "P2" "A" 3).1
      = SubmitResult.ok
          { PlayerID := "P2", QuestionID := 1, Answer := "A", IsCorrect := true,
            ResponseTime := 3, ScoreGained := 0, WasHost := true, HostAnswer := "A" } ∧
    (SubmitTwoTypesAnswer threeRoomPlaying "P2" "A" 3).2 = threeRoomPlaying :=
  ⟨by decide!, (submit_answer_contract threeRoomPlaying "P2" "A" 3 (by decide) (by decide)).2.2.2⟩

/-- C16: `NextTwoTypesQuestion` increases `CurrentQuestion` by exactly 1, sets
`CurrentHost` to `selectNextHost(room, previous CurrentHost)`, sets the status
to `finished` exactly when the new index is greater than `TotalQuestions` and
to `question_display` otherwise, and changes no player record, no entry of the
answers map and no other field. -/
theorem next_question_effect (draw : Nat) (room : Room) :
    (NextTwoTypesQuestion draw room).CurrentQuestion = room.CurrentQuestion + 1 ∧
    (NextTwoTypesQuestion draw room).CurrentHost = selectNextHost room room.CurrentHost draw ∧
    ((NextTwoTypesQuestion draw room).Status = RoomStatus.finished ↔
      room.CurrentQuestion + 1 > room.TotalQuestions) ∧
    (¬ room.CurrentQuestion + 1 > room.TotalQuestions →
      (NextTwoTypesQuestion draw room).Status = RoomStatus.questionDisplay) ∧
    (NextTwoTypesQuestion draw room).Players = room.Players ∧
    (NextTwoTypesQuestion draw room).Answers = room.Answers ∧
    NextTwoTypesQuestion draw room
      = { room with
          CurrentQuestion := (NextTwoTypesQuestion draw room).CurrentQuestion,
          CurrentHost := (NextTwoTypesQuestion draw room).CurrentHost,
          Status := (NextTwoTypesQuestion draw room).Status } := by
  unfold NextTwoTypesQuestion
  by_cases h : room.CurrentQuestion + 1 > room.TotalQuestions
  · simp [h]
  · simp [h]

theorem mapGet_mapInsert {α : Type} (m : List (String × α)) (key : String) (v : α) (k : String) :
    mapGet (mapInsert m key v) k = if k = key then some v else mapGet m k := by
  induction m with
  | nil =>
    by_cases hk : k = key
    · simp [mapInsert, mapGet, hk]
    · have hk' : ¬ key = k := fun h => hk h.symm
      simp [mapInsert, mapGet, hk, hk']
  | cons e rest ih =>
    obtain ⟨k0, w⟩ := e
    by_cases h0 : k0 = key
    · by_cases hk : k = key
      · simp [mapInsert, mapGet, h0, hk]
      · have hk' : ¬ key = k := fun h => hk h.symm
        simp [mapInsert, mapGet, h0, hk, hk']
    · by_cases hk : k = key
      · have h0' : ¬ k0 = k := fun h => h0 (h.trans hk)
        simp only [mapInsert, h0, if_false, mapGet, h0']
        rw [ih]
      · by_cases hk0 : k0 = k
        · simp [mapInsert, mapGet, h0, hk, hk0]
        · simp only [mapInsert, h0, if_false, mapGet, hk0, ih, hk]

/-- A write of a room with the player records `players` keeps the property
that the room stored under `roomID` has the player records `players`. -/
theorem UpdateRoom_players (store : Store) (roomID : String) (players : List (String × Player))
    (room : Room) (hstore : ∀ r, GetRoom store roomID = some r → r.Players = players)
    (hroom : room.Players = players) :
    ∀ r, GetRoom (UpdateRoom store room) roomID = some r → r.Players = players := by
  intro r hr
  unfold GetRoom UpdateRoom at hr
  rw [mapGet_mapInsert] at hr
  by_cases hk : roomID = room.ID
  · simp only [hk, if_true, Option.some.injEq] at hr
    rw [← hr]; exact hroom
  · simp only [hk, if_false] at hr
    exact hstore r hr

theorem NextTwoTypesQuestion_players (draw : Nat) (room : Room) :
    (NextTwoTypesQuestion draw room).Players = room.Players := by
  unfold NextTwoTypesQuestion
  simp only
  split <;> rfl

theorem sendNextQuestion_store (roomID : String) (fx : Effects) :
    (sendNextQuestion roomID fx).store = fx.store ∧
      ((sendNextQuestion roomID fx).panicked = true → fx.panicked = true) := by
  unfold sendNextQuestion
  cases hget : GetRoom fx.store roomID with
  | none => exact ⟨rfl, id⟩
  | some room =>
    simp only
    by_cases h1 : room.CurrentQuestion > room.Questions.length
    · rw [if_pos h1]; exact ⟨rfl, id⟩
    · by_cases h2 : room.CurrentQuestion < 1
      · rw [if_neg h1, if_pos (Or.inl h2)]; exact ⟨rfl, id⟩
      · obtain ⟨q, hq⟩ := questionAt_in_range room.Questions room.CurrentQuestion
          (by omega) (by omega)
        have h3 : ¬ (room.CurrentQuestion < 1 ∨ room.CurrentQuestion > room.Questions.length) := by
          omega
        rw [if_neg h1, if_neg h3, hq]
        exact ⟨rfl, id⟩

theorem handleNextQuestion_players (draw : Nat) (roomID : String) (fx : Effects)
    (players : List (String × Player))
    (hstore : ∀ r, GetRoom fx.store roomID = some r → r.Players = players) :
    (∀ r, GetRoom (handleNextQuestion draw roomID fx).store roomID = some r →
      r.Players = players) ∧
    ((handleNextQuestion draw roomID fx).panicked = true → fx.panicked = true) := by
  unfold handleNextQuestion
  cases hget : GetRoom fx.store roomID with
  | none => exact ⟨hstore, id⟩
  | some room =>
    have hp : (NextTwoTypesQuestion draw room).Players = players := by
      rw [NextTwoTypesQuestion_players]; exact hstore room hget
    have h1 := UpdateRoom_players fx.store roomID players (NextTwoTypesQuestion draw room)
      hstore hp
    simp only
    split
    · exact ⟨h1, id⟩
    · split
      · have hs := sendNextQuestion_store roomID
          { fx with store := UpdateRoom fx.store (NextTwoTypesQuestion draw room) }
        rw [hs.1]
        exact ⟨h1, hs.2⟩
      · refine ⟨?_, id⟩
        exact UpdateRoom_players _ roomID players _ h1 hp

theorem sendNextQuestion_outbox (roomID : String) (fx : Effects) (m : Msg)
    (hm : m ∈ fx.outbox) : m ∈ (sendNextQuestion roomID fx).outbox := by
  unfold sendNextQuestion
  cases GetRoom fx.store roomID with
  | none => exact hm
  | some room =>
    simp only
    split
    · exact hm
    · split
      · exact hm
      · split
        · exact hm
        · exact List.mem_append_left _ hm

theorem handleNextQuestion_outbox (draw : Nat) (roomID : String) (fx : Effects) (m : Msg)
    (hm : m ∈ fx.outbox) : m ∈ (handleNextQuestion draw roomID fx).outbox := by
  unfold handleNextQuestion
  cases GetRoom fx.store roomID with
  | none => exact hm
  | some room =>
    simp only
    split
    · exact List.mem_append_left _ hm
    · split
      · exact sendNextQuestion_outbox roomID _ m hm
      · exact List.mem_append_left _ hm

/-- C17: on question timeout the branch taken is normal scoring exactly when
the current host has an answer, the voided round (`QUESTION_INVALID` with
reason `host_no_answer`) exactly when there is an answer but none from the
host, and the skipped round (`QUESTION_SKIPPED`) exactly when there is no
answer; in the voided and skipped branches, continuation included, the player
records of the stored room, hence all cumulative scores, are unchanged. -/
theorem timeout_outcomes (draw : Nat) (roomID : String) (store : Store) (room : Room)
    (hroom : GetRoom store roomID = some room) :
    ((handleQuestionTimeout draw roomID store).outcome = some TimeoutOutcome.scored ↔
      ∃ answer, mapGet room.Answers room.CurrentHost = some answer) ∧
    ((handleQuestionTimeout draw roomID store).outcome = some TimeoutOutcome.voided ↔
      room.Answers ≠ [] ∧ mapGet room.Answers room.CurrentHost = none) ∧
    ((handleQuestionTimeout draw roomID store).outcome = some TimeoutOutcome.skipped ↔
      room.Answers = []) ∧
    ((handleQuestionTimeout draw roomID store).outcome = some TimeoutOutcome.voided →
      Msg.questionInvalid "host_no_answer" ∈ (handleQuestionTimeout draw roomID store).fx.outbox) ∧
    ((handleQuestionTimeout draw roomID store).outcome = some TimeoutOutcome.skipped →
      Msg.questionSkipped "no_answers" ∈ (handleQuestionTimeout draw roomID store).fx.outbox) ∧
    ((handleQuestionTimeout draw roomID store).outcome ≠ some TimeoutOutcome.scored →
      (handleQuestionTimeout draw roomID store).fx.panicked = false ∧
      ∀ r, GetRoom (handleQuestionTimeout draw roomID store).fx.store roomID = some r →
        r.Players = room.Players) := by
  have hstore : ∀ r, GetRoom store roomID = some r → r.Players = room.Players := by
    intro r hr
    rw [hroom] at hr
    rw [← Option.some.inj hr]
  by_cases hempty : room.Answers = []
  · -- nobody answered
    have hnone : mapGet room.Answers room.CurrentHost = none := by
      rw [hempty]; rfl
    have hres : handleQuestionTimeout draw roomID store
        = { outcome := some TimeoutOutcome.skipped,
            fx := handleNextQuestion draw roomID
              { store := store,
                outbox := [Msg.questionTimeout] ++ [Msg.questionSkipped "no_answers"],
                panicked := false } } := by
      simp [handleQuestionTimeout, hroom, hempty]
    have hnext := handleNextQuestion_players draw roomID
      { store := store,
        outbox := [Msg.questionTimeout] ++ [Msg.questionSkipped "no_answers"],
        panicked := false } room.Players hstore
    rw [hres]
    refine ⟨?_, ?_, ?_, ?_, ?_, ?_⟩
    · simp [hnone]
    · simp [hempty]
    · simp [hempty]
    · intro h; simp at h
    · intro _
      exact handleNextQuestion_outbox draw roomID _ _ (by simp)
    · intro _
      refine ⟨?_, hnext.1⟩
      cases hp : (handleNextQuestion draw roomID
        { store := store,
          outbox := [Msg.questionTimeout] ++ [Msg.questionSkipped "no_answers"],
          panicked := false }).panicked with
      | false => rfl
      | true => exact absurd (hnext.2 hp) (by simp)
  · have hpos : room.Answers.length > 0 := List.length_pos.mpr hempty
    cases hhost : mapGet room.Answers room.CurrentHost with
    | some answer =>
      -- the host answered
      have hres : (handleQuestionTimeout draw roomID store).outcome
          = some TimeoutOutcome.scored := by
        simp [handleQuestionTimeout, hroom, hpos, hhost]
      rw [hres]
      refine ⟨?_, ?_, ?_, ?_, ?_, ?_⟩
      · simp
      · simp
      · simp [hempty]
      · intro h; simp at h
      · intro h; simp at h
      · intro h; exact absurd rfl h
    | none =>
      -- somebody answered, the host did not
      have hstore2 : ∀ r,
          GetRoom (UpdateRoom store { room with Answers := [] }) roomID = some r →
            r.Players = room.Players :=
        UpdateRoom_players store roomID room.Players { room with Answers := [] } hstore rfl
      have hres : handleQuestionTimeout draw roomID store
          = { outcome := some TimeoutOutcome.voided,
              fx := handleNextQuestion draw roomID
                { store := UpdateRoom store { room with Answers := [] },
                  outbox := [Msg.questionTimeout] ++ [Msg.questionInvalid "host_no_answer"],
                  panicked := false } } := by
        simp [handleQuestionTimeout, hroom, hpos, hhost]
      have hnext := handleNextQuestion_players draw roomID
        { store := UpdateRoom store { room with Answers := [] },
          outbox := [Msg.questionTimeout] ++ [Msg.questionInvalid "host_no_answer"],
          panicked := false } room.Players hstore2
      rw [hres]
      refine ⟨?_, ?_, ?_, ?_, ?_, ?_⟩
      · simp
      · simp [hempty]
      · simp [hempty]
      · intro _
        exact handleNextQuestion_outbox draw roomID _ _ (by simp)
      · intro h; simp at h
      · intro _
        refine ⟨?_, hnext.1⟩
        cases hp : (handleNextQuestion draw roomID
          { store := UpdateRoom store { room with Answers := [] },
            outbox := [Msg.questionTimeout] ++ [Msg.questionInvalid "host_no_answer"],
            panicked := false }).panicked with
        | false => rfl
        | true => exact absurd (hnext.2 hp) (by simp)

/-- Witness of `timeout_outcomes`: only guesser B answered, the round is
voided and both scores stay 0. -/
theorem timeout_outcomes_witness :
    (handleQuestionTimeout 3 "ROOM01" timeoutStore).outcome = some TimeoutOutcome.voided ∧
    ((handleQuestionTimeout 3 "ROOM01" timeoutStore).fx.store.map fun e =>
      e.2.Players.map fun p => (p.1, p.2.Score)) = [[("A", 0), ("B", 0)]] :=
  ⟨((timeout_outcomes 3 "ROOM01" timeoutStore
      { scenarioRoom with
        Questions := sampleBank 2,
        Answers := [("B", mkAnswer "B" "A" 5 false)] } rfl).2.1).mpr
      ⟨by decide!, by decide⟩,
    by decide!⟩

theorem sendOrLog_store (h : Hub) (addr : Nat) (m : Msg) :
    (sendOrLog h addr m).store = h.store := by
  unfold sendOrLog
  split
  · rfl
  · split
    · rfl
    · split <;> rfl

theorem broadcastToRoomExclude_store (h : Hub) (roomID : String) (m : Msg)
    (excludeClient : Option Nat) :
    (broadcastToRoomExclude h roomID m excludeClient).store = h.store := by
  unfold broadcastToRoomExclude
  cases mapGet h.rooms roomID with
  | none => rfl
  | some roomClients =>
    simp only
    induction roomClients generalizing h with
    | nil => rfl
    | cons a rest ih =>
      rw [List.foldl_cons, ih]
      split
      · rfl
      · exact sendOrLog_store h a m

theorem mem_mapErase {α : Type} (m : List (String × α)) (key : String) (e : String × α) :
    e ∈ mapErase m key ↔ e ∈ m ∧ e.1 ≠ key := by
  simp [mapErase]

theorem mapGet_mapErase_self {α : Type} (m : List (String × α)) (key : String) :
    mapGet (mapErase m key) key = none := by
  cases h : mapGet (mapErase m key) key with
  | none => rfl
  | some v =>
    have hm := mapGet_mem _ _ _ h
    rw [mem_mapErase] at hm
    exact absurd rfl hm.2

/-- The decision of `handlePlayerLeaveInternal` when the current host leaves a
room with well-formed ids in which another player remains. -/
theorem playerLeaveUpdate_host_leaves (draw1 draw2 : Nat) (clientID : String) (client : Nat)
    (roomClients : List Nat) (room0 : Room)
    (hids : IdsAreKeys room0) (hnonempty : ∀ e ∈ room0.Players, e.1 ≠ "")
    (hhost : room0.CurrentHost = clientID) (hother : ∃ e ∈ room0.Players, e.1 ≠ clientID) :
    ∃ newHost : String,
      newHost ∈ mapKeys (mapErase room0.Players clientID) ∧ newHost ≠ clientID ∧
      (playerLeaveUpdate draw1 draw2 clientID client roomClients
          (room0.RemovePlayer clientID)).room
        = { room0 with
            Players := mapErase room0.Players clientID,
            Answers := [],
            CurrentHost := newHost,
            NextHostOverride := newHost } ∧
      (playerLeaveUpdate draw1 draw2 clientID client roomClients
          (room0.RemovePlayer clientID)).hostChanged = true ∧
      (playerLeaveUpdate draw1 draw2 clientID client roomClients
          (room0.RemovePlayer clientID)).resetAnswers = true ∧
      (room0.Status = RoomStatus.questionDisplay →
        (playerLeaveUpdate draw1 draw2 clientID client roomClients
            (room0.RemovePlayer clientID)).shouldSkipCurrentQuestion = true ∧
        (playerLeaveUpdate draw1 draw2 clientID client roomClients
            (room0.RemovePlayer clientID)).nextClient
          = roomClients.find? fun c => decide (c ≠ client)) := by
  subst hhost
  obtain ⟨other, hoin, hone⟩ := hother
  have hrest : mapErase room0.Players room0.CurrentHost ≠ [] := by
    intro hnil
    have : other ∈ mapErase room0.Players room0.CurrentHost := (mem_mapErase _ _ _).mpr ⟨hoin, hone⟩
    rw [hnil] at this
    simp at this
  have hcount : (mapErase room0.Players room0.CurrentHost).length > 0 := List.length_pos.mpr hrest
  obtain ⟨e, he, hsel⟩ := selectNextHost_mem
    { room0 with
      Players := mapErase room0.Players room0.CurrentHost,
      Answers := mapErase room0.Answers room0.CurrentHost } room0.CurrentHost draw1 hrest
  have he' := (mem_mapErase _ _ _).mp he
  have heid : e.2.ID = e.1 := hids e he'.1
  have hnew_ne_empty : e.2.ID ≠ "" := by rw [heid]; exact hnonempty e he'.1
  have hnew_ne_client : e.2.ID ≠ room0.CurrentHost := by rw [heid]; exact he'.2
  have hmissing : mapGet (mapErase room0.Players room0.CurrentHost) room0.CurrentHost = none :=
    mapGet_mapErase_self _ _
  have hstep1 : replaceMissingHost draw1 room0.CurrentHost
      { room0 with
        Players := mapErase room0.Players room0.CurrentHost,
        Answers := mapErase room0.Answers room0.CurrentHost }
      = ({ room0 with
            Players := mapErase room0.Players room0.CurrentHost,
            Answers := mapErase room0.Answers room0.CurrentHost,
            CurrentHost := e.2.ID,
            NextHostOverride := e.2.ID }, true) := by
    simp only [replaceMissingHost, SelectNextHost, hmissing, or_true, if_true, hsel,
      hnew_ne_empty, ne_eq, not_false_eq_true]
  have hstep2 : replaceOverride draw2 room0.CurrentHost
      ({ room0 with
          Players := mapErase room0.Players room0.CurrentHost,
          Answers := mapErase room0.Answers room0.CurrentHost,
          CurrentHost := e.2.ID,
          NextHostOverride := e.2.ID }, true)
      = ({ room0 with
            Players := mapErase room0.Players room0.CurrentHost,
            Answers := mapErase room0.Answers room0.CurrentHost,
            CurrentHost := e.2.ID,
            NextHostOverride := e.2.ID }, true) := by
    simp only [replaceOverride, hnew_ne_client, if_false]
  refine ⟨e.2.ID, ?_, hnew_ne_client, ?_⟩
  · rw [heid]; exact List.mem_map_of_mem Prod.fst he
  · have hupd : playerLeaveUpdate draw1 draw2 room0.CurrentHost client roomClients
        (room0.RemovePlayer room0.CurrentHost)
        = (if room0.Status = RoomStatus.questionDisplay then
            { room :=
                { room0 with
                  Players := mapErase room0.Players room0.CurrentHost,
                  Answers := [],
                  CurrentHost := e.2.ID,
                  NextHostOverride := e.2.ID },
              remainingPlayers := (mapErase room0.Players room0.CurrentHost).length,
              hostChanged := true, resetAnswers := true, shouldSkipCurrentQuestion := true,
              nextClient := roomClients.find? fun c => decide (c ≠ client) }
          else
            { room :=
                { room0 with
                  Players := mapErase room0.Players room0.CurrentHost,
                  Answers := [],
                  CurrentHost := e.2.ID,
                  NextHostOverride := e.2.ID },
              remainingPlayers := (mapErase room0.Players room0.CurrentHost).length,
              hostChanged := true, resetAnswers := true, shouldSkipCurrentQuestion := false,
              nextClient := none }) := by
      unfold playerLeaveUpdate
      simp only [Room.RemovePlayer, Room.GetPlayerCount, hcount, if_true, hstep1, hstep2]
      by_cases hans : (mapErase room0.Answers room0.CurrentHost).length > 0
      · simp only [hans, if_true]
      · have hnil : mapErase room0.Answers room0.CurrentHost = [] :=
          List.eq_nil_of_length_eq_zero (by omega)
        simp only [hnil, List.length_nil, gt_iff_lt, Nat.lt_irrefl, if_false]
    rw [hupd]
    by_cases hst : room0.Status = RoomStatus.questionDisplay
    · rw [if_pos hst]
      exact ⟨rfl, rfl, rfl, fun _ => ⟨rfl, rfl⟩⟩
    · rw [if_neg hst]
      exact ⟨rfl, rfl, rfl, fun h => absurd h hst⟩

theorem replaceMissingHost_ID (draw : Nat) (clientID : String) (room : Room) :
    (replaceMissingHost draw clientID room).1.ID = room.ID := by
  unfold replaceMissingHost
  simp only
  split
  · split <;> rfl
  · rfl

theorem replaceOverride_ID (draw : Nat) (clientID : String) (state : Room × Bool) :
    (replaceOverride draw clientID state).1.ID = state.1.ID := by
  unfold replaceOverride
  split
  · dsimp only
    split <;> rfl
  · rfl

theorem playerLeaveUpdate_ID (draw1 draw2 : Nat) (clientID : String) (client : Nat)
    (roomClients : List Nat) (room : Room) :
    (playerLeaveUpdate draw1 draw2 clientID client roomClients room).room.ID = room.ID := by
  have hstate := replaceOverride_ID draw2 clientID
    (replaceMissingHost draw1 clientID { room with Answers := mapErase room.Answers clientID })
  rw [replaceMissingHost_ID] at hstate
  unfold playerLeaveUpdate
  dsimp only
  repeat' split
  all_goals first | exact hstate | rfl

theorem GetRoom_UpdateRoom (store : Store) (room : Room) :
    GetRoom (UpdateRoom store room) room.ID = some room := by
  unfold GetRoom UpdateRoom
  rw [mapGet_mapInsert, if_pos rfl]

/-- The room that `handlePlayerLeaveInternal` writes back is the one that
`playerLeaveUpdate` decides, whatever happens to the broadcasts after it. -/
theorem handlePlayerLeaveInternal_store (draw1 draw2 : Nat) (h : Hub) (client : Nat)
    (c : Client) (room0 : Room) (hc : heapGet h.heap client = some c)
    (hroomID : c.RoomID ≠ "") (hname : c.PlayerName ≠ "")
    (hstored : GetRoom h.store c.RoomID = some room0) (hkey : room0.ID = c.RoomID) :
    GetRoom (handlePlayerLeaveInternal draw1 draw2 h client).store c.RoomID
      = some (playerLeaveUpdate draw1 draw2 c.ID client ((mapGet h.rooms c.RoomID).getD [])
          (room0.RemovePlayer c.ID)).room := by
  have hguard : ¬ (c.RoomID = "" ∨ c.PlayerName = "") := by
    rintro (h1 | h1)
    · exact hroomID h1
    · exact hname h1
  have hremoved : (room0.RemovePlayer c.ID).ID = c.RoomID := hkey
  have hfetch : GetRoom (UpdateRoom h.store (room0.RemovePlayer c.ID)) c.RoomID
      = some (room0.RemovePlayer c.ID) := by
    have hget := GetRoom_UpdateRoom h.store (room0.RemovePlayer c.ID)
    rw [hremoved] at hget
    exact hget
  have huid : (playerLeaveUpdate draw1 draw2 c.ID client ((mapGet h.rooms c.RoomID).getD [])
      (room0.RemovePlayer c.ID)).room.ID = c.RoomID := by
    rw [playerLeaveUpdate_ID]; exact hremoved
  have hfinal : GetRoom
      (UpdateRoom (UpdateRoom h.store (room0.RemovePlayer c.ID))
        (playerLeaveUpdate draw1 draw2 c.ID client ((mapGet h.rooms c.RoomID).getD [])
          (room0.RemovePlayer c.ID)).room) c.RoomID
      = some (playerLeaveUpdate draw1 draw2 c.ID client ((mapGet h.rooms c.RoomID).getD [])
          (room0.RemovePlayer c.ID)).room := by
    have hget := GetRoom_UpdateRoom (UpdateRoom h.store (room0.RemovePlayer c.ID))
      (playerLeaveUpdate draw1 draw2 c.ID client ((mapGet h.rooms c.RoomID).getD [])
        (room0.RemovePlayer c.ID)).room
    rw [huid] at hget
    exact hget
  unfold handlePlayerLeaveInternal
  simp only [hc, hguard, if_false, RemovePlayer, hstored, hfetch]
  split
  · split
    · split
      · rw [broadcastToRoomExclude_store, broadcastToRoomExclude_store]
        exact hfinal
      · simp only
        rw [broadcastToRoomExclude_store, broadcastToRoomExclude_store]
        exact hfinal
    · rw [broadcastToRoomExclude_store]
      exact hfinal
  · rw [broadcastToRoomExclude_store]
    exact hfinal

/-- C18: when the current host leaves a room (ids are the keys of the player
mapping and are non-empty) in which at least one other player remains,
`handlePlayerLeaveInternal` writes back a room whose `CurrentHost` is one of
the remaining players and not the leaver, whose pending answers are empty, and
reports `hostChanged = true` and `resetAnswers = true`; if the status was
`question_display` the round is marked for skipping, and the session that will
advance the round is chosen whenever another session is bound to the room. -/
theorem host_leave_reassigns (draw1 draw2 : Nat) (h : Hub) (client : Nat) (c : Client)
    (room0 : Room) (hc : heapGet h.heap client = some c)
    (hroomID : c.RoomID ≠ "") (hname : c.PlayerName ≠ "")
    (hstored : GetRoom h.store c.RoomID = some room0) (hkey : room0.ID = c.RoomID)
    (hids : IdsAreKeys room0) (hnonempty : ∀ e ∈ room0.Players, e.1 ≠ "")
    (hhost : room0.CurrentHost = c.ID) (hother : ∃ e ∈ room0.Players, e.1 ≠ c.ID) :
    ∃ (after : Room) (u : LeaveUpdate),
      u = playerLeaveUpdate draw1 draw2 c.ID client ((mapGet h.rooms c.RoomID).getD [])
            (room0.RemovePlayer c.ID) ∧
      GetRoom (handlePlayerLeaveInternal draw1 draw2 h client).store c.RoomID = some after ∧
      after = u.room ∧
      after.Players = mapErase room0.Players c.ID ∧
      after.CurrentHost ∈ mapKeys after.Players ∧
      after.CurrentHost ≠ c.ID ∧
      c.ID ∉ mapKeys after.Players ∧
      after.Answers = [] ∧
      u.hostChanged = true ∧ u.resetAnswers = true ∧
      (room0.Status = RoomStatus.questionDisplay →
        u.shouldSkipCurrentQuestion = true ∧
        ((∃ other ∈ (mapGet h.rooms c.RoomID).getD [], other ≠ client) →
          ∃ next, u.nextClient = some next ∧
            next ∈ (mapGet h.rooms c.RoomID).getD [] ∧ next ≠ client)) := by
  obtain ⟨newHost, hmem, hne, hroom, hchanged, hreset, hskip⟩ :=
    playerLeaveUpdate_host_leaves draw1 draw2 c.ID client ((mapGet h.rooms c.RoomID).getD [])
      room0 hids hnonempty hhost hother
  refine ⟨_, _, rfl,
    handlePlayerLeaveInternal_store draw1 draw2 h client c room0 hc hroomID hname hstored hkey,
    rfl, ?_, ?_, ?_, ?_, ?_, hchanged, hreset, ?_⟩
  · rw [hroom]
  · rw [hroom]; exact hmem
  · rw [hroom]; exact hne
  · rw [hroom]
    intro hin
    obtain ⟨e, he, hk⟩ := List.mem_map.mp hin
    exact ((mem_mapErase _ _ _).mp he).2 hk
  · rw [hroom]
  · intro hst
    obtain ⟨hs, hnext⟩ := hskip hst
    refine ⟨hs, ?_⟩
    rintro ⟨other, hoin, hone⟩
    rw [hnext]
    cases hfind : List.find? (fun c => decide (c ≠ client))
        ((mapGet h.rooms c.RoomID).getD []) with
    | none =>
      have := List.find?_eq_none.mp hfind other hoin
      simp at this
      exact absurd this hone
    | some next =>
      refine ⟨next, rfl, List.mem_of_find?_eq_some hfind, ?_⟩
      have := List.find?_some hfind
      simpa using this

/-- Witness of `host_leave_reassigns`: host `P2` leaves the room of `P1, P2,
P3` during a question; `P1` becomes host, the answers are cleared, and the
other sessions receive `QUESTION_INVALID` with reason `host_left`. -/
theorem host_leave_reassigns_witness :
    (∃ (after : Room) (u : LeaveUpdate),
      u = playerLeaveUpdate 0 0 "P2" 2 ((mapGet leaveHub.rooms "ROOM01").getD [])
            (leaveRoom.RemovePlayer "P2") ∧
      GetRoom (handlePlayerLeaveInternal 0 0 leaveHub 2).store "ROOM01" = some after ∧
      after = u.room ∧
      after.Players = mapErase leaveRoom.Players "P2" ∧
      after.CurrentHost ∈ mapKeys after.Players ∧
      after.CurrentHost ≠ "P2" ∧
      "P2" ∉ mapKeys after.Players ∧
      after.Answers = [] ∧
      u.hostChanged = true ∧ u.resetAnswers = true ∧
      (leaveRoom.Status = RoomStatus.questionDisplay →
        u.shouldSkipCurrentQuestion = true ∧
        ((∃ other ∈ (mapGet leaveHub.rooms "ROOM01").getD [], other ≠ 2) →
          ∃ next, u.nextClient = some next ∧
            next ∈ (mapGet leaveHub.rooms "ROOM01").getD [] ∧ next ≠ 2))) ∧
    ((heapGet (handlePlayerLeaveInternal 0 0 leaveHub 2).heap 1).map fun s => s.send)
      = some [Msg.playerLeft "P2" 2 "P1" true true, Msg.questionInvalid "host_left"] :=
  ⟨host_leave_reassigns 0 0 leaveHub 2 (mkClient "P2" "ROOM01") leaveRoom rfl (by decide)
      (by decide) (by decide!) rfl (by decide) (by decide) rfl
      ⟨("P1", mkPlayer "P1" 0), by decide, by decide⟩,
    by decide!⟩

/-- C19 (the code at the failing input): the last player `P1`, who is the
current host, leaves; the room written back has no players and
`NextHostOverride` empty, and `CurrentHost` is still `P1`. -/
theorem last_player_leave_keeps_host :
    ((GetRoom (unregisterClient 0 0 lastPlayerHub 1).store "ROOM01").map fun r =>
      (mapKeys r.Players, r.NextHostOverride, r.CurrentHost)) = some ([], "", "P1") := by
  decide!

/-- C20: `unregisterClient` applied to a session that is not in the Hub's
client set changes nothing: the client set, the room table, every session (its
queue and whether it is closed), the store and the counts stay as they were, and
no panic is raised. -/
theorem unregister_absent_noop (draw1 draw2 : Nat) (h : Hub) (client : Nat)
    (habsent : client ∉ h.clients) :
    unregisterClient draw1 draw2 h client = h ∧
    (unregisterClient draw1 draw2 h client).clients.length = h.clients.length ∧
    (unregisterClient draw1 draw2 h client).rooms.length = h.rooms.length ∧
    (unregisterClient draw1 draw2 h client).heap = h.heap ∧
    (unregisterClient draw1 draw2 h client).fault = h.fault := by
  have heq : unregisterClient draw1 draw2 h client = h := by
    unfold unregisterClient
    rw [if_neg habsent]
  rw [heq]
  exact ⟨rfl, rfl, rfl, rfl, rfl⟩

/-- Witness of `unregister_absent_noop`: session 5 is not registered in
`leaveHub`. -/
theorem unregister_absent_noop_witness : unregisterClient 0 0 leaveHub 5 = leaveHub :=
  (unregister_absent_noop 0 0 leaveHub 5 (by decide)).1

theorem selectNextHost_at (room : Room) (draw i : Nat)
    (hnodup : (room.GetPlayerList.map fun p => p.ID).Nodup)
    (hne : ∀ id ∈ room.GetPlayerList.map (fun p => p.ID), id ≠ "")
    (hi : i < room.GetPlayerList.length) :
    selectNextHost room (playerIDAt room.GetPlayerList i) draw
      = playerIDAt room.GetPlayerList ((i + 1) % room.GetPlayerList.length) := by
  have hget := playerIDAt_getElem? room.GetPlayerList i hi
  have hprev : playerIDAt room.GetPlayerList i ≠ "" := hne _ (List.getElem?_mem hget)
  have hlen : ¬ room.GetPlayerList.length = 0 := by omega
  have hscan := scanForHost_found room.GetPlayerList (playerIDAt room.GetPlayerList i)
    room.GetPlayerList 0 i hnodup hget
  rw [Nat.zero_add] at hscan
  simp only [selectNextHost, hlen, if_false, hprev, hscan]

theorem hostSequence_length (room : Room) (draws : List Nat) :
    ∀ host, (hostSequence room host draws).length = draws.length := by
  induction draws with
  | nil => intro host; rfl
  | cons d ds ih => intro host; simp [hostSequence, ih]

theorem hostSequence_getElem? (room : Room)
    (hnodup : (room.GetPlayerList.map fun p => p.ID).Nodup)
    (hne : ∀ id ∈ room.GetPlayerList.map (fun p => p.ID), id ≠ "") (draws : List Nat) :
    ∀ (i k : Nat), i < room.GetPlayerList.length → k < draws.length →
      (hostSequence room (playerIDAt room.GetPlayerList i) draws)[k]?
        = some (playerIDAt room.GetPlayerList ((i + k) % room.GetPlayerList.length)) := by
  induction draws with
  | nil => intro i k _ hk; simp at hk
  | cons d ds ih =>
    intro i k hi hk
    cases k with
    | zero =>
      simp only [hostSequence, List.getElem?_cons_zero, Nat.add_zero]
      rw [Nat.mod_eq_of_lt hi]
    | succ k =>
      simp only [hostSequence, List.getElem?_cons_succ]
      rw [selectNextHost_at room d i hnodup hne hi]
      have hk2 : k < ds.length := by simpa using hk
      rw [ih ((i + 1) % room.GetPlayerList.length) k (Nat.mod_lt _ (by omega)) hk2]
      congr 2
      rw [Nat.mod_add_mod]
      congr 1
      omega

theorem hostAfter_eq (room : Room)
    (hnodup : (room.GetPlayerList.map fun p => p.ID).Nodup)
    (hne : ∀ id ∈ room.GetPlayerList.map (fun p => p.ID), id ≠ "") (draws : List Nat) :
    ∀ (i : Nat), i < room.GetPlayerList.length →
      hostAfter room (playerIDAt room.GetPlayerList i) draws
        = playerIDAt room.GetPlayerList ((i + draws.length) % room.GetPlayerList.length) := by
  induction draws with
  | nil => intro i hi; simp [hostAfter, Nat.mod_eq_of_lt hi]
  | cons d ds ih =>
    intro i hi
    have h := ih ((i + 1) % room.GetPlayerList.length) (Nat.mod_lt _ (by omega))
    unfold hostAfter at h ⊢
    rw [List.foldl_cons, selectNextHost_at room d i hnodup hne hi, h]
    congr 1
    rw [Nat.mod_add_mod, List.length_cons]
    congr 1
    omega

/-- C30: in a fixed enumeration of players with distinct, non-empty ids, start
from the host `h` at position `i` and apply `selectNextHost` once per round, as
many times as there are players: the host is `h` again, the hosts of these
rounds are the enumeration rotated to start at `h`, so they are pairwise
distinct and every player is host exactly once; with two or more players one
application never returns the previous host. -/
theorem host_rotation_cycle (room : Room) (h : String) (i : Nat) (draws : List Nat)
    (hnodup : (room.GetPlayerList.map fun p => p.ID).Nodup)
    (hne : ∀ id ∈ room.GetPlayerList.map (fun p => p.ID), id ≠ "")
    (hi : (room.GetPlayerList.map fun p => p.ID)[i]? = some h)
    (hlen : draws.length = room.GetPlayerList.length) :
    hostAfter room h draws = h ∧
    hostSequence room h draws = (room.GetPlayerList.map fun p => p.ID).rotate i ∧
    (hostSequence room h draws).Nodup ∧
    (∀ id ∈ room.GetPlayerList.map (fun p => p.ID), (hostSequence room h draws).count id = 1) ∧
    (2 ≤ room.GetPlayerList.length → ∀ draw, selectNextHost room h draw ≠ h) := by
  have hilt : i < room.GetPlayerList.length := by
    have := (List.getElem?_eq_some_iff.mp hi).1
    simpa using this
  have hh : h = playerIDAt room.GetPlayerList i := by
    have := playerIDAt_getElem? room.GetPlayerList i hilt
    rw [hi] at this
    exact Option.some.inj this
  have hseq : hostSequence room h draws = (room.GetPlayerList.map fun p => p.ID).rotate i := by
    apply List.ext_getElem?
    intro k
    by_cases hk : k < draws.length
    · rw [hh, hostSequence_getElem? room hnodup hne draws i k hilt hk]
      rw [List.getElem?_rotate (by simpa [hlen] using hk), List.length_map]
      rw [playerIDAt_getElem? _ _ (Nat.mod_lt _ (by omega)), Nat.add_comm]
    · rw [List.getElem?_eq_none_iff.mpr (by rw [hostSequence_length]; omega)]
      rw [List.getElem?_eq_none_iff.mpr (by rw [List.length_rotate, List.length_map]; omega)]
  have hnd : (hostSequence room h draws).Nodup := by
    rw [hseq]
    exact List.nodup_rotate.mpr hnodup
  refine ⟨?_, hseq, hnd, ?_, ?_⟩
  · rw [hh, hostAfter_eq room hnodup hne draws i hilt, hlen, Nat.add_mod_right,
      Nat.mod_eq_of_lt hilt]
  · intro id hid
    apply List.count_eq_one_of_mem hnd
    rw [hseq]
    exact (List.rotate_perm _ _).mem_iff.mpr hid
  · intro h2 draw heq
    rw [hh, selectNextHost_at room draw i hnodup hne hilt] at heq
    have h1 := playerIDAt_getElem? room.GetPlayerList ((i + 1) % room.GetPlayerList.length)
      (Nat.mod_lt _ (by omega))
    have h0 := playerIDAt_getElem? room.GetPlayerList i hilt
    rw [heq, ← h0] at h1
    have hidx := (List.getElem?_inj (by simpa using Nat.mod_lt (i + 1) (by omega : 0 < room.GetPlayerList.length)) hnodup h1)
    by_cases hlast : i + 1 < room.GetPlayerList.length
    · rw [Nat.mod_eq_of_lt hlast] at hidx
      omega
    · have hn : i + 1 = room.GetPlayerList.length := by omega
      rw [hn, Nat.mod_self] at hidx
      omega

/-- Witness of `host_rotation_cycle`: from host `P2` in the enumeration
`P1, P2, P3`, three rounds visit `P2, P3, P1` and come back to `P2`. -/
theorem host_rotation_cycle_witness :
    hostAfter threeRoom "P2" [4, 9, 2] = "P2" ∧
    hostSequence threeRoom "P2" [4, 9, 2] = ["P2", "P3", "P1"] ∧
    (∀ draw, selectNextHost threeRoom "P2" draw ≠ "P2") := by
  have h := host_rotation_cycle threeRoom "P2" 1 [4, 9, 2] (by decide) (by decide) (by decide)
    (by decide)
  refine ⟨h.1, ?_, h.2.2.2.2 (by decide)⟩
  rw [h.2.1]
  decide

theorem NextTwoTypesQuestion_frame (draw : Nat) (room : Room) :
    (NextTwoTypesQuestion draw room).TotalQuestions = room.TotalQuestions ∧
    (NextTwoTypesQuestion draw room).Questions = room.Questions ∧
    (NextTwoTypesQuestion draw room).ID = room.ID ∧
    (NextTwoTypesQuestion draw room).GameHistory = room.GameHistory ∧
    (NextTwoTypesQuestion draw room).Answers = room.Answers ∧
    (NextTwoTypesQuestion draw room).CurrentQuestion = room.CurrentQuestion + 1 := by
  unfold NextTwoTypesQuestion
  simp only
  split <;> exact ⟨rfl, rfl, rfl, rfl, rfl, rfl⟩

theorem NextTwoTypesQuestion_status (draw : Nat) (room : Room) :
    ((NextTwoTypesQuestion draw room).Status = RoomStatus.questionDisplay ∧
      room.CurrentQuestion + 1 ≤ room.TotalQuestions) ∨
    ((NextTwoTypesQuestion draw room).Status = RoomStatus.finished ∧
      room.TotalQuestions < room.CurrentQuestion + 1) := by
  unfold NextTwoTypesQuestion
  simp only
  split
  · right; exact ⟨rfl, by omega⟩
  · left; exact ⟨rfl, by omega⟩

/-- What every number of `NextTwoTypesQuestion` calls keeps: the index is at
least 1, the status is `question_display` or `finished`, and in
`question_display` the index is at most `TotalQuestions` unless it is still 1. -/
theorem playRounds_index (draws : List Nat) :
    ∀ room : Room, 1 ≤ room.CurrentQuestion →
      (room.Status = RoomStatus.questionDisplay ∨ room.Status = RoomStatus.finished) →
      (room.Status = RoomStatus.questionDisplay →
        room.CurrentQuestion ≤ room.TotalQuestions ∨ room.CurrentQuestion = 1) →
      (playRounds draws room).TotalQuestions = room.TotalQuestions ∧
      (playRounds draws room).Questions = room.Questions ∧
      1 ≤ (playRounds draws room).CurrentQuestion ∧
      ((playRounds draws room).Status = RoomStatus.questionDisplay ∨
        (playRounds draws room).Status = RoomStatus.finished) ∧
      ((playRounds draws room).Status = RoomStatus.questionDisplay →
        (playRounds draws room).CurrentQuestion ≤ room.TotalQuestions ∨
          (playRounds draws room).CurrentQuestion = 1) := by
  induction draws with
  | nil =>
    intro room h1 hst hk
    exact ⟨rfl, rfl, h1, hst, hk⟩
  | cons d ds ih =>
    intro room h1 hst _
    obtain ⟨htq, hqs, _, _, _, hcq⟩ := NextTwoTypesQuestion_frame d room
    have hstep : playRounds (d :: ds) room = playRounds ds (NextTwoTypesQuestion d room) := rfl
    rw [hstep]
    have h := ih (NextTwoTypesQuestion d room) (by omega)
      (by rcases NextTwoTypesQuestion_status d room with h | h
          · exact Or.inl h.1
          · exact Or.inr h.1)
      (by intro hqd
          rcases NextTwoTypesQuestion_status d room with h | h
          · left; omega
          · rw [h.1] at hqd; cases hqd)
    rw [htq, hqs] at h
    exact h

theorem StartTwoTypesGame_fields (gq : Int → List Question) (draw : Nat) (room0 : Room)
    (hstart : (StartTwoTypesGame gq draw room0).err = none) :
    (StartTwoTypesGame gq draw room0).room.CurrentQuestion = 1 ∧
    (StartTwoTypesGame gq draw room0).room.Status = RoomStatus.questionDisplay ∧
    (StartTwoTypesGame gq draw room0).room.TotalQuestions = room0.TotalQuestions ∧
    (StartTwoTypesGame gq draw room0).room.Questions = gq room0.TotalQuestions ∧
    (StartTwoTypesGame gq draw room0).room.Answers = [] ∧
    (StartTwoTypesGame gq draw room0).room.GameHistory = room0.GameHistory ∧
    (StartTwoTypesGame gq draw room0).room.ID = room0.ID ∧
    (StartTwoTypesGame gq draw room0).room.Players = room0.Players.map resetScore ∧
    gq room0.TotalQuestions ≠ [] := by
  obtain ⟨hplayers, hq⟩ := StartTwoTypesGame_err_none gq draw room0 hstart
  rw [StartTwoTypesGame_success gq draw room0 hplayers hq]
  exact ⟨rfl, rfl, rfl, rfl, rfl, rfl, rfl, rfl, hq⟩

/-- C23: in every room reached from a successful `StartTwoTypesGame` of a room
with `TotalQuestions >= 1` by any number of `NextTwoTypesQuestion` calls, the
status is `question_display` or `finished`; when it is not `finished` the
question index lies in `[0, TotalQuestions]`, and when it is `question_display`
the index lies in `[1, TotalQuestions]`. -/
theorem question_index_in_range (gq : Int → List Question) (draw : Nat) (room0 : Room)
    (draws : List Nat) (hstart : (StartTwoTypesGame gq draw room0).err = none)
    (htotal : 1 ≤ room0.TotalQuestions) :
    (playRounds draws (StartTwoTypesGame gq draw room0).room).TotalQuestions
      = room0.TotalQuestions ∧
    ((playRounds draws (StartTwoTypesGame gq draw room0).room).Status ≠ RoomStatus.finished →
      0 ≤ (playRounds draws (StartTwoTypesGame gq draw room0).room).CurrentQuestion ∧
      (playRounds draws (StartTwoTypesGame gq draw room0).room).CurrentQuestion
        ≤ (playRounds draws (StartTwoTypesGame gq draw room0).room).TotalQuestions) ∧
    ((playRounds draws (StartTwoTypesGame gq draw room0).room).Status
        = RoomStatus.questionDisplay →
      1 ≤ (playRounds draws (StartTwoTypesGame gq draw room0).room).CurrentQuestion ∧
      (playRounds draws (StartTwoTypesGame gq draw room0).room).CurrentQuestion
        ≤ (playRounds draws (StartTwoTypesGame gq draw room0).room).TotalQuestions) := by
  obtain ⟨hcq, hstatus, htq0, _, _, _, _, _, _⟩ := StartTwoTypesGame_fields gq draw room0 hstart
  obtain ⟨htq, _, h1, hst, hk⟩ := playRounds_index draws (StartTwoTypesGame gq draw room0).room
    (by omega) (Or.inl hstatus) (fun _ => Or.inr hcq)
  rw [htq0] at htq hk
  refine ⟨htq, ?_, ?_⟩
  · intro hnf
    have hqd := hst.resolve_right hnf
    have := hk hqd
    exact ⟨by omega, by omega⟩
  · intro hqd
    have := hk hqd
    exact ⟨h1, by omega⟩

/-- Witness of `question_index_in_range`: `threeRoom` set up for three
questions, started and advanced twice, shows question 3 of 3. -/
theorem question_index_in_range_witness :
    (playRounds [0, 0] (StartTwoTypesGame sampleBank 4 threeQuestionRoom).room).CurrentQuestion = 3 ∧
    (playRounds [0, 0] (StartTwoTypesGame sampleBank 4 threeQuestionRoom).room).CurrentQuestion
      ≤ (playRounds [0, 0] (StartTwoTypesGame sampleBank 4 threeQuestionRoom).room).TotalQuestions :=
  ⟨by decide,
    ((question_index_in_range sampleBank 4 threeQuestionRoom [0, 0] (by decide)
      (by decide)).2.2 (by decide)).2⟩

/-- After `handleNextQuestion` the room stored under `roomID` either shows a
question that exists or is `finished`: lines 680-705 end the game when the index
has passed the loaded questions, lines 663-679 when it has passed
`TotalQuestions`. -/
theorem handleNextQuestion_in_bounds (draw : Nat) (roomID : String) (fx : Effects) (room : Room)
    (hget : GetRoom fx.store roomID = some room) (hid : room.ID = roomID)
    (hcq : 0 ≤ room.CurrentQuestion) :
    ∃ after, GetRoom (handleNextQuestion draw roomID fx).store roomID = some after ∧
      (after.Status = RoomStatus.questionDisplay →
        1 ≤ after.CurrentQuestion ∧ after.CurrentQuestion ≤ after.Questions.length) ∧
      ((after.Status = RoomStatus.questionDisplay ∧
          1 ≤ after.CurrentQuestion ∧ after.CurrentQuestion ≤ after.Questions.length) ∨
        after.Status = RoomStatus.finished) ∧
      (after.Status = RoomStatus.finished ↔
        (room.TotalQuestions < room.CurrentQuestion + 1 ∨
          (room.Questions.length : Int) < room.CurrentQuestion + 1)) := by
  obtain ⟨_, hqs, hnid, _, _, hncq⟩ := NextTwoTypesQuestion_frame draw room
  have hstored : GetRoom (UpdateRoom fx.store (NextTwoTypesQuestion draw room)) roomID
      = some (NextTwoTypesQuestion draw room) := by
    have h := GetRoom_UpdateRoom fx.store (NextTwoTypesQuestion draw room)
    rw [hnid, hid] at h
    exact h
  unfold handleNextQuestion
  rw [hget]
  simp only
  by_cases hfin : (NextTwoTypesQuestion draw room).Status = RoomStatus.finished
  · rw [if_pos hfin]
    refine ⟨_, hstored, ?_, Or.inr hfin, ?_⟩
    · intro hqd
      rw [hfin] at hqd
      cases hqd
    · constructor
      · intro _
        rcases NextTwoTypesQuestion_status draw room with h | h
        · rw [hfin] at h
          cases h.1
        · exact Or.inl h.2
      · intro _
        exact hfin
  · rw [if_neg hfin]
    have hqd : (NextTwoTypesQuestion draw room).Status = RoomStatus.questionDisplay ∧
        room.CurrentQuestion + 1 ≤ room.TotalQuestions := by
      rcases NextTwoTypesQuestion_status draw room with h | h
      · exact h
      · exact absurd h.1 hfin
    by_cases hle : (NextTwoTypesQuestion draw room).CurrentQuestion
        ≤ (NextTwoTypesQuestion draw room).Questions.length
    · rw [if_pos hle, (sendNextQuestion_store roomID _).1]
      have hbounds : 1 ≤ (NextTwoTypesQuestion draw room).CurrentQuestion ∧
          (NextTwoTypesQuestion draw room).CurrentQuestion
            ≤ (NextTwoTypesQuestion draw room).Questions.length := ⟨by omega, hle⟩
      refine ⟨_, hstored, fun _ => hbounds, Or.inl ⟨hqd.1, hbounds⟩, ?_⟩
      constructor
      · intro hf
        exact absurd hf hfin
      · intro hover
        rw [hncq, hqs] at hle
        omega
    · rw [if_neg hle]
      have h := GetRoom_UpdateRoom (UpdateRoom fx.store (NextTwoTypesQuestion draw room))
        { NextTwoTypesQuestion draw room with Status := RoomStatus.finished }
      have hid2 : ({ NextTwoTypesQuestion draw room with Status := RoomStatus.finished } : Room).ID
          = roomID := by
        show (NextTwoTypesQuestion draw room).ID = roomID
        rw [hnid, hid]
      rw [hid2] at h
      refine ⟨_, h, ?_, Or.inr rfl, ?_⟩
      · intro hq
        cases hq
      · constructor
        · intro _
          rw [hncq, hqs] at hle
          right
          omega
        · intro _
          rfl

/-- C29 (the claim as stated fails): the bank holds one question and the room
asks for three.  `StartTwoTypesGame` succeeds, one `NextTwoTypesQuestion` leaves
the status `question_display` with `CurrentQuestion = 2` and one question
loaded, and the lookup of `SubmitTwoTypesAnswer` is out of range. -/
theorem lookup_bounds_counterexample :
    (StartTwoTypesGame smallBank 0 threeQuestionRoom).err = none ∧
    (playRounds [0] (StartTwoTypesGame smallBank 0 threeQuestionRoom).room).Status
      = RoomStatus.questionDisplay ∧
    (playRounds [0] (StartTwoTypesGame smallBank 0 threeQuestionRoom).room).CurrentQuestion = 2 ∧
    (playRounds [0] (StartTwoTypesGame smallBank 0 threeQuestionRoom).room).Questions.length = 1 ∧
    ¬ ((playRounds [0] (StartTwoTypesGame smallBank 0 threeQuestionRoom).room).CurrentQuestion
        ≤ (playRounds [0] (StartTwoTypesGame smallBank 0 threeQuestionRoom).room).Questions.length) ∧
    (SubmitTwoTypesAnswer (playRounds [0] (StartTwoTypesGame smallBank 0 threeQuestionRoom).room)
      "P1" "A" 3).1 = SubmitResult.panicIndexOutOfRange := by
  decide!

/-- C29 (amended): in a room reached from a successful `StartTwoTypesGame` by
any number of `NextTwoTypesQuestion` calls, when the question bank returned at
least `TotalQuestions` questions and the status is `question_display`, the
lookup `Questions[CurrentQuestion-1]` is within bounds; and whatever the bank
returned, the room that `handleNextQuestion` stores is in `question_display`
only with `1 <= CurrentQuestion <= len(Questions)` and is stored as `finished`
otherwise, which happens exactly when the new index has passed `TotalQuestions`
or the loaded questions. -/
theorem question_lookup_in_bounds (gq : Int → List Question) (draw : Nat) (room0 : Room)
    (draws : List Nat) (hstart : (StartTwoTypesGame gq draw room0).err = none)
    (hbank : room0.TotalQuestions ≤ (gq room0.TotalQuestions).length) :
    ((playRounds draws (StartTwoTypesGame gq draw room0).room).Status
        = RoomStatus.questionDisplay →
      1 ≤ (playRounds draws (StartTwoTypesGame gq draw room0).room).CurrentQuestion ∧
      (playRounds draws (StartTwoTypesGame gq draw room0).room).CurrentQuestion
        ≤ (playRounds draws (StartTwoTypesGame gq draw room0).room).Questions.length ∧
      ∃ q, questionAt (playRounds draws (StartTwoTypesGame gq draw room0).room).Questions
        ((playRounds draws (StartTwoTypesGame gq draw room0).room).CurrentQuestion - 1)
          = some q) ∧
    (∀ (d : Nat) (roomID : String) (fx : Effects) (room : Room),
      GetRoom fx.store roomID = some room → room.ID = roomID → 0 ≤ room.CurrentQuestion →
      ∃ after, GetRoom (handleNextQuestion d roomID fx).store roomID = some after ∧
        (after.Status = RoomStatus.questionDisplay →
          1 ≤ after.CurrentQuestion ∧ after.CurrentQuestion ≤ after.Questions.length) ∧
        ((after.Status = RoomStatus.questionDisplay ∧
            1 ≤ after.CurrentQuestion ∧ after.CurrentQuestion ≤ after.Questions.length) ∨
          after.Status = RoomStatus.finished) ∧
        (after.Status = RoomStatus.finished ↔
          (room.TotalQuestions < room.CurrentQuestion + 1 ∨
            (room.Questions.length : Int) < room.CurrentQuestion + 1))) := by
  obtain ⟨hcq, hstatus, htq0, hqs0, _, _, _, _, hne⟩ :=
    StartTwoTypesGame_fields gq draw room0 hstart
  obtain ⟨_, hqs, h1, _, hk⟩ := playRounds_index draws (StartTwoTypesGame gq draw room0).room
    (by omega) (Or.inl hstatus) (fun _ => Or.inr hcq)
  rw [htq0] at hk
  rw [hqs0] at hqs
  have hlen : 1 ≤ (gq room0.TotalQuestions).length := by
    cases hl : gq room0.TotalQuestions with
    | nil => exact absurd hl hne
    | cons q qs => simp
  refine ⟨?_, fun d roomID fx room hget hid hcq0 =>
    handleNextQuestion_in_bounds d roomID fx room hget hid hcq0⟩
  intro hqd
  have hle : (playRounds draws (StartTwoTypesGame gq draw room0).room).CurrentQuestion
      ≤ (playRounds draws (StartTwoTypesGame gq draw room0).room).Questions.length := by
    rw [hqs]
    rcases hk hqd with h | h
    · omega
    · omega
  exact ⟨h1, hle, questionAt_in_range _ _ h1 hle⟩

/-- Witness of `question_lookup_in_bounds`: with three questions loaded the
third round looks up question 3 of 3; with one question loaded and three asked
for, `handleNextQuestion` stores the room as `finished` after the first
round. -/
theorem question_lookup_in_bounds_witness :
    (1 ≤ (playRounds [0, 0] (StartTwoTypesGame sampleBank 4 threeQuestionRoom).room).CurrentQuestion ∧
      (playRounds [0, 0] (StartTwoTypesGame sampleBank 4 threeQuestionRoom).room).CurrentQuestion
        ≤ (playRounds [0, 0] (StartTwoTypesGame sampleBank 4 threeQuestionRoom).room).Questions.length ∧
      ∃ q, questionAt (playRounds [0, 0] (StartTwoTypesGame sampleBank 4 threeQuestionRoom).room).Questions
        ((playRounds [0, 0] (StartTwoTypesGame sampleBank 4 threeQuestionRoom).room).CurrentQuestion - 1)
          = some q) ∧
    (∃ after, GetRoom (handleNextQuestion 0 "ROOM01"
          { store := shortBankStore, outbox := [], panicked := false }).store "ROOM01"
        = some after ∧ after.Status = RoomStatus.finished) ∧
    ((GetRoom (handleNextQuestion 0 "ROOM01"
        { store := shortBankStore, outbox := [], panicked := false }).store "ROOM01").map
      fun r => r.Status) = some RoomStatus.finished := by
  have h := question_lookup_in_bounds sampleBank 4 threeQuestionRoom [0, 0] (by decide)
    (by decide)
  refine ⟨h.1 (by decide), ?_, by decide⟩
  obtain ⟨after, hafter, _, _, hiff⟩ := h.2 0 "ROOM01"
    { store := shortBankStore, outbox := [], panicked := false }
    (StartTwoTypesGame smallBank 0 threeQuestionRoom).room (by decide) (by decide) (by decide)
  exact ⟨after, hafter, hiff.mpr (Or.inr (by decide))⟩

theorem mapGet_of_mem {α : Type} (m : List (String × α)) (k : String) (v : α)
    (hnodup : KeysNodup m) (h : (k, v) ∈ m) : mapGet m k = some v := by
  induction m with
  | nil => simp at h
  | cons e rest ih =>
    obtain ⟨k0, w⟩ := e
    unfold KeysNodup mapKeys at hnodup
    rw [List.map_cons, List.nodup_cons] at hnodup
    rcases List.mem_cons.mp h with h | h
    · injection h with h1 h2
      subst h1; subst h2
      simp [mapGet]
    · have hne : ¬ k0 = k := by
        intro e
        apply hnodup.1
        rw [e]
        exact List.mem_map.mpr ⟨(k, v), h, rfl⟩
      simp only [mapGet, hne, if_false]
      exact ih hnodup.2 h

theorem tallyAnswer_get (m : List (String × PlayerGameStats)) (entry : String × Answer)
    (p : String) :
    mapGet (tallyAnswer m entry) p
      = if p = entry.1 then (mapGet m p).map fun s => countAnswer s entry.2
        else mapGet m p := by
  unfold tallyAnswer
  cases hget : mapGet m entry.1 with
  | none =>
    by_cases hp : p = entry.1
    · rw [if_pos hp, hp, hget]; rfl
    · rw [if_neg hp]
  | some stats =>
    simp only
    rw [mapGet_mapUpdate]
    by_cases hp : p = entry.1
    · rw [if_pos hp, if_pos hp, hp, hget]; rfl
    · rw [if_neg hp, if_neg hp]

theorem tallyAnswers_get (p : String) (answers : List (String × Answer)) :
    KeysNodup answers → ∀ m : List (String × PlayerGameStats),
      mapGet (answers.foldl tallyAnswer m) p
        = (mapGet m p).map fun s =>
            match mapGet answers p with
            | some answer => countAnswer s answer
            | none => s := by
  induction answers with
  | nil =>
    intro _ m
    simp [mapGet]
  | cons e rest ih =>
    intro hnodup m
    obtain ⟨k, a⟩ := e
    unfold KeysNodup mapKeys at hnodup
    rw [List.map_cons, List.nodup_cons] at hnodup
    rw [List.foldl_cons, ih hnodup.2, tallyAnswer_get]
    by_cases hk : p = k
    · subst hk
      have hnone : mapGet rest p = none := by
        cases hr : mapGet rest p with
        | none => rfl
        | some v =>
          exact absurd (List.mem_map.mpr ⟨(p, v), mapGet_mem rest p v hr, rfl⟩) hnodup.1
      simp only [if_true, hnone, mapGet]
      cases mapGet m p <;> rfl
    · have hk' : ¬ k = p := fun h => hk h.symm
      simp only [hk, if_false, mapGet, hk']

theorem tallyHistory_get (p : String) (history : List QuestionHistory) :
    (∀ entry ∈ history, KeysNodup entry.PlayerAnswers) →
    ∀ m : List (String × PlayerGameStats),
      mapGet (tallyHistory m history) p
        = (mapGet m p).map fun s => history.foldl (countEntry p) s := by
  induction history with
  | nil =>
    intro _ m
    simp [tallyHistory]
  | cons entry rest ih =>
    intro hnodup m
    have hrest := ih (fun e he => hnodup e (List.mem_cons_of_mem _ he))
    unfold tallyHistory at hrest ⊢
    rw [List.foldl_cons, hrest,
      tallyAnswers_get p entry.PlayerAnswers (hnodup entry (List.mem_cons_self _ _))]
    cases mapGet m p with
    | none => rfl
    | some s =>
      simp only [Option.map_some', List.foldl_cons, countEntry]

theorem countRounds_cons (entry : QuestionHistory) (rest : List QuestionHistory) (p : String)
    (test : Answer → Bool) :
    countRounds (entry :: rest) p test
      = (if answeredWith test p entry = true then 1 else 0) + countRounds rest p test := by
  unfold countRounds
  by_cases h : answeredWith test p entry = true
  · rw [List.filter_cons_of_pos h, if_pos h, List.length_cons]
    push_cast
    omega
  · rw [List.filter_cons_of_neg h, if_neg h]
    omega

theorem countEntry_fields (p : String) (s : PlayerGameStats) (entry : QuestionHistory) :
    (countEntry p s entry).PlayerID = s.PlayerID ∧
    (countEntry p s entry).TotalScore = s.TotalScore ∧
    (countEntry p s entry).AsHost
      = s.AsHost + (if answeredWith (fun a => a.WasHost) p entry = true then 1 else 0) ∧
    (countEntry p s entry).AsGuesser
      = s.AsGuesser + (if answeredWith (fun a => !a.WasHost) p entry = true then 1 else 0) ∧
    (countEntry p s entry).CorrectGuesses
      = s.CorrectGuesses
        + (if answeredWith (fun a => !a.WasHost && a.IsCorrect) p entry = true then 1 else 0) := by
  unfold countEntry answeredWith
  cases mapGet entry.PlayerAnswers p with
  | none => simp
  | some a =>
    unfold countAnswer
    cases hw : a.WasHost <;> cases hc : a.IsCorrect <;> simp [hw, hc]

theorem foldl_countEntry_fields (p : String) (history : List QuestionHistory) :
    ∀ s : PlayerGameStats,
      (history.foldl (countEntry p) s).PlayerID = s.PlayerID ∧
      (history.foldl (countEntry p) s).TotalScore = s.TotalScore ∧
      (history.foldl (countEntry p) s).AsHost
        = s.AsHost + countRounds history p (fun a => a.WasHost) ∧
      (history.foldl (countEntry p) s).AsGuesser
        = s.AsGuesser + countRounds history p (fun a => !a.WasHost) ∧
      (history.foldl (countEntry p) s).CorrectGuesses
        = s.CorrectGuesses + countRounds history p (fun a => !a.WasHost && a.IsCorrect) := by
  induction history with
  | nil => intro s; simp [countRounds]
  | cons entry rest ih =>
    intro s
    obtain ⟨h1, h2, h3, h4, h5⟩ := ih (countEntry p s entry)
    obtain ⟨e1, e2, e3, e4, e5⟩ := countEntry_fields p s entry
    rw [List.foldl_cons, countRounds_cons, countRounds_cons, countRounds_cons]
    refine ⟨h1.trans e1, h2.trans e2, ?_, ?_, ?_⟩
    · rw [h3, e3]; omega
    · rw [h4, e4]; omega
    · rw [h5, e5]; omega

theorem countRounds_nonneg (history : List QuestionHistory) (p : String) (test : Answer → Bool) :
    0 ≤ countRounds history p test := by
  unfold countRounds
  omega

theorem countRounds_correct_le (history : List QuestionHistory) (p : String) :
    countRounds history p (fun a => !a.WasHost && a.IsCorrect)
      ≤ countRounds history p (fun a => !a.WasHost) := by
  induction history with
  | nil => simp [countRounds]
  | cons entry rest ih =>
    rw [countRounds_cons, countRounds_cons]
    have : (if answeredWith (fun a => !a.WasHost && a.IsCorrect) p entry = true then (1 : Int) else 0)
        ≤ (if answeredWith (fun a => !a.WasHost) p entry = true then 1 else 0) := by
      unfold answeredWith
      cases mapGet entry.PlayerAnswers p with
      | none => simp
      | some a => cases hw : a.WasHost <;> cases hc : a.IsCorrect <;> simp [hw, hc]
    omega

theorem withAccuracy_fields (s : PlayerGameStats) :
    (withAccuracy s).PlayerID = s.PlayerID ∧
    (withAccuracy s).TotalScore = s.TotalScore ∧
    (withAccuracy s).AsHost = s.AsHost ∧
    (withAccuracy s).AsGuesser = s.AsGuesser ∧
    (withAccuracy s).CorrectGuesses = s.CorrectGuesses ∧
    (withAccuracy s).GuessAccuracy
      = (if s.AsGuesser > 0 then (s.CorrectGuesses : ℚ) / (s.AsGuesser : ℚ) * 100 else 0) := by
  unfold withAccuracy
  split_ifs <;> exact ⟨rfl, rfl, rfl, rfl, rfl, rfl⟩

theorem accuracy_bounds (c g : Int) (h0 : 0 ≤ c) (hle : c ≤ g) :
    0 ≤ (if g > 0 then (c : ℚ) / (g : ℚ) * 100 else 0) ∧
      (if g > 0 then (c : ℚ) / (g : ℚ) * 100 else 0) ≤ 100 := by
  by_cases hg : g > 0
  · rw [if_pos hg]
    have hgq : (0 : ℚ) < (g : ℚ) := by exact_mod_cast hg
    have hcq : (0 : ℚ) ≤ (c : ℚ) := by exact_mod_cast h0
    have hleq : (c : ℚ) ≤ (g : ℚ) := by exact_mod_cast hle
    constructor
    · positivity
    · have : (c : ℚ) / (g : ℚ) ≤ 1 := (div_le_one hgq).mpr hleq
      linarith
  · rw [if_neg hg]
    exact ⟨le_refl _, by norm_num⟩

/-- The statistics list holds, up to order and apart from `Rank`, the records
of `statsLines`. -/
theorem calculatePlayerGameStats_fields (room : Room) :
    ((calculatePlayerGameStats room).map statsFields).Perm ((statsLines room).map statsFields) := by
  rw [calculatePlayerGameStats_eq, setStatsRanks_map statsFields (fun _ _ => rfl)]
  exact (exchangeSort_perm _ _).map _

/-- C22: for every current player `p`, the list returned by
`calculatePlayerGameStats` has a record of `p` with `AsHost` the number of
history entries containing an answer by `p` flagged `WasHost`, `AsGuesser` the
number of those containing an answer by `p` not flagged `WasHost`,
`CorrectGuesses` the number of those guesser answers flagged `IsCorrect`,
`GuessAccuracy = CorrectGuesses / AsGuesser * 100` when `AsGuesser > 0` and 0
otherwise, and `TotalScore` the cumulative score of `p`; so
`CorrectGuesses <= AsGuesser` and `0 <= GuessAccuracy <= 100`.  The list has one
record per player. -/
theorem player_stats_counts (room : Room) (p : String) (player : Player)
    (hplayers : KeysNodup room.Players)
    (hhistory : ∀ entry ∈ room.GameHistory, KeysNodup entry.PlayerAnswers)
    (hp : (p, player) ∈ room.Players) :
    (calculatePlayerGameStats room).length = room.Players.length ∧
    ∃ stats ∈ calculatePlayerGameStats room,
      stats.PlayerID = p ∧
      stats.TotalScore = player.Score ∧
      stats.AsHost = countRounds room.GameHistory p (fun a => a.WasHost) ∧
      stats.AsGuesser = countRounds room.GameHistory p (fun a => !a.WasHost) ∧
      stats.CorrectGuesses
        = countRounds room.GameHistory p (fun a => !a.WasHost && a.IsCorrect) ∧
      stats.GuessAccuracy
        = (if stats.AsGuesser > 0 then
            (stats.CorrectGuesses : ℚ) / (stats.AsGuesser : ℚ) * 100
          else 0) ∧
      stats.CorrectGuesses ≤ stats.AsGuesser ∧
      0 ≤ stats.GuessAccuracy ∧ stats.GuessAccuracy ≤ 100 := by
  have hperm := calculatePlayerGameStats_fields room
  constructor
  · have h1 := hperm.length_eq
    have h2 := congrArg List.length (statsLines_core room)
    simp only [List.length_map] at h1 h2
    omega
  · have hinit : mapGet (initStats room) p
        = some { PlayerID := p, PlayerName := player.Name, TotalScore := player.Score, Rank := 0,
                 TotalQuestions := room.TotalQuestions, AsHost := 0, AsGuesser := 0,
                 CorrectGuesses := 0, GuessAccuracy := 0 } := by
      have h := mapGet_map_values
        (fun (k : String) (pl : Player) =>
          ({ PlayerID := k, PlayerName := pl.Name, TotalScore := pl.Score, Rank := 0,
             TotalQuestions := room.TotalQuestions, AsHost := 0, AsGuesser := 0,
             CorrectGuesses := 0, GuessAccuracy := 0 } : PlayerGameStats)) room.Players p
      rw [mapGet_of_mem room.Players p player hplayers hp] at h
      exact h
    have hget := tallyHistory_get p room.GameHistory hhistory (initStats room)
    rw [hinit, Option.map_some'] at hget
    obtain ⟨f1, f2, f3, f4, f5⟩ := foldl_countEntry_fields p room.GameHistory
      { PlayerID := p, PlayerName := player.Name, TotalScore := player.Score, Rank := 0,
        TotalQuestions := room.TotalQuestions, AsHost := 0, AsGuesser := 0,
        CorrectGuesses := 0, GuessAccuracy := 0 }
    simp only [zero_add] at f3 f4 f5
    generalize List.foldl (countEntry p)
      ({ PlayerID := p, PlayerName := player.Name, TotalScore := player.Score, Rank := 0,
         TotalQuestions := room.TotalQuestions, AsHost := 0, AsGuesser := 0,
         CorrectGuesses := 0, GuessAccuracy := 0 } : PlayerGameStats) room.GameHistory
      = final at hget f1 f2 f3 f4 f5
    have hmem : withAccuracy final ∈ statsLines room :=
      List.mem_map.mpr ⟨(p, final), mapGet_mem _ p final hget, rfl⟩
    have hin : statsFields (withAccuracy final) ∈ (calculatePlayerGameStats room).map statsFields :=
      hperm.symm.mem_iff.mp (List.mem_map_of_mem _ hmem)
    obtain ⟨stats, hstats, heq⟩ := List.mem_map.mp hin
    obtain ⟨w1, w2, w3, w4, w5, w6⟩ := withAccuracy_fields final
    simp only [statsFields, Prod.mk.injEq] at heq
    obtain ⟨q1, q2, q3, q4, q5, q6⟩ := heq
    have hcle := countRounds_correct_le room.GameHistory p
    have hc0 := countRounds_nonneg room.GameHistory p (fun a => !a.WasHost && a.IsCorrect)
    have e3 : stats.AsHost = countRounds room.GameHistory p (fun a => a.WasHost) := by
      rw [q3, w3, f3]
    have e4 : stats.AsGuesser = countRounds room.GameHistory p (fun a => !a.WasHost) := by
      rw [q4, w4, f4]
    have e5 : stats.CorrectGuesses
        = countRounds room.GameHistory p (fun a => !a.WasHost && a.IsCorrect) := by
      rw [q5, w5, f5]
    have e6 : stats.GuessAccuracy
        = (if stats.AsGuesser > 0 then
            (stats.CorrectGuesses : ℚ) / (stats.AsGuesser : ℚ) * 100
          else 0) := by
      rw [q6, w6, q4, w4, q5, w5]
    have hb := accuracy_bounds stats.CorrectGuesses stats.AsGuesser (by omega) (by omega)
    rw [← e6] at hb
    exact ⟨stats, hstats, by rw [q1, w1, f1], by rw [q2, w2, f2], e3, e4, e5, e6, by omega,
      hb.1, hb.2⟩

/-- Witness of `player_stats_counts`: after the two rounds of `twoRoundHistory`
player `A` was host once and guessed once, wrongly: accuracy 0; player `B` was
host once and guessed once, rightly: accuracy 100. -/
theorem player_stats_counts_witness :
    ((calculatePlayerGameStats twoRoundRoom).length = twoRoundRoom.Players.length ∧
      ∃ stats ∈ calculatePlayerGameStats twoRoundRoom,
        stats.PlayerID = "B" ∧
        stats.TotalScore = (mkPlayer "B" 187).Score ∧
        stats.AsHost = countRounds twoRoundRoom.GameHistory "B" (fun a => a.WasHost) ∧
        stats.AsGuesser = countRounds twoRoundRoom.GameHistory "B" (fun a => !a.WasHost) ∧
        stats.CorrectGuesses
          = countRounds twoRoundRoom.GameHistory "B" (fun a => !a.WasHost && a.IsCorrect) ∧
        stats.GuessAccuracy
          = (if stats.AsGuesser > 0 then
              (stats.CorrectGuesses : ℚ) / (stats.AsGuesser : ℚ) * 100
            else 0) ∧
        stats.CorrectGuesses ≤ stats.AsGuesser ∧
        0 ≤ stats.GuessAccuracy ∧ stats.GuessAccuracy ≤ 100) ∧
    (calculatePlayerGameStats twoRoundRoom).map statsFields
      = [("B", 187, 1, 1, 1, 100), ("A", 50, 1, 1, 0, 0)] :=
  ⟨player_stats_counts twoRoundRoom "B" (mkPlayer "B" 187) (by decide) (by decide) (by decide!),
    by decide!⟩

/-- C26 (the code at the failing input): host A submits the last missing answer
of the only round.  `recordQuestionHistory` appends the entry of the round to
the handler's copy of the room, after that copy was written back; the room in
the store has an empty history when the game finishes, and the final statistics
sent with `GAME_FINISHED` count no round: `AsHost = AsGuesser = 0` for both
players. -/
theorem scored_round_history_not_stored :
    ((recordQuestionHistory lastRoundAnswered).map fun r => r.GameHistory.length) = some 1 ∧
    (handleSubmitAnswer 0 "ROOM01" "A" "A" 2
      { store := lastRoundStore, outbox := [], panicked := false }).panicked = false ∧
    ((GetRoom (handleSubmitAnswer 0 "ROOM01" "A" "A" 2
        { store := lastRoundStore, outbox := [], panicked := false }).store "ROOM01").map
      fun r => (r.Status, r.GameHistory.length)) = some (RoomStatus.finished, 0) ∧
    finalStatsOf (handleSubmitAnswer 0 "ROOM01" "A" "A" 2
        { store := lastRoundStore, outbox := [], panicked := false }).outbox
      = [("B", 137, 0, 0, 0, 0), ("A", 50, 0, 0, 0, 0)] := by
  decide!

/-- C21 (the code at the failing input): session 1, registered and bound to
`ROOM01`, is added to `ROOM02`.  Its `RoomID` is `ROOM02` and it is a member of
both member sets.  `unregisterClient` then removes it from `ROOM02` only and
closes its channel, so the next broadcast to `ROOM01` sends on a closed
channel. -/
theorem add_to_second_room_keeps_first :
    roomsOf (AddClientToRoom (AddClientToRoom (registerClient lobbyHub 1) 1 "ROOM01") 1 "ROOM02") 1
      = ["ROOM01", "ROOM02"] ∧
    ((heapGet (AddClientToRoom (AddClientToRoom (registerClient lobbyHub 1) 1 "ROOM01") 1
        "ROOM02").heap 1).map fun c => c.RoomID) = some "ROOM02" ∧
    (unregisterClient 0 0
        (AddClientToRoom (AddClientToRoom (registerClient lobbyHub 1) 1 "ROOM01") 1 "ROOM02")
        1).rooms = [("ROOM01", [1])] ∧
    ((heapGet (unregisterClient 0 0
        (AddClientToRoom (AddClientToRoom (registerClient lobbyHub 1) 1 "ROOM01") 1 "ROOM02")
        1).heap 1).map fun c => c.closed) = some true ∧
    (broadcastToRoom
        (unregisterClient 0 0
          (AddClientToRoom (AddClientToRoom (registerClient lobbyHub 1) 1 "ROOM01") 1 "ROOM02")
          1)
        "ROOM01" Msg.questionTimeout).fault = some Fault.sendOnClosedChannel := by
  decide!

/-- C27 (the code at the failing input): the queue of session 1 is full.
`broadcastToRoom` deletes the session from the member set of its room and
closes its channel, and leaves it in the global set; `unregisterClient` then
closes the channel a second time.  After `broadcastToAll`, which deletes the
session from the global set only, the next room broadcast sends on the closed
channel. -/
theorem dropped_session_closed_twice :
    ((heapGet (broadcastToRoom fullQueueHub "ROOM01" Msg.questionTimeout).heap 1).map
      fun c => c.closed) = some true ∧
    (broadcastToRoom fullQueueHub "ROOM01" Msg.questionTimeout).clients = [1, 2, 3] ∧
    (broadcastToRoom fullQueueHub "ROOM01" Msg.questionTimeout).rooms = [("ROOM01", [2, 3])] ∧
    (broadcastToRoom fullQueueHub "ROOM01" Msg.questionTimeout).fault = none ∧
    (unregisterClient 0 0 (broadcastToRoom fullQueueHub "ROOM01" Msg.questionTimeout) 1).fault
      = some Fault.closeOfClosedChannel ∧
    (broadcastToAll fullQueueHub Msg.questionTimeout).clients = [2, 3] ∧
    (broadcastToAll fullQueueHub Msg.questionTimeout).rooms = [("ROOM01", [1, 2, 3])] ∧
    (broadcastToRoom (broadcastToAll fullQueueHub Msg.questionTimeout) "ROOM01"
      Msg.questionTimeout).fault = some Fault.sendOnClosedChannel := by
  decide!

/-- C25 (the code at the failing input): in `staleOverrideHub` the host is
`P3`, the override left by the earlier departure is `P2`, and `P4` has
answered.  `P2`, who is not the host, leaves.  With the random draw 1 the host
becomes `P4`; with the draw 0 the host stays `P3`; in both cases the leave is
reported with `hostChanged = true` and `resetAnswers = true`, the answer of `P4`
is discarded and the round is voided with `QUESTION_INVALID`. -/
theorem stale_override_changes_host :
    ((GetRoom staleOverrideHub.store "ROOM01").map fun r =>
      (r.CurrentHost, r.NextHostOverride, mapKeys r.Players, mapKeys r.Answers))
      = some ("P3", "P2", ["P2", "P3", "P4"], ["P4"]) ∧
    ((GetRoom (unregisterClient 0 1 staleOverrideHub 2).store "ROOM01").map fun r =>
      (r.CurrentHost, mapKeys r.Players, mapKeys r.Answers))
      = some ("P4", ["P3", "P4"], []) ∧
    ((heapGet (unregisterClient 0 1 staleOverrideHub 2).heap 3).map fun c => c.send.drop 2)
      = some [Msg.playerLeft "P2" 2 "P4" true true, Msg.questionInvalid "host_left"] ∧
    ((GetRoom (unregisterClient 0 0 staleOverrideHub 2).store "ROOM01").map fun r =>
      (r.CurrentHost, mapKeys r.Players, mapKeys r.Answers))
      = some ("P3", ["P3", "P4"], []) ∧
    ((heapGet (unregisterClient 0 0 staleOverrideHub 2).heap 3).map fun c => c.send.drop 2)
      = some [Msg.playerLeft "P2" 2 "P3" true true, Msg.questionInvalid "host_left"] := by
  decide!

theorem GetRoom_UpdateRoom_if (store : Store) (room : Room) (roomID : String) :
    GetRoom (UpdateRoom store room) roomID
      = if roomID = room.ID then some room else GetRoom store roomID := by
  unfold GetRoom UpdateRoom
  rw [mapGet_mapInsert]

theorem StoreWellFormed_update (store : Store) (room : Room) (hstore : StoreWellFormed store)
    (hroom : AnswersWithinPlayers room) : StoreWellFormed (UpdateRoom store room) := by
  intro roomID r hget
  rw [GetRoom_UpdateRoom_if] at hget
  by_cases hk : roomID = room.ID
  · rw [if_pos hk] at hget
    injection hget with hget
    rw [← hget]
    exact ⟨hk.symm, hroom⟩
  · rw [if_neg hk] at hget
    exact hstore roomID r hget

/-- The invariant depends on the keys of the two maps only. -/
theorem AnswersWithinPlayers_congr (r r2 : Room) (hp : mapKeys r2.Players = mapKeys r.Players)
    (ha : mapKeys r2.Answers = mapKeys r.Answers) (h : AnswersWithinPlayers r) :
    AnswersWithinPlayers r2 := by
  unfold AnswersWithinPlayers KeysNodup at h ⊢
  rw [hp, ha]
  exact h

theorem AnswersWithinPlayers_noAnswers (r r2 : Room)
    (hp : mapKeys r2.Players = mapKeys r.Players) (ha : r2.Answers = [])
    (h : AnswersWithinPlayers r) : AnswersWithinPlayers r2 := by
  unfold AnswersWithinPlayers KeysNodup at h ⊢
  rw [hp, ha]
  exact ⟨h.1, List.nodup_nil, fun k hk => by simp [mapKeys] at hk⟩

theorem mapKeys_resetScore (players : List (String × Player)) :
    mapKeys (players.map resetScore) = mapKeys players := by
  simp [mapKeys, List.map_map, Function.comp_def, resetScore]

theorem mem_mapKeys_mapInsert {α : Type} (m : List (String × α)) (key : String) (v : α)
    (k : String) (h : k ∈ mapKeys (mapInsert m key v)) : k = key ∨ k ∈ mapKeys m := by
  obtain ⟨e, he, hk⟩ := List.mem_map.mp h
  rcases mem_mapInsert m key v e he with h1 | h1
  · left; rw [← hk, h1]
  · right; exact List.mem_map.mpr ⟨e, h1, hk⟩

theorem KeysNodup_mapInsert {α : Type} (m : List (String × α)) (key : String) (v : α)
    (h : KeysNodup m) : KeysNodup (mapInsert m key v) := by
  induction m with
  | nil => simp [mapInsert, KeysNodup, mapKeys]
  | cons e rest ih =>
    obtain ⟨k0, w⟩ := e
    unfold KeysNodup mapKeys at h ih ⊢
    rw [List.map_cons, List.nodup_cons] at h
    by_cases hk : k0 = key
    · simp only [mapInsert, hk, if_true, List.map_cons, List.nodup_cons]
      rw [← hk]
      exact h
    · simp only [mapInsert, hk, if_false, List.map_cons, List.nodup_cons]
      refine ⟨?_, ih h.2⟩
      intro hin
      rcases mem_mapKeys_mapInsert rest key v k0 hin with h1 | h1
      · exact hk h1
      · exact h.1 h1

theorem mem_mapKeys_mapErase {α : Type} (m : List (String × α)) (key k : String) :
    k ∈ mapKeys (mapErase m key) ↔ k ∈ mapKeys m ∧ k ≠ key := by
  unfold mapKeys
  constructor
  · intro h
    obtain ⟨e, he, hk⟩ := List.mem_map.mp h
    have := (mem_mapErase m key e).mp he
    exact ⟨List.mem_map.mpr ⟨e, this.1, hk⟩, by rw [← hk]; exact this.2⟩
  · rintro ⟨h, hne⟩
    obtain ⟨e, he, hk⟩ := List.mem_map.mp h
    exact List.mem_map.mpr ⟨e, (mem_mapErase m key e).mpr ⟨he, by rw [hk]; exact hne⟩, hk⟩

theorem KeysNodup_mapErase {α : Type} (m : List (String × α)) (key : String)
    (h : KeysNodup m) : KeysNodup (mapErase m key) := by
  unfold KeysNodup mapKeys mapErase at *
  exact (List.filter_sublist m).map Prod.fst |>.nodup h

theorem calc_keys (room : Room) (answers : List (String × Answer)) :
    mapKeys (CalculateTwoTypesScores room answers).room.Players = mapKeys room.Players ∧
    mapKeys (CalculateTwoTypesScores room answers).answers = mapKeys answers := by
  constructor
  · rw [calc_players]
    simp [mapKeys, List.map_map, Function.comp_def]
  · simp only [CalculateTwoTypesScores]
    exact scoreLoop_answers_keys _ _ _ _ _

theorem sendNextQuestion_wellFormed (roomID : String) (fx : Effects)
    (h : StoreWellFormed fx.store) : StoreWellFormed (sendNextQuestion roomID fx).store := by
  rw [(sendNextQuestion_store roomID fx).1]
  exact h

theorem NextTwoTypesQuestion_within (draw : Nat) (room : Room) (h : AnswersWithinPlayers room) :
    AnswersWithinPlayers (NextTwoTypesQuestion draw room) := by
  apply AnswersWithinPlayers_congr room _ _ _ h
  · rw [NextTwoTypesQuestion_players]
  · rw [(NextTwoTypesQuestion_frame draw room).2.2.2.2.1]

theorem handleNextQuestion_wellFormed (draw : Nat) (roomID : String) (fx : Effects)
    (h : StoreWellFormed fx.store) :
    StoreWellFormed (handleNextQuestion draw roomID fx).store := by
  unfold handleNextQuestion
  cases hget : GetRoom fx.store roomID with
  | none => exact h
  | some room =>
    have hnext := NextTwoTypesQuestion_within draw room (h roomID room hget).2
    have h1 := StoreWellFormed_update fx.store _ h hnext
    simp only
    split
    · exact h1
    · split
      · exact sendNextQuestion_wellFormed roomID _ h1
      · apply StoreWellFormed_update _ _ h1
        exact AnswersWithinPlayers_congr (NextTwoTypesQuestion draw room) _ rfl rfl hnext

theorem calculateAndShowResults_wellFormed (draw : Nat) (roomID : String) (room : Room)
    (fx : Effects) (h : StoreWellFormed fx.store) (hroom : AnswersWithinPlayers room) :
    StoreWellFormed (calculateAndShowResults draw roomID room fx).store := by
  have hkeys := calc_keys room room.Answers
  have hscored : AnswersWithinPlayers
      { (CalculateTwoTypesScores room room.Answers).room with
        Answers := (CalculateTwoTypesScores room room.Answers).answers } :=
    AnswersWithinPlayers_congr room _ hkeys.1 hkeys.2 hroom
  have h1 := StoreWellFormed_update fx.store _ h hscored
  unfold calculateAndShowResults
  simp only
  split
  · exact h1
  · cases hget : GetRoom
        (UpdateRoom fx.store
          { (CalculateTwoTypesScores room room.Answers).room with
            Answers := (CalculateTwoTypesScores room room.Answers).answers }) roomID with
    | none => exact h1
    | some currentRoom =>
      simp only
      apply handleNextQuestion_wellFormed
      apply StoreWellFormed_update _ _ h1
      exact AnswersWithinPlayers_noAnswers currentRoom _ rfl rfl (h1 roomID currentRoom hget).2

theorem handleQuestionTimeout_wellFormed (draw : Nat) (roomID : String) (store : Store)
    (h : StoreWellFormed store) :
    StoreWellFormed (handleQuestionTimeout draw roomID store).fx.store := by
  unfold handleQuestionTimeout
  cases hget : GetRoom store roomID with
  | none => exact h
  | some room =>
    have hroom := (h roomID room hget).2
    simp only
    split
    · exact calculateAndShowResults_wellFormed draw roomID room _ h hroom
    · split
      · apply handleNextQuestion_wellFormed
        apply StoreWellFormed_update _ _ h
        exact AnswersWithinPlayers_noAnswers room _ rfl rfl hroom
      · exact handleNextQuestion_wellFormed draw roomID _ h

theorem SubmitTwoTypesAnswer_ok (room : Room) (playerID answer : String) (timeUsed : ℚ)
    (record : Answer) (room2 : Room)
    (h : SubmitTwoTypesAnswer room playerID answer timeUsed = (SubmitResult.ok record, room2)) :
    room2 = room ∧ playerID ∈ mapKeys room.Players := by
  unfold SubmitTwoTypesAnswer at h
  cases hq : questionAt room.Questions (room.CurrentQuestion - 1) with
  | none => rw [hq] at h; simp at h
  | some q =>
    rw [hq] at h
    simp only at h
    split at h
    · simp at h
    · cases hp : room.GetPlayer playerID with
      | none => rw [hp] at h; simp at h
      | some player =>
        rw [hp] at h
        simp only [Prod.mk.injEq] at h
        refine ⟨h.2.symm, ?_⟩
        exact (mapGet_isSome_iff room.Players playerID).mp ⟨player, hp⟩

theorem handleSubmitAnswer_wellFormed (draw : Nat) (roomID clientID answer : String)
    (timeUsed : ℚ) (fx : Effects) (h : StoreWellFormed fx.store) :
    StoreWellFormed (handleSubmitAnswer draw roomID clientID answer timeUsed fx).store := by
  unfold handleSubmitAnswer
  cases hget : GetRoom fx.store roomID with
  | none => exact h
  | some room =>
    have hroom := (h roomID room hget).2
    simp only
    split
    · exact h
    · split
      · exact h
      · exact h
      · rename_i record room2 hsub
        obtain ⟨hr, hmem⟩ := SubmitTwoTypesAnswer_ok room clientID answer timeUsed record room2 hsub
        subst hr
        have hnew : AnswersWithinPlayers
            { room2 with Answers := mapInsert room2.Answers clientID record } := by
          refine ⟨hroom.1, KeysNodup_mapInsert _ _ _ hroom.2.1, ?_⟩
          intro k hk
          rcases mem_mapKeys_mapInsert _ _ _ _ hk with h1 | h1
          · rw [h1]; exact hmem
          · exact hroom.2.2 k h1
        have h1 := StoreWellFormed_update fx.store _ h hnew
        split
        · exact calculateAndShowResults_wellFormed draw roomID _ _ h1 hnew
        · exact h1

theorem sendFirstQuestion_wellFormed (gq : Int → List Question) (roomID : String) (fx : Effects)
    (h : StoreWellFormed fx.store) : StoreWellFormed (sendFirstQuestion gq roomID fx).store := by
  unfold sendFirstQuestion
  cases hget : GetRoom fx.store roomID with
  | none => exact h
  | some room =>
    have hroom := (h roomID room hget).2
    have h1 : StoreWellFormed
        (UpdateRoom fx.store { room with Questions := gq room.TotalQuestions }) :=
      StoreWellFormed_update _ _ h (AnswersWithinPlayers_congr room _ rfl rfl hroom)
    simp only
    by_cases hq : room.Questions.length = 0
    · rw [if_pos hq]
      by_cases hq2 : (gq room.TotalQuestions).length = 0
      · rw [if_pos hq2]
        exact h
      · rw [if_neg hq2]
        simp only
        split
        · exact h1
        · exact h1
    · rw [if_neg hq]
      simp only
      split
      · exact h
      · exact h

theorem resetFinishedRoom_wellFormed (room : Room) (fx : Effects)
    (h : StoreWellFormed fx.store) (hroom : AnswersWithinPlayers room) :
    StoreWellFormed (resetFinishedRoom room fx).2.store ∧
      AnswersWithinPlayers (resetFinishedRoom room fx).1 := by
  unfold resetFinishedRoom
  split
  · have hnew : AnswersWithinPlayers
        { room with
          Status := RoomStatus.waiting, CurrentQuestion := 0, Answers := [],
          Players := room.Players.map resetScore } :=
      AnswersWithinPlayers_noAnswers room _ (mapKeys_resetScore _) rfl hroom
    exact ⟨StoreWellFormed_update _ _ h hnew, hnew⟩
  · exact ⟨h, hroom⟩

theorem handleStartGame_wellFormed (gq : Int → List Question) (draw : Nat) (isHost : Bool)
    (roomID : String) (fx : Effects) (h : StoreWellFormed fx.store) :
    StoreWellFormed (handleStartGame gq draw isHost roomID fx).store := by
  unfold handleStartGame
  split
  · exact h
  · cases hget : GetRoom fx.store roomID with
    | none => exact h
    | some room =>
      obtain ⟨hs, hr⟩ := resetFinishedRoom_wellFormed room fx h (h roomID room hget).2
      simp only
      split
      · exact h
      · cases herr : (StartTwoTypesGame gq draw (resetFinishedRoom room fx).1).err with
        | some e => exact hs
        | none =>
          simp only
          apply sendFirstQuestion_wellFormed
          apply StoreWellFormed_update _ _ hs
          obtain ⟨_, _, _, _, hans, _, _, hplayers, _⟩ :=
            StartTwoTypesGame_fields gq draw (resetFinishedRoom room fx).1 herr
          apply AnswersWithinPlayers_noAnswers (resetFinishedRoom room fx).1 _ _ hans hr
          rw [hplayers, mapKeys_resetScore]

theorem replaceMissingHost_maps (draw : Nat) (clientID : String) (room : Room) :
    (replaceMissingHost draw clientID room).1.Players = room.Players ∧
      (replaceMissingHost draw clientID room).1.Answers = room.Answers := by
  unfold replaceMissingHost
  dsimp only
  repeat' split
  all_goals exact ⟨rfl, rfl⟩

theorem replaceOverride_maps (draw : Nat) (clientID : String) (state : Room × Bool) :
    (replaceOverride draw clientID state).1.Players = state.1.Players ∧
      (replaceOverride draw clientID state).1.Answers = state.1.Answers := by
  unfold replaceOverride
  dsimp only
  repeat' split
  all_goals exact ⟨rfl, rfl⟩

theorem playerLeaveUpdate_maps (draw1 draw2 : Nat) (clientID : String) (client : Nat)
    (roomClients : List Nat) (room : Room) :
    (playerLeaveUpdate draw1 draw2 clientID client roomClients room).room.Players = room.Players ∧
    ((playerLeaveUpdate draw1 draw2 clientID client roomClients room).room.Answers
        = mapErase room.Answers clientID ∨
      (playerLeaveUpdate draw1 draw2 clientID client roomClients room).room.Answers = []) := by
  have hstate := replaceOverride_maps draw2 clientID
    (replaceMissingHost draw1 clientID { room with Answers := mapErase room.Answers clientID })
  have hmiss := replaceMissingHost_maps draw1 clientID
    { room with Answers := mapErase room.Answers clientID }
  rw [hmiss.1, hmiss.2] at hstate
  unfold playerLeaveUpdate
  dsimp only
  repeat' split
  all_goals first
    | exact ⟨hstate.1, Or.inl hstate.2⟩
    | exact ⟨hstate.1, Or.inr rfl⟩
    | exact ⟨rfl, Or.inl rfl⟩

theorem playerLeaveUpdate_within (draw1 draw2 : Nat) (clientID : String) (client : Nat)
    (roomClients : List Nat) (room0 : Room) (h : AnswersWithinPlayers room0) :
    AnswersWithinPlayers
      (playerLeaveUpdate draw1 draw2 clientID client roomClients
        (room0.RemovePlayer clientID)).room := by
  obtain ⟨hp, ha⟩ := playerLeaveUpdate_maps draw1 draw2 clientID client roomClients
    (room0.RemovePlayer clientID)
  have hplayers : KeysNodup (mapErase room0.Players clientID) := KeysNodup_mapErase _ _ h.1
  unfold AnswersWithinPlayers
  rw [hp]
  rcases ha with ha | ha
  · rw [ha]
    refine ⟨hplayers, KeysNodup_mapErase _ _ h.2.1, ?_⟩
    intro k hk
    have hk2 := (mem_mapKeys_mapErase _ _ _).mp hk
    exact (mem_mapKeys_mapErase _ _ _).mpr ⟨h.2.2 k hk2.1, hk2.2⟩
  · rw [ha]
    exact ⟨hplayers, List.nodup_nil, fun k hk => by simp [mapKeys] at hk⟩

theorem StoreWellFormed_update_twice (store : Store) (r1 r2 : Room) (hid : r2.ID = r1.ID)
    (hstore : StoreWellFormed store) (h2 : AnswersWithinPlayers r2) :
    StoreWellFormed (UpdateRoom (UpdateRoom store r1) r2) := by
  intro roomID r hget
  rw [GetRoom_UpdateRoom_if] at hget
  by_cases hk : roomID = r2.ID
  · rw [if_pos hk] at hget
    injection hget with hget
    rw [← hget]
    exact ⟨hk.symm, h2⟩
  · rw [if_neg hk, GetRoom_UpdateRoom_if, if_neg (by rw [← hid]; exact hk)] at hget
    exact hstore roomID r hget

theorem handlePlayerLeaveInternal_store_eq (draw1 draw2 : Nat) (h : Hub) (client : Nat)
    (c : Client) (room0 : Room) (hc : heapGet h.heap client = some c)
    (hroomID : c.RoomID ≠ "") (hname : c.PlayerName ≠ "")
    (hstored : GetRoom h.store c.RoomID = some room0) (hkey : room0.ID = c.RoomID) :
    (handlePlayerLeaveInternal draw1 draw2 h client).store
      = UpdateRoom (UpdateRoom h.store (room0.RemovePlayer c.ID))
          (playerLeaveUpdate draw1 draw2 c.ID client ((mapGet h.rooms c.RoomID).getD [])
            (room0.RemovePlayer c.ID)).room := by
  have hguard : ¬ (c.RoomID = "" ∨ c.PlayerName = "") := by
    rintro (h1 | h1)
    · exact hroomID h1
    · exact hname h1
  have hremoved : (room0.RemovePlayer c.ID).ID = c.RoomID := hkey
  have hfetch : GetRoom (UpdateRoom h.store (room0.RemovePlayer c.ID)) c.RoomID
      = some (room0.RemovePlayer c.ID) := by
    have hget := GetRoom_UpdateRoom h.store (room0.RemovePlayer c.ID)
    rw [hremoved] at hget
    exact hget
  unfold handlePlayerLeaveInternal
  simp only [hc, hguard, if_false, RemovePlayer, hstored, hfetch]
  split
  · split
    · split
      · rw [broadcastToRoomExclude_store, broadcastToRoomExclude_store]
      · simp only
        rw [broadcastToRoomExclude_store, broadcastToRoomExclude_store]
    · rw [broadcastToRoomExclude_store]
  · rw [broadcastToRoomExclude_store]

theorem handlePlayerLeaveInternal_wellFormed (draw1 draw2 : Nat) (h : Hub) (client : Nat)
    (hstore : StoreWellFormed h.store) :
    StoreWellFormed (handlePlayerLeaveInternal draw1 draw2 h client).store := by
  cases hc : heapGet h.heap client with
  | none =>
    unfold handlePlayerLeaveInternal
    rw [hc]
    exact hstore
  | some c =>
    by_cases hguard : c.RoomID = "" ∨ c.PlayerName = ""
    · unfold handlePlayerLeaveInternal
      rw [hc]
      simp only
      rw [if_pos hguard]
      exact hstore
    · cases hstored : GetRoom h.store c.RoomID with
      | none =>
        unfold handlePlayerLeaveInternal
        rw [hc]
        simp only [hguard, if_false, RemovePlayer, hstored]
        exact hstore
      | some room0 =>
        obtain ⟨hkey, hroom⟩ := hstore c.RoomID room0 hstored
        rw [handlePlayerLeaveInternal_store_eq draw1 draw2 h client c room0 hc
          (fun e => hguard (Or.inl e)) (fun e => hguard (Or.inr e)) hstored hkey]
        apply StoreWellFormed_update_twice _ _ _ _ hstore
        · exact playerLeaveUpdate_within draw1 draw2 c.ID client _ room0 hroom
        · rw [playerLeaveUpdate_ID]

theorem StoreWellFormed_of_reachable (store : Store) (h : Reachable store) :
    StoreWellFormed store := by
  induction h with
  | init store h =>
    intro roomID room hget
    have hmem := mapGet_mem store roomID room hget
    obtain ⟨hid, hplayers, hanswers⟩ := h (roomID, room) hmem
    refine ⟨hid, hplayers, ?_, ?_⟩
    · show KeysNodup room.Answers
      have e : room.Answers = [] := hanswers
      rw [e]
      exact List.nodup_nil
    · intro k hk
      have e : room.Answers = [] := hanswers
      rw [e] at hk
      simp [mapKeys] at hk
  | startGame gq draw isHost roomID fx _ ih =>
    exact handleStartGame_wellFormed gq draw isHost roomID fx ih
  | submitAnswer draw roomID clientID answer timeUsed fx _ ih =>
    exact handleSubmitAnswer_wellFormed draw roomID clientID answer timeUsed fx ih
  | timeout draw roomID store _ ih =>
    exact handleQuestionTimeout_wellFormed draw roomID store ih
  | scoring draw roomID room fx _ hroom ih =>
    exact calculateAndShowResults_wellFormed draw roomID room fx ih (ih roomID room hroom).2
  | nextQuestion draw roomID fx _ ih =>
    exact handleNextQuestion_wellFormed draw roomID fx ih
  | leave draw1 draw2 hub client _ ih =>
    exact handlePlayerLeaveInternal_wellFormed draw1 draw2 hub client ih

theorem keys_length {α : Type} (m : List (String × α)) : (mapKeys m).length = m.length := by
  simp [mapKeys]

/-- With distinct keys in both maps and the answer keys among the player keys,
the answers are as many as the players exactly when every player has one. -/
theorem all_answered_iff (room : Room) (h : AnswersWithinPlayers room) :
    room.Answers.length ≤ room.Players.length ∧
    (checkAllPlayersAnswered room = true ↔
      ∀ p ∈ mapKeys room.Players, (mapGet room.Answers p).isSome = true) := by
  obtain ⟨hp, ha, hsub⟩ := h
  unfold KeysNodup at hp ha
  have hsubperm : (mapKeys room.Answers).Subperm (mapKeys room.Players) :=
    List.subperm_of_subset ha hsub
  have hle : room.Answers.length ≤ room.Players.length := by
    have := hsubperm.length_le
    rw [keys_length, keys_length] at this
    exact this
  refine ⟨hle, ?_⟩
  unfold checkAllPlayersAnswered Room.GetPlayerCount
  rw [decide_eq_true_iff]
  constructor
  · intro hge p hpmem
    have hperm : (mapKeys room.Answers).Perm (mapKeys room.Players) :=
      hsubperm.perm_of_length_le (by rw [keys_length, keys_length]; exact hge)
    have hin : p ∈ mapKeys room.Answers := hperm.mem_iff.mpr hpmem
    obtain ⟨v, hv⟩ := (mapGet_isSome_iff room.Answers p).mpr hin
    rw [hv]
    rfl
  · intro hall
    have hsub2 : (mapKeys room.Players).Subperm (mapKeys room.Answers) := by
      apply List.subperm_of_subset hp
      intro p hpmem
      have := hall p hpmem
      cases hv : mapGet room.Answers p with
      | none => rw [hv] at this; cases this
      | some v => exact (mapGet_isSome_iff room.Answers p).mp ⟨v, hv⟩
    have := hsub2.length_le
    rw [keys_length, keys_length] at this
    exact this

/-- C24: in every room of a store reachable through start-game, answer
submission, scoring, next-question and player departure, every key of the
answers map is a key of the player mapping, hence `len(answers) <=
len(players)`, and `checkAllPlayersAnswered` is true exactly when every current
player has submitted an answer. -/
theorem answers_within_players (store : Store) (roomID : String) (room : Room)
    (hreach : Reachable store) (hget : GetRoom store roomID = some room) :
    (∀ k ∈ mapKeys room.Answers, k ∈ mapKeys room.Players) ∧
    room.Answers.length ≤ room.Players.length ∧
    (checkAllPlayersAnswered room = true ↔
      ∀ p ∈ mapKeys room.Players, (mapGet room.Answers p).isSome = true) := by
  have hroom := (StoreWellFormed_of_reachable store hreach roomID room hget).2
  exact ⟨hroom.2.2, (all_answered_iff room hroom).1, (all_answered_iff room hroom).2⟩

/-- Witness of `answers_within_players`: the store after `P4` has answered the
first question of `fourRoom`. -/
theorem answers_within_players_witness :
    GetRoom (handleSubmitAnswer 0 "ROOM01" "P4" "A" 3
        { store := fourStore, outbox := [], panicked := false }).store "ROOM01"
      = some { fourRoom with Answers := [("P4", mkAnswer "P4" "A" 3 false)] } ∧
    (∀ k ∈ mapKeys [("P4", mkAnswer "P4" "A" 3 false)], k ∈ mapKeys fourRoom.Players) ∧
    checkAllPlayersAnswered { fourRoom with Answers := [("P4", mkAnswer "P4" "A" 3 false)] }
      = false :=
  have h := answers_within_players
    (handleSubmitAnswer 0 "ROOM01" "P4" "A" 3
      { store := fourStore, outbox := [], panicked := false }).store
    "ROOM01" { fourRoom with Answers := [("P4", mkAnswer "P4" "A" 3 false)] }
    (Reachable.submitAnswer 0 "ROOM01" "P4" "A" 3
      { store := fourStore, outbox := [], panicked := false }
      (Reachable.init fourStore (by decide)))
    (by decide!)
  ⟨by decide!, h.1, by decide!⟩

theorem HistoryFree_update (store : Store) (room : Room) (hstore : HistoryFree store)
    (hroom : room.GameHistory = []) : HistoryFree (UpdateRoom store room) := by
  intro roomID r hget
  rw [GetRoom_UpdateRoom_if] at hget
  by_cases hk : roomID = room.ID
  · rw [if_pos hk] at hget
    injection hget with hget
    rw [← hget]
    exact ⟨hk.symm, hroom⟩
  · rw [if_neg hk] at hget
    exact hstore roomID r hget

theorem HistoryFree_update_twice (store : Store) (r1 r2 : Room) (hid : r2.ID = r1.ID)
    (hstore : HistoryFree store) (h2 : r2.GameHistory = []) :
    HistoryFree (UpdateRoom (UpdateRoom store r1) r2) := by
  intro roomID r hget
  rw [GetRoom_UpdateRoom_if] at hget
  by_cases hk : roomID = r2.ID
  · rw [if_pos hk] at hget
    injection hget with hget
    rw [← hget]
    exact ⟨hk.symm, h2⟩
  · rw [if_neg hk, GetRoom_UpdateRoom_if, if_neg (by rw [← hid]; exact hk)] at hget
    exact hstore roomID r hget

theorem handleNextQuestion_historyFree (draw : Nat) (roomID : String) (fx : Effects)
    (h : HistoryFree fx.store) : HistoryFree (handleNextQuestion draw roomID fx).store := by
  unfold handleNextQuestion
  cases hget : GetRoom fx.store roomID with
  | none => exact h
  | some room =>
    have hnext : (NextTwoTypesQuestion draw room).GameHistory = [] := by
      rw [(NextTwoTypesQuestion_frame draw room).2.2.2.1]
      exact (h roomID room hget).2
    have h1 := HistoryFree_update fx.store _ h hnext
    simp only
    split
    · exact h1
    · split
      · rw [(sendNextQuestion_store roomID _).1]
        exact h1
      · exact HistoryFree_update _ _ h1 hnext

theorem calculateAndShowResults_historyFree (draw : Nat) (roomID : String) (room : Room)
    (fx : Effects) (h : HistoryFree fx.store) (hroom : room.GameHistory = []) :
    HistoryFree (calculateAndShowResults draw roomID room fx).store := by
  have hscored : ({ (CalculateTwoTypesScores room room.Answers).room with
        Answers := (CalculateTwoTypesScores room room.Answers).answers } : Room).GameHistory
      = [] := hroom
  have h1 := HistoryFree_update fx.store _ h hscored
  unfold calculateAndShowResults
  simp only
  split
  · exact h1
  · cases hget : GetRoom
        (UpdateRoom fx.store
          { (CalculateTwoTypesScores room room.Answers).room with
            Answers := (CalculateTwoTypesScores room room.Answers).answers }) roomID with
    | none => exact h1
    | some currentRoom =>
      simp only
      apply handleNextQuestion_historyFree
      apply HistoryFree_update _ _ h1
      exact (h1 roomID currentRoom hget).2

theorem handleQuestionTimeout_historyFree (draw : Nat) (roomID : String) (store : Store)
    (h : HistoryFree store) : HistoryFree (handleQuestionTimeout draw roomID store).fx.store := by
  unfold handleQuestionTimeout
  cases hget : GetRoom store roomID with
  | none => exact h
  | some room =>
    have hroom := (h roomID room hget).2
    simp only
    split
    · exact calculateAndShowResults_historyFree draw roomID room _ h hroom
    · split
      · apply handleNextQuestion_historyFree
        exact HistoryFree_update _ _ h hroom
      · exact handleNextQuestion_historyFree draw roomID _ h

theorem handleSubmitAnswer_historyFree (draw : Nat) (roomID clientID answer : String)
    (timeUsed : ℚ) (fx : Effects) (h : HistoryFree fx.store) :
    HistoryFree (handleSubmitAnswer draw roomID clientID answer timeUsed fx).store := by
  unfold handleSubmitAnswer
  cases hget : GetRoom fx.store roomID with
  | none => exact h
  | some room =>
    have hroom := (h roomID room hget).2
    simp only
    split
    · exact h
    · split
      · exact h
      · exact h
      · rename_i record room2 hsub
        obtain ⟨hr, _⟩ := SubmitTwoTypesAnswer_ok room clientID answer timeUsed record room2 hsub
        subst hr
        have hnew : ({ room2 with Answers := mapInsert room2.Answers clientID record } : Room).GameHistory
            = [] := hroom
        have h1 := HistoryFree_update fx.store _ h hnew
        split
        · exact calculateAndShowResults_historyFree draw roomID _ _ h1 hnew
        · exact h1

theorem sendFirstQuestion_historyFree (gq : Int → List Question) (roomID : String) (fx : Effects)
    (h : HistoryFree fx.store) : HistoryFree (sendFirstQuestion gq roomID fx).store := by
  unfold sendFirstQuestion
  cases hget : GetRoom fx.store roomID with
  | none => exact h
  | some room =>
    have hroom := (h roomID room hget).2
    have h1 : HistoryFree (UpdateRoom fx.store { room with Questions := gq room.TotalQuestions }) :=
      HistoryFree_update _ _ h hroom
    simp only
    by_cases hq : room.Questions.length = 0
    · rw [if_pos hq]
      by_cases hq2 : (gq room.TotalQuestions).length = 0
      · rw [if_pos hq2]
        exact h
      · rw [if_neg hq2]
        simp only
        split
        · exact h1
        · exact h1
    · rw [if_neg hq]
      simp only
      split
      · exact h
      · exact h

theorem resetFinishedRoom_historyFree (room : Room) (fx : Effects)
    (h : HistoryFree fx.store) (hroom : room.GameHistory = []) :
    HistoryFree (resetFinishedRoom room fx).2.store ∧
      (resetFinishedRoom room fx).1.GameHistory = [] := by
  unfold resetFinishedRoom
  split
  · exact ⟨HistoryFree_update _ _ h hroom, hroom⟩
  · exact ⟨h, hroom⟩

theorem StartTwoTypesGame_history (gq : Int → List Question) (draw : Nat) (room : Room) :
    (StartTwoTypesGame gq draw room).room.GameHistory = room.GameHistory := by
  unfold StartTwoTypesGame
  split
  · rfl
  · simp only
    split <;> rfl

theorem handleStartGame_historyFree (gq : Int → List Question) (draw : Nat) (isHost : Bool)
    (roomID : String) (fx : Effects) (h : HistoryFree fx.store) :
    HistoryFree (handleStartGame gq draw isHost roomID fx).store := by
  unfold handleStartGame
  split
  · exact h
  · cases hget : GetRoom fx.store roomID with
    | none => exact h
    | some room =>
      obtain ⟨hs, hr⟩ := resetFinishedRoom_historyFree room fx h (h roomID room hget).2
      simp only
      split
      · exact h
      · cases herr : (StartTwoTypesGame gq draw (resetFinishedRoom room fx).1).err with
        | some e => exact hs
        | none =>
          simp only
          apply sendFirstQuestion_historyFree
          apply HistoryFree_update _ _ hs
          rw [StartTwoTypesGame_history]
          exact hr

theorem replaceMissingHost_history (draw : Nat) (clientID : String) (room : Room) :
    (replaceMissingHost draw clientID room).1.GameHistory = room.GameHistory := by
  unfold replaceMissingHost
  dsimp only
  repeat' split
  all_goals rfl

theorem replaceOverride_history (draw : Nat) (clientID : String) (state : Room × Bool) :
    (replaceOverride draw clientID state).1.GameHistory = state.1.GameHistory := by
  unfold replaceOverride
  dsimp only
  repeat' split
  all_goals rfl

theorem playerLeaveUpdate_history (draw1 draw2 : Nat) (clientID : String) (client : Nat)
    (roomClients : List Nat) (room : Room) :
    (playerLeaveUpdate draw1 draw2 clientID client roomClients room).room.GameHistory
      = room.GameHistory := by
  have hstate := replaceOverride_history draw2 clientID
    (replaceMissingHost draw1 clientID { room with Answers := mapErase room.Answers clientID })
  rw [replaceMissingHost_history] at hstate
  unfold playerLeaveUpdate
  dsimp only
  repeat' split
  all_goals first | exact hstate | rfl

theorem handlePlayerLeaveInternal_historyFree (draw1 draw2 : Nat) (h : Hub) (client : Nat)
    (hstore : HistoryFree h.store) :
    HistoryFree (handlePlayerLeaveInternal draw1 draw2 h client).store := by
  cases hc : heapGet h.heap client with
  | none =>
    unfold handlePlayerLeaveInternal
    rw [hc]
    exact hstore
  | some c =>
    by_cases hguard : c.RoomID = "" ∨ c.PlayerName = ""
    · unfold handlePlayerLeaveInternal
      rw [hc]
      simp only
      rw [if_pos hguard]
      exact hstore
    · cases hstored : GetRoom h.store c.RoomID with
      | none =>
        unfold handlePlayerLeaveInternal
        rw [hc]
        simp only [hguard, if_false, RemovePlayer, hstored]
        exact hstore
      | some room0 =>
        obtain ⟨hkey, hroom⟩ := hstore c.RoomID room0 hstored
        rw [handlePlayerLeaveInternal_store_eq draw1 draw2 h client c room0 hc
          (fun e => hguard (Or.inl e)) (fun e => hguard (Or.inr e)) hstored hkey]
        apply HistoryFree_update_twice _ _ _ _ hstore
        · rw [playerLeaveUpdate_history]
          exact hroom
        · rw [playerLeaveUpdate_ID]

theorem HistoryFree_of_reachable (start store : Store) (hstart : HistoryFree start)
    (h : ReachableFrom start store) : HistoryFree store := by
  induction h with
  | refl => exact hstart
  | startGame gq draw isHost roomID fx _ ih =>
    exact handleStartGame_historyFree gq draw isHost roomID fx ih
  | submitAnswer draw roomID clientID answer timeUsed fx _ ih =>
    exact handleSubmitAnswer_historyFree draw roomID clientID answer timeUsed fx ih
  | timeout draw roomID store _ ih =>
    exact handleQuestionTimeout_historyFree draw roomID store ih
  | scoring draw roomID room fx _ hroom ih =>
    exact calculateAndShowResults_historyFree draw roomID room fx ih (ih roomID room hroom).2
  | nextQuestion draw roomID fx _ ih =>
    exact handleNextQuestion_historyFree draw roomID fx ih
  | leave draw1 draw2 hub client _ ih =>
    exact handlePlayerLeaveInternal_historyFree draw1 draw2 hub client ih

theorem HistoryFree_of_entries (store : Store)
    (h : ∀ e ∈ store, e.2.ID = e.1 ∧ e.2.GameHistory = []) : HistoryFree store := by
  intro roomID room hget
  exact h (roomID, room) (mapGet_mem store roomID room hget)

/-- With no history entry, every record of the statistics has zero counters. -/
theorem stats_of_empty_history (room : Room) (h : room.GameHistory = []) :
    ∀ stats ∈ calculatePlayerGameStats room,
      stats.AsHost = 0 ∧ stats.AsGuesser = 0 ∧ stats.CorrectGuesses = 0 ∧
      stats.TotalQuestions = room.TotalQuestions := by
  intro stats hstats
  have hperm : ((calculatePlayerGameStats room).map
        fun s => (s.AsHost, s.AsGuesser, s.CorrectGuesses, s.TotalQuestions)).Perm
      ((statsLines room).map fun s => (s.AsHost, s.AsGuesser, s.CorrectGuesses, s.TotalQuestions)) := by
    rw [calculatePlayerGameStats_eq,
      setStatsRanks_map (fun s => (s.AsHost, s.AsGuesser, s.CorrectGuesses, s.TotalQuestions))
        (fun _ _ => rfl)]
    exact (exchangeSort_perm _ _).map _
  have hin := hperm.mem_iff.mp (List.mem_map_of_mem
    (fun s : PlayerGameStats => (s.AsHost, s.AsGuesser, s.CorrectGuesses, s.TotalQuestions)) hstats)
  obtain ⟨s, hs, heq⟩ := List.mem_map.mp hin
  unfold statsLines at hs
  rw [h] at hs
  obtain ⟨e, he, hes⟩ := List.mem_map.mp hs
  have he2 : e ∈ initStats room := he
  unfold initStats at he2
  obtain ⟨e0, _, he0⟩ := List.mem_map.mp he2
  have hfields : (withAccuracy e.2).AsHost = 0 ∧ (withAccuracy e.2).AsGuesser = 0 ∧
      (withAccuracy e.2).CorrectGuesses = 0 ∧
      (withAccuracy e.2).TotalQuestions = room.TotalQuestions := by
    rw [← he0]
    unfold withAccuracy
    simp
  rw [hes] at hfields
  simp only [Prod.mk.injEq] at heq
  obtain ⟨q1, q2, q3, q4⟩ := heq
  exact ⟨q1 ▸ hfields.1, q2 ▸ hfields.2.1, q3 ▸ hfields.2.2.1, q4 ▸ hfields.2.2.2⟩

/-- C28: start from a store whose rooms have no history entry (rooms as they
are created) and let the handlers run.  In the store left by `handleStartGame`,
also when it restarts a finished room, the room has an empty question history,
and so has every room of every store reached later in that game; the
statistics computed from such a room count no round of an earlier game:
`AsHost = AsGuesser = 0`, hence `AsHost + AsGuesser <= TotalQuestions` for every
player when `TotalQuestions >= 0`.  `StartTwoTypesGame` returns a room without
history when it is given one. -/
theorem restart_history_empty (start : Store) (gq : Int → List Question) (draw : Nat)
    (isHost : Bool) (roomID : String) (fx : Effects) (room : Room)
    (hstart : ∀ e ∈ start, e.2.ID = e.1 ∧ e.2.GameHistory = [])
    (hreach : ReachableFrom start fx.store)
    (hget : GetRoom (handleStartGame gq draw isHost roomID fx).store roomID = some room) :
    room.GameHistory = [] ∧
    (∀ stats ∈ calculatePlayerGameStats room,
      stats.AsHost = 0 ∧ stats.AsGuesser = 0 ∧ stats.CorrectGuesses = 0 ∧
      (0 ≤ room.TotalQuestions → stats.AsHost + stats.AsGuesser ≤ stats.TotalQuestions)) ∧
    (∀ (later : Store) (laterID : String) (laterRoom : Room),
      ReachableFrom (handleStartGame gq draw isHost roomID fx).store later →
      GetRoom later laterID = some laterRoom →
      laterRoom.GameHistory = [] ∧
      ∀ stats ∈ calculatePlayerGameStats laterRoom,
        stats.AsHost = 0 ∧ stats.AsGuesser = 0 ∧ stats.CorrectGuesses = 0 ∧
        (0 ≤ laterRoom.TotalQuestions →
          stats.AsHost + stats.AsGuesser ≤ stats.TotalQuestions)) ∧
    (∀ (d : Nat) (room0 : Room), room0.GameHistory = [] →
      (StartTwoTypesGame gq d room0).room.GameHistory = []) := by
  have hfree : HistoryFree (handleStartGame gq draw isHost roomID fx).store :=
    HistoryFree_of_reachable start _ (HistoryFree_of_entries start hstart)
      (ReachableFrom.startGame gq draw isHost roomID fx hreach)
  have hstats : ∀ r : Room, r.GameHistory = [] →
      ∀ stats ∈ calculatePlayerGameStats r,
        stats.AsHost = 0 ∧ stats.AsGuesser = 0 ∧ stats.CorrectGuesses = 0 ∧
        (0 ≤ r.TotalQuestions → stats.AsHost + stats.AsGuesser ≤ stats.TotalQuestions) := by
    intro r hr stats hmem
    obtain ⟨h1, h2, h3, h4⟩ := stats_of_empty_history r hr stats hmem
    refine ⟨h1, h2, h3, ?_⟩
    intro h0
    rw [h1, h2, h4]
    simpa using h0
  have hroom := (hfree roomID room hget).2
  refine ⟨hroom, hstats room hroom, ?_, ?_⟩
  · intro later laterID laterRoom hlater hgetLater
    have hl := (HistoryFree_of_reachable _ later hfree hlater laterID laterRoom hgetLater).2
    exact ⟨hl, hstats laterRoom hl⟩
  · intro d room0 h0
    rw [StartTwoTypesGame_history]
    exact h0

/-- Witness of `restart_history_empty`: the game of one question of
`lastRoundStore` is played to its end and the finished room is restarted. -/
theorem restart_history_empty_witness :
    ((GetRoom finishedGameStore "ROOM01").map fun r => (r.Status, r.CurrentQuestion))
      = some (RoomStatus.finished, 2) ∧
    ((GetRoom (handleStartGame sampleBank 0 true "ROOM01"
        { store := finishedGameStore, outbox := [], panicked := false }).store "ROOM01").map
      fun r => (r.Status, r.CurrentQuestion)) = some (RoomStatus.questionDisplay, 1) ∧
    ∃ room, GetRoom (handleStartGame sampleBank 0 true "ROOM01"
        { store := finishedGameStore, outbox := [], panicked := false }).store "ROOM01"
      = some room ∧ room.GameHistory = [] := by
  refine ⟨by decide!, by decide!, ?_⟩
  cases hget : GetRoom (handleStartGame sampleBank 0 true "ROOM01"
      { store := finishedGameStore, outbox := [], panicked := false }).store "ROOM01" with
  | none =>
    have hsome : (GetRoom (handleStartGame sampleBank 0 true "ROOM01"
      { store := finishedGameStore, outbox := [], panicked := false }).store "ROOM01").isSome
        = true := by decide!
    rw [hget] at hsome
    cases hsome
  | some room =>
    exact ⟨room, rfl,
      (restart_history_empty lastRoundStore sampleBank 0 true "ROOM01"
        { store := finishedGameStore, outbox := [], panicked := false } room
        (by decide)
        (ReachableFrom.submitAnswer 0 "ROOM01" "A" "A" 2
          { store := lastRoundStore, outbox := [], panicked := false } ReachableFrom.refl)
        hget).1⟩

end Kahoot
